import Mathlib

/-! Advanced-XSS-Lib: a shallow embedding of the detection and sanitization engine.

JavaScript strings are sequences of UTF-16 code units; they are modelled as lists of
natural numbers (one per code unit).  Regular expressions of the library carry no `u`
flag, so they work on code units as well.
-/

namespace XssLib

/-- A JavaScript string: the list of its UTF-16 code units. -/
abbrev JSString := List Nat

/-- UTF-16 code units of one Unicode scalar value. -/
def utf16 (c : Char) : List Nat :=
  if c.toNat < 65536 then [c.toNat]
  else [55296 + (c.toNat - 65536) / 1024, 56320 + (c.toNat - 65536) % 1024]

/-- The JavaScript string written as the given literal. -/
def js (s : String) : JSString := s.toList.flatMap utf16

/-! ## Character classes of ECMAScript regular expressions (no `u` flag) -/

/-- The class `[0-9]`, also written `\d`. -/
def isDigit (c : Nat) : Bool := decide (48 ≤ c) && decide (c ≤ 57)

/-- The class `[a-z]`. -/
def isLower (c : Nat) : Bool := decide (97 ≤ c) && decide (c ≤ 122)

/-- The class `[A-Z]`. -/
def isUpper (c : Nat) : Bool := decide (65 ≤ c) && decide (c ≤ 90)

/-- The class `\w`, that is `[A-Za-z0-9_]`. -/
def isWord (c : Nat) : Bool := isLower c || isUpper c || isDigit c || c == 95

/-- The class `\s`: ECMAScript WhiteSpace and LineTerminator code points. -/
def isSpace (c : Nat) : Bool :=
  (decide (9 ≤ c) && decide (c ≤ 13)) || c == 32 || c == 160 || c == 5760 ||
  (decide (8192 ≤ c) && decide (c ≤ 8202)) || c == 8232 || c == 8233 || c == 8239 ||
  c == 8287 || c == 12288 || c == 65279

/-- Line terminators, the code units that `.` does not match. -/
def isLineTerminator (c : Nat) : Bool := c == 10 || c == 13 || c == 8232 || c == 8233

/-- The class `[0-9a-fA-F]`. -/
def isHexDigit (c : Nat) : Bool :=
  isDigit c || (decide (97 ≤ c) && decide (c ≤ 102)) || (decide (65 ≤ c) && decide (c ≤ 70))

/-- Canonicalize of the `i` flag restricted to what an ASCII pattern character can
match: ASCII letters are folded to upper case, everything else is left alone. -/
def canon (c : Nat) : Nat := if isLower c then c - 32 else c

/-- ASCII lower-casing, used to state "in any letter case". -/
def asciiLower (c : Nat) : Nat := if isUpper c then c + 32 else c

/-! ## Regular expressions -/

/-- The regular-expression constructs used by the patterns of the library. -/
inductive Re where
  | chr (p : Nat → Bool) : Re
  | eps : Re
  | seq (a b : Re) : Re
  | alt (a b : Re) : Re
  | star (greedy : Bool) (a : Re) : Re

namespace Re

/-- Iteration of a quantified atom: `step` gives the ways the atom can match, the
results are the remainders of the input in the priority order of a backtracking
matcher.  An iteration that consumes nothing is rejected, as in ECMAScript. -/
def starLoop (step : JSString → List JSString) (greedy : Bool) : Nat → JSString → List JSString
  | 0, s => [s]
  | fuel + 1, s =>
    let more := ((step s).filter (fun r => decide (r.length < s.length))).flatMap
      (starLoop step greedy fuel)
    if greedy then more ++ [s] else s :: more

/-- All ways the pattern can match a prefix of the input: the list of remainders, in
the order in which a backtracking matcher tries them. -/
def run : Re → JSString → List JSString
  | chr _, [] => []
  | chr p, c :: cs => if p c then [cs] else []
  | eps, s => [s]
  | seq a b, s => (run a s).flatMap (run b)
  | alt a b, s => run a s ++ run b s
  | star g a, s => starLoop (run a) g s.length s

/-- Length of the match the matcher finds at the start of the input, if any. -/
def matchLen (re : Re) (s : JSString) : Option Nat :=
  match re.run s with
  | [] => none
  | r :: _ => some (s.length - r.length)

/-- Leftmost match at or after the start of the input: offsets of its start and end. -/
def find (re : Re) : JSString → Option (Nat × Nat)
  | [] => (re.matchLen []).map (fun n => (0, n))
  | c :: cs =>
    match re.matchLen (c :: cs) with
    | some n => some (0, n)
    | none => (find re cs).map (fun p => (p.1 + 1, p.2 + 1))

/-- The scan of `String.prototype.replace` with a global pattern and the replacement
`''`: `skip` counts the code units that belong to the match found last. -/
def scanRemove (re : Re) : JSString → Nat → JSString
  | [], _ => []
  | _ :: cs, skip + 1 => scanRemove re cs skip
  | c :: cs, 0 =>
    match re.matchLen (c :: cs) with
    | some (n + 1) => scanRemove re cs n
    | _ => c :: scanRemove re cs 0

/-- The call `s.replace(/re/g, '')`. -/
def removeAll (re : Re) (s : JSString) : JSString := scanRemove re s 0

/-- The scan of `String.prototype.match` with a global pattern: the matched substrings. -/
def scanMatches (re : Re) : JSString → Nat → List JSString
  | [], _ => if (re.matchLen []).isSome then [[]] else []
  | _ :: cs, skip + 1 => scanMatches re cs skip
  | c :: cs, 0 =>
    match re.matchLen (c :: cs) with
    | some n => (c :: cs).take n :: scanMatches re cs (n - 1)
    | none => scanMatches re cs 0

/-- One character of a pattern; with the `i` flag it matches both letter cases. -/
def lit (ci : Bool) (c : Nat) : Re :=
  chr (fun d => if ci then canon d == canon c else d == c)

/-- A character class; with the `i` flag a code unit matches when one of its letter
cases is in the class. -/
def cls (ci : Bool) (p : Nat → Bool) : Re :=
  chr (fun d => p d || (ci && (p (canon d) || p (asciiLower d))))

/-- Concatenation of a list of patterns. -/
def seqs : List Re → Re
  | [] => eps
  | [a] => a
  | a :: as => seq a (seqs as)

/-- A literal piece of pattern text. -/
def str (ci : Bool) (s : String) : Re := seqs ((js s).map (lit ci))

/-- The atom `.`. -/
def dot : Re := chr (fun d => !isLineTerminator d)

/-- The quantifier `+`. -/
def plus (a : Re) : Re := seq a (star true a)

/-- The quantifier `?`. -/
def opt (a : Re) : Re := alt a eps

end Re

/-! ## RegExp objects with the global flag (`lastIndex` is mutable state) -/

/-- The method `RegExp.prototype.test` of a global pattern whose `lastIndex` is `last`:
the search starts at `last`; the result is the answer and the new `lastIndex` (the end
of the match found, or `0` when there is none). -/
def regexTest (re : Re) (last : Nat) (input : JSString) : Bool × Nat :=
  if input.length < last then (false, 0)
  else
    match re.find (input.drop last) with
    | some p => (true, last + p.2)
    | none => (false, 0)

/-- The call `input.match(pattern)` with a global pattern: `lastIndex` is set to `0`,
all matches are collected and `lastIndex` is `0` again at the end; the result is `null`
(here `none`) when there is no match. -/
def stringMatch (re : Re) (input : JSString) : Option (List JSString) × Nat :=
  match re.scanMatches input 0 with
  | [] => (none, 0)
  | ms => (some ms, 0)

/-! ## src/core/threatDetection.js -/

/-- A pattern of a catalog: its source text and its syntax tree. -/
structure Pattern where
  source : String
  re : Re

open Re in
/-- The constant `threatPatterns`. -/
def threatPatterns : List Pattern := [
  ⟨"/<script.*?>.*?<\\/script>/gi",
    seqs [str true "<script", star false dot, str true ">", star false dot,
      str true "</script>"]⟩,
  ⟨"/<img.*?onerror\\s*=\\s*['\"].*?['\"].*?>/gi",
    seqs [str true "<img", star false dot, str true "onerror", star true (chr isSpace),
      str true "=", star true (chr isSpace), cls true (fun c => c == 39 || c == 34),
      star false dot, cls true (fun c => c == 39 || c == 34), star false dot,
      str true ">"]⟩,
  ⟨"/<a.*?href\\s*=\\s*['\"]javascript:.*?['\"].*?>/gi",
    seqs [str true "<a", star false dot, str true "href", star true (chr isSpace),
      str true "=", star true (chr isSpace), cls true (fun c => c == 39 || c == 34),
      str true "javascript:", star false dot, cls true (fun c => c == 39 || c == 34),
      star false dot, str true ">"]⟩,
  ⟨"/<.*?on\\w+\\s*=\\s*['\"].*?['\"].*?>/gi",
    seqs [str true "<", star false dot, str true "on", plus (cls true isWord),
      star true (chr isSpace), str true "=", star true (chr isSpace),
      cls true (fun c => c == 39 || c == 34), star false dot,
      cls true (fun c => c == 39 || c == 34), star false dot, str true ">"]⟩,
  ⟨"/<.*?style\\s*=\\s*['\"].*?expression\\s*?.*?['\"].*?>/gi",
    seqs [str true "<", star false dot, str true "style", star true (chr isSpace),
      str true "=", star true (chr isSpace), cls true (fun c => c == 39 || c == 34),
      star false dot, str true "expression", star false (chr isSpace), star false dot,
      cls true (fun c => c == 39 || c == 34), star false dot, str true ">"]⟩,
  ⟨"/javascript\\s*:.*?['\"]/gi",
    seqs [str true "javascript", star true (chr isSpace), str true ":", star false dot,
      cls true (fun c => c == 39 || c == 34)]⟩,
  ⟨"/\\/\\*.*?\\*\\//g", seqs [str false "/*", star false dot, str false "*/"]⟩,
  ⟨"/%3C.*?%3E/gi", seqs [str true "%3C", star false dot, str true "%3E"]⟩,
  ⟨"/<.*?src\\s*=\\s*['\"].*?data:.*?['\"].*?>/gi",
    seqs [str true "<", star false dot, str true "src", star true (chr isSpace),
      str true "=", star true (chr isSpace), cls true (fun c => c == 39 || c == 34),
      star false dot, str true "data:", star false dot,
      cls true (fun c => c == 39 || c == 34), star false dot, str true ">"]⟩,
  ⟨"/eval\\s*\\(/gi", seqs [str true "eval", star true (chr isSpace), str true "("]⟩,
  ⟨"/document\\.cookie/gi", str true "document.cookie"⟩,
  ⟨"/document\\.location/gi", str true "document.location"⟩,
  ⟨"/document\\.write/gi", str true "document.write"⟩,
  ⟨"/localStorage/gi", str true "localStorage"⟩,
  ⟨"/sessionStorage/gi", str true "sessionStorage"⟩,
  ⟨"/\\\\_x[0-9A-F]{4}_/gi",
    seqs [str true "\\_x", cls true (fun c => isDigit c || (decide (65 ≤ c) && decide (c ≤ 70))),
      cls true (fun c => isDigit c || (decide (65 ≤ c) && decide (c ≤ 70))),
      cls true (fun c => isDigit c || (decide (65 ≤ c) && decide (c ≤ 70))),
      cls true (fun c => isDigit c || (decide (65 ≤ c) && decide (c ≤ 70))),
      str true "_"]⟩,
  ⟨"/fromCharCode/gi", str true "fromCharCode"⟩,
  ⟨"/String\\.fromCharCode/gi", str true "String.fromCharCode"⟩,
  ⟨"/\\&#x[0-9a-f]+;/gi",
    seqs [str true "&#x",
      plus (cls true (fun c => isDigit c || (decide (97 ≤ c) && decide (c ≤ 102)))),
      str true ";"]⟩,
  ⟨"/\\&#\\d+;/gi", seqs [str true "&#", plus (chr isDigit), str true ";"]⟩]

open Re in
/-- The constant `domBasedPatterns`. -/
def domBasedPatterns : List Pattern := [
  ⟨"/location\\.hash/gi", str true "location.hash"⟩,
  ⟨"/location\\.href/gi", str true "location.href"⟩,
  ⟨"/location\\.search/gi", str true "location.search"⟩,
  ⟨"/document\\.referrer/gi", str true "document.referrer"⟩,
  ⟨"/window\\.name/gi", str true "window.name"⟩,
  ⟨"/\\$\\(.*\\)/gi", seqs [str true "$(", star true dot, str true ")"]⟩,
  ⟨"/innerHTML/gi", str true "innerHTML"⟩,
  ⟨"/outerHTML/gi", str true "outerHTML"⟩,
  ⟨"/insertAdjacentHTML/gi", str true "insertAdjacentHTML"⟩,
  ⟨"/document\\.write/gi", str true "document.write"⟩,
  ⟨"/document\\.writeln/gi", str true "document.writeln"⟩,
  ⟨"/eval\\s*\\(/gi", seqs [str true "eval", star true (chr isSpace), str true "("]⟩,
  ⟨"/setTimeout\\s*\\(/gi",
    seqs [str true "setTimeout", star true (chr isSpace), str true "("]⟩,
  ⟨"/setInterval\\s*\\(/gi",
    seqs [str true "setInterval", star true (chr isSpace), str true "("]⟩,
  ⟨"/new\\s+Function\\s*\\(/gi",
    seqs [str true "new", plus (chr isSpace), str true "Function", star true (chr isSpace),
      str true "("]⟩]

open Re in
/-- The local constant `encodedPatterns` of `isXSSThreat`: these RegExp objects are
created anew by every call, so their `lastIndex` is `0` whenever they are used. -/
def encodedPatterns : List Pattern := [
  ⟨"/%3C.*?%3E/g", seqs [str false "%3C", star false dot, str false "%3E"]⟩,
  ⟨"/%3A/g", str false "%3A"⟩,
  ⟨"/%2F/g", str false "%2F"⟩,
  ⟨"/%22/g", str false "%22"⟩,
  ⟨"/%27/g", str false "%27"⟩,
  ⟨"/%28/g", str false "%28"⟩,
  ⟨"/%29/g", str false "%29"⟩]

/-- The mutable state of the module: the `lastIndex` of every RegExp object of
`threatPatterns` and of `domBasedPatterns`, in catalog order. -/
structure DetectorState where
  threatIdx : List Nat
  domIdx : List Nat
deriving DecidableEq, Repr

/-- The state when the module has just been loaded. -/
def DetectorState.initial : DetectorState :=
  ⟨threatPatterns.map (fun _ => 0), domBasedPatterns.map (fun _ => 0)⟩

/-- The loop `for (const pattern of patterns) if (pattern.test(input)) return true`:
the answer and the `lastIndex` values afterwards (the patterns after the first hit are
not touched). -/
def anyTest (input : JSString) : List Pattern → List Nat → Bool × List Nat
  | p :: ps, i :: is =>
    let r := regexTest p.re i input
    if r.1 then (true, r.2 :: is)
    else
      let rest := anyTest input ps is
      (rest.1, r.2 :: rest.2)
  | _, is => (false, is)

/-- A value passed to the library: what the code looks at is whether it is `undefined`,
`null`, a string, or something else; of a value that is something else (a number, a
boolean, an object, an array) only the result of `String(value)` matters, `none` when
that conversion throws. -/
inductive JSValue where
  | undefined : JSValue
  | null : JSValue
  | string (s : JSString) : JSValue
  | other (rendering : Option JSString) : JSValue
deriving DecidableEq, Repr

/-- The guard `!input || typeof input !== 'string'`: the string when it is passed. -/
def nonEmptyString : JSValue → Option JSString
  | .string (c :: cs) => some (c :: cs)
  | _ => none

/-- The function `isXSSThreat`. -/
def isXSSThreat (st : DetectorState) (input : JSValue) : Bool × DetectorState :=
  match nonEmptyString input with
  | none => (false, st)
  | some s =>
    let r := anyTest s threatPatterns st.threatIdx
    if r.1 then (true, { st with threatIdx := r.2 })
    else
      ((anyTest s encodedPatterns (encodedPatterns.map (fun _ => 0))).1,
        { st with threatIdx := r.2 })

/-- The function `isDOMBasedThreat`. -/
def isDOMBasedThreat (st : DetectorState) (input : JSValue) : Bool × DetectorState :=
  match nonEmptyString input with
  | none => (false, st)
  | some s =>
    let r := anyTest s domBasedPatterns st.domIdx
    (r.1, { st with domIdx := r.2 })

/-- An element of `reflectedXss` or `domBasedXss`; `matched` is the property `matches`. -/
structure ThreatEntry where
  patternIndex : Nat
  pattern : String
  matched : Option (List JSString)
deriving DecidableEq, Repr

/-- The loop `patterns.forEach((pattern, index) => ...)` of `analyzeThreat`, from the
index `index` on: the entries pushed and the `lastIndex` values afterwards. -/
def collect (input : JSString) : Nat → List Pattern → List Nat → List ThreatEntry × List Nat
  | index, p :: ps, i :: is =>
    let t := regexTest p.re i input
    let rest := collect input (index + 1) ps is
    if t.1 then
      let m := stringMatch p.re input
      (⟨index, p.source, m.1⟩ :: rest.1, m.2 :: rest.2)
    else (rest.1, t.2 :: rest.2)
  | _, _, is => ([], is)

/-- The object returned by `analyzeThreat`; the early return `{ isThreat: false }` has
none of the other properties. -/
structure ThreatInfo where
  isThreat : Bool
  reflectedXss : Option (List ThreatEntry)
  domBasedXss : Option (List ThreatEntry)
  input : Option JSString
  timestamp : Option String
deriving DecidableEq, Repr

/-- The function `analyzeThreat`; `now` is what `new Date().toISOString()` gives. -/
def analyzeThreat (now : String) (st : DetectorState) (input : JSValue) :
    ThreatInfo × DetectorState :=
  match nonEmptyString input with
  | none => (⟨false, none, none, none, none⟩, st)
  | some s =>
    let threats := collect s 0 threatPatterns st.threatIdx
    let domThreats := collect s 0 domBasedPatterns st.domIdx
    (⟨decide (0 < threats.1.length) || decide (0 < domThreats.1.length),
      some threats.1, some domThreats.1,
      some (s.take 100 ++ (if 100 < s.length then js "..." else [])), some now⟩,
     ⟨threats.2, domThreats.2⟩)

/-! ## IEEE 754 double arithmetic, as far as the percentages need it -/

/-- A non-negative double below `2 ^ 53`, written exactly: the value `num / 2 ^ shift`. -/
structure Dbl where
  num : Nat
  shift : Nat
deriving DecidableEq, Repr

/-- The exact value of a double. -/
def Dbl.value (d : Dbl) : ℚ := (d.num : ℚ) / 2 ^ d.shift

/-- The comparison `d > n` with a natural number `n`. -/
def Dbl.gtNat (d : Dbl) (n : Nat) : Bool := decide (n * 2 ^ d.shift < d.num)

/-- The integer nearest to `n / d`, ties going to the even one. -/
def roundHalfEven (n d : Nat) : Nat :=
  if 2 * (n % d) < d then n / d
  else if d < 2 * (n % d) then n / d + 1
  else if (n / d) % 2 = 0 then n / d else n / d + 1

/-- Helper of `ilog2`: halving until the number is below `2`. -/
def ilog2Loop : Nat → Nat → Nat
  | 0, _ => 0
  | fuel + 1, n => if n < 2 then 0 else ilog2Loop fuel (n / 2) + 1

/-- The position of the leading bit: `2 ^ ilog2 n ≤ n < 2 ^ (ilog2 n + 1)` for `0 < n`. -/
def ilog2 (n : Nat) : Nat := ilog2Loop n n

/-- The double nearest to `a / b` (round to nearest, ties to even, 53 significant bits);
`b` is positive.  Overflow and subnormal results are out of reach of the percentages and
are not modelled. -/
def roundRatio (a b : Nat) : Dbl :=
  if a = 0 then ⟨0, 0⟩
  else
    let la := ilog2 a
    let lb := ilog2 b
    let up := 52 + lb + (if b * 2 ^ la ≤ a * 2 ^ lb then 0 else 1)
    if la ≤ up then ⟨roundHalfEven (a * 2 ^ (up - la)) b, up - la⟩
    else ⟨roundHalfEven a (b * 2 ^ (la - up)) * 2 ^ (la - up), 0⟩

/-- The expression `(count / total) * 100` in double arithmetic: the quotient is
rounded, then the product. -/
def percentage (count total : Nat) : Dbl :=
  let q := roundRatio count total
  roundRatio (q.num * 100) (2 ^ q.shift)

/-! ## src/utils/heuristicDetection.js -/

/-- The statement `frequencies[char] = (frequencies[char] || 0) + 1` on the table of
the characters seen so far. -/
def bump (char : Nat) : List (Nat × Nat) → List (Nat × Nat)
  | [] => [(char, 1)]
  | (c, n) :: rest => if c = char then (c, n + 1) :: rest else (c, n) :: bump char rest

/-- The first loop of `calculateEntropy`: the table `frequencies`. -/
def frequencies (str : JSString) : List (Nat × Nat) :=
  str.foldl (fun table char => bump char table) []

/-- The function `calculateEntropy` on a string, over an ordered field `K` with the
logarithm `log2` standing for `Math.log2`; the arithmetic of `K` is exact, and the order
in which the table is summed plays no role then. -/
def calculateEntropy {K : Type} [LinearOrderedField K] (log2 : K → K) (str : JSString) : K :=
  if str.length = 0 then 0
  else
    (frequencies str).foldl
      (fun entropy entry =>
        let p : K := (entry.2 : K) / (str.length : K)
        entropy - p * log2 p) 0

/-- The seven counters or percentages of `getCharTypeDistribution`. -/
structure Dist (α : Type) where
  lowercase : α
  uppercase : α
  numeric : α
  special : α
  whitespace : α
  hex : α
  control : α
deriving DecidableEq, Repr

/-- One round of the loop of `getCharTypeDistribution`: the chain of tests on the
character with code `code`. -/
def countChar (dist : Dist Nat) (code : Nat) : Dist Nat :=
  if isLower code then { dist with lowercase := dist.lowercase + 1 }
  else if isUpper code then { dist with uppercase := dist.uppercase + 1 }
  else if isDigit code then { dist with numeric := dist.numeric + 1 }
  else if isSpace code then { dist with whitespace := dist.whitespace + 1 }
  else if isHexDigit code then { dist with hex := dist.hex + 1 }
  else if code < 32 || code == 127 then { dist with control := dist.control + 1 }
  else { dist with special := dist.special + 1 }

/-- The counters of `getCharTypeDistribution` after its loop. -/
def charCounts (str : JSString) : Dist Nat :=
  str.foldl countChar ⟨0, 0, 0, 0, 0, 0, 0⟩

/-- The function `getCharTypeDistribution` on a string; the empty string gives the
empty object `{}`, here `none`. -/
def getCharTypeDistribution (str : JSString) : Option (Dist Dbl) :=
  if str.length = 0 then none
  else
    let dist := charCounts str
    let total := str.length
    some ⟨percentage dist.lowercase total, percentage dist.uppercase total,
      percentage dist.numeric total, percentage dist.special total,
      percentage dist.whitespace total, percentage dist.hex total,
      percentage dist.control total⟩

/-- The object returned by `analyzeSuspiciousCharacteristics`; the early return
`{ suspicious: false }` has none of the other properties. -/
structure Analysis (K : Type) where
  entropy : Option K
  charDist : Option (Dist Dbl)
  suspicious : Bool
  reasons : Option (List String)

/-- The four checks of `analyzeSuspiciousCharacteristics`, each setting `suspicious`
and pushing its reason. -/
def suspicionReasons {K : Type} [LinearOrderedField K] (entropy : K) (charDist : Dist Dbl) :
    List String :=
  (if 5 < entropy then ["High entropy"] else []) ++
  (if charDist.hex.gtNat 50 && charDist.special.gtNat 5 then ["Possible hex encoding"]
    else []) ++
  (if charDist.special.gtNat 30 then ["High percentage of special characters"] else []) ++
  (if charDist.control.gtNat 0 then ["Contains control characters"] else [])

/-- The function `analyzeSuspiciousCharacteristics` on a string. -/
def analyzeSuspiciousCharacteristics {K : Type} [LinearOrderedField K] (log2 : K → K)
    (str : JSString) : Analysis K :=
  match getCharTypeDistribution str with
  | none => ⟨none, none, false, none⟩
  | some charDist =>
    let entropy := calculateEntropy log2 str
    let reasons := suspicionReasons entropy charDist
    ⟨some entropy, some charDist, !reasons.isEmpty, some reasons⟩

/-! ## JavaScript objects, as far as the library builds them -/

/-- The own enumerable properties of an object, in insertion order. -/
abbrev Obj (V : Type) := List (String × V)

/-- The assignment `o[key] = value`: an existing property keeps its place. -/
def Obj.set {V : Type} : Obj V → String → V → Obj V
  | [], key, value => [(key, value)]
  | (k, v) :: rest, key, value =>
    if k = key then (k, value) :: rest else (k, v) :: Obj.set rest key value

/-- The object literal `{ ...a, ...b }`. -/
def Obj.spread {V : Type} (a b : Obj V) : Obj V :=
  b.foldl (fun o kv => Obj.set o kv.1 kv.2) a

/-- The property access `o[key]` on own properties. -/
def Obj.get {V : Type} : Obj V → String → Option V
  | [], _ => none
  | (k, v) :: rest, key => if k = key then some v else Obj.get rest key

/-- A value that ends up in a log record. -/
inductive LogValue where
  | undefined : LogValue
  | bool (b : Bool) : LogValue
  | num (n : Nat) : LogValue
  | str (s : JSString) : LogValue
  | arr (items : List LogValue) : LogValue
  | obj (props : List (String × LogValue)) : LogValue

/-- A threat entry as a JavaScript object. -/
def ThreatEntry.toLogValue (e : ThreatEntry) : LogValue :=
  .obj [("patternIndex", .num e.patternIndex), ("pattern", .str (js e.pattern)),
    ("matches", match e.matched with
      | none => .undefined
      | some ms => .arr (ms.map LogValue.str))]

/-- The properties of the object returned by `analyzeThreat`. -/
def ThreatInfo.toObj (t : ThreatInfo) : Obj LogValue :=
  [("isThreat", LogValue.bool t.isThreat)] ++
  (match t.reflectedXss with
    | some es => [("reflectedXss", LogValue.arr (es.map ThreatEntry.toLogValue))]
    | none => []) ++
  (match t.domBasedXss with
    | some es => [("domBasedXss", LogValue.arr (es.map ThreatEntry.toLogValue))]
    | none => []) ++
  (match t.input with
    | some i => [("input", LogValue.str i)]
    | none => []) ++
  (match t.timestamp with
    | some ts => [("timestamp", LogValue.str (js ts))]
    | none => [])

/-! ## src/utils/logger.js -/

/-- The values of `LOG_LEVELS`, in the order of `Object.values`. -/
def LOG_LEVELS : List String := ["debug", "info", "warn", "error"]

/-- The module variable `config`. -/
structure LoggerConfig where
  logLevel : String
  enableConsole : Bool
  enableFile : Bool
  filePath : String
  anonymizeData : Bool
deriving DecidableEq, Repr

/-- The initial value of `config`. -/
def LoggerConfig.default : LoggerConfig :=
  ⟨"info", true, false, "./xss-protection.log", false⟩

/-- The argument of `configure`: each property may be absent. -/
structure LoggerOptions where
  logLevel : Option String := none
  enableConsole : Option Bool := none
  enableFile : Option Bool := none
  filePath : Option String := none
  anonymizeData : Option Bool := none

/-- The function `configure` of the logger: `config = { ...config, ...options }`. -/
def loggerConfigure (config : LoggerConfig) (options : LoggerOptions) : LoggerConfig :=
  ⟨options.logLevel.getD config.logLevel, options.enableConsole.getD config.enableConsole,
    options.enableFile.getD config.enableFile, options.filePath.getD config.filePath,
    options.anonymizeData.getD config.anonymizeData⟩

/-- The method `indexOf` of an array of strings, `-1` when the string is absent. -/
def indexOf (xs : List String) (x : String) : Int :=
  if x ∈ xs then (xs.indexOf x : Int) else -1

/-- The function `shouldLog`. -/
def shouldLog (config : LoggerConfig) (level : String) : Bool :=
  decide (indexOf LOG_LEVELS config.logLevel ≤ indexOf LOG_LEVELS level)

/-- The function `getConsoleMethod`: the name of the console method. -/
def getConsoleMethod (level : String) : String :=
  if level = "debug" then "debug"
  else if level = "info" then "info"
  else if level = "warn" then "warn"
  else if level = "error" then "error"
  else "log"

/-- The text `[String: n chars]` or `[Empty string]` that `anonymize` gives for a string. -/
def anonymizeString (data : JSString) : JSString :=
  if 0 < data.length then js "[String: " ++ js (toString data.length) ++ js " chars]"
  else js "[Empty string]"

mutual
/-- The function `anonymize`. -/
def anonymize : LogValue → LogValue
  | .str s => .str (anonymizeString s)
  | .arr items => .arr (anonymizeItems items)
  | .obj props => .obj (anonymizeProps props)
  | v => v
/-- The loop of `anonymize` over the elements of an array. -/
def anonymizeItems : List LogValue → List LogValue
  | [] => []
  | v :: vs => anonymize v :: anonymizeItems vs
/-- The loop of `anonymize` over the own properties of an object. -/
def anonymizeProps : List (String × LogValue) → List (String × LogValue)
  | [] => []
  | (k, v) :: rest => (k, anonymize v) :: anonymizeProps rest
end

/-- A call of a console method: which one, its first argument, its second argument. -/
structure ConsoleCall where
  method : String
  text : String
  data : Obj LogValue

/-- The function `log`: what it prints.  The object `logData`, the only thing the
statement `logData.data = anonymize(logData.data)` touches, is dropped at the end of the
function; the console receives the argument `data` itself.  Writing to a file is a stub. -/
def log (config : LoggerConfig) (now : String) (level message : String)
    (data : Obj LogValue) : List ConsoleCall :=
  if !shouldLog config level then []
  else if config.enableConsole then
    [⟨getConsoleMethod level, "[" ++ now ++ "] [" ++ level.toUpper ++ "] " ++ message, data⟩]
  else []

/-- The function `logThreat`: the object `data` is `{ input: ..., ...threatInfo }`. -/
def logThreat (config : LoggerConfig) (now : String) (input : JSString)
    (threatInfo : Obj LogValue) : List ConsoleCall :=
  let data := Obj.spread
    [("input", if config.anonymizeData then anonymize (.str input) else .str (input.take 100))]
    threatInfo
  log config now "warn" "XSS threat detected" data

/-- The function `logSanitization`; the answer is `none` when the function throws a
TypeError: `after.length` on `undefined` or `null`, `after.substring` on a value that is
not a string. -/
def logSanitization (config : LoggerConfig) (now : String) (policy : String)
    (before : JSString) (after : JSValue) : Option (List ConsoleCall) :=
  match after with
  | .undefined => none
  | .null => none
  | .string a =>
    let data : Obj LogValue :=
      [("policy", .str (js policy)), ("changed", .bool (decide (before ≠ a))),
        ("beforeLength", .num before.length), ("afterLength", .num a.length)]
    let data := if !config.anonymizeData then
        Obj.set (Obj.set data "before" (.str (before.take 50))) "after" (.str (a.take 50))
      else data
    some (log config now "info" "Content sanitized" data)
  | .other _ =>
    if !config.anonymizeData then none
    else
      some (log config now "info" "Content sanitized"
        [("policy", .str (js policy)), ("changed", .bool true),
          ("beforeLength", .num before.length), ("afterLength", .undefined)])

/-! ## Options objects -/

/-- An error thrown by the library or through it. -/
inductive JSError where
  | threatDetected : JSError
  | thrownByTransform (what : String) : JSError
  | typeError (what : String) : JSError
deriving DecidableEq, Repr

/-- The options object that callers pass to `sanitizeInput` and to the sanitizers, and
that reaches the package sanitize-html: each property may be absent.  `transform` is
the callback of the custom policy; it may throw and may return any value. -/
structure Options where
  policy : Option String := none
  context : Option String := none
  throwOnThreat : Option Bool := none
  logThreat : Option Bool := none
  transform : Option (JSString → Except String JSValue) := none
  allowedTags : Option (List String) := none
  allowedAttributes : Option (Obj (List String)) := none
  allowedSchemes : Option (List String) := none
  disallowedTagsMode : Option String := none

/-- The object literal `{ ...a, ...b }` on options objects. -/
def Options.spread (a b : Options) : Options :=
  { policy := b.policy <|> a.policy
    context := b.context <|> a.context
    throwOnThreat := b.throwOnThreat <|> a.throwOnThreat
    logThreat := b.logThreat <|> a.logThreat
    transform := b.transform <|> a.transform
    allowedTags := b.allowedTags <|> a.allowedTags
    allowedAttributes := b.allowedAttributes <|> a.allowedAttributes
    allowedSchemes := b.allowedSchemes <|> a.allowedSchemes
    disallowedTagsMode := b.disallowedTagsMode <|> a.disallowedTagsMode }

/-- The packages the library calls: `purify.sanitize(input, config)` of DOMPurify with
the fixed configuration of `purifyHtml`, and `sanitizeHtml(input, options)` of
sanitize-html. -/
structure Libs where
  domPurify : JSString → JSString
  sanitizeHtml : JSString → Options → JSString

/-! ## src/core/htmlParser.js -/

/-- The function `purifyHtml` on a string. -/
def purifyHtml (libs : Libs) (input : JSString) : JSString := libs.domPurify input

/-- The constant `defaultOptions` of `sanitizeWithOptions`. -/
def sanitizeDefaultOptions : Options :=
  { allowedTags := some ["b", "i", "u", "a", "p", "br", "ul", "ol", "li", "h1", "h2", "h3",
      "h4", "h5", "h6"]
    allowedAttributes := some [("a", ["href", "target"]), ("*", ["class"])]
    allowedSchemes := some ["http", "https", "mailto"]
    disallowedTagsMode := some "discard" }

/-- The object `mergedOptions` of `sanitizeWithOptions`: the configuration that the
package sanitize-html receives. -/
def sanitizeConfig (options : Options) : Options := Options.spread sanitizeDefaultOptions options

/-- The function `sanitizeWithOptions`. -/
def sanitizeWithOptions (libs : Libs) (input : JSValue) (options : Options) : JSValue :=
  match input with
  | .string s => .string (libs.sanitizeHtml s (sanitizeConfig options))
  | v => v

/-! ## src/sanitizers -/

/-- The function `basicSanitize`. -/
def basicSanitize (libs : Libs) (input : JSValue) (_options : Options) : JSValue :=
  match input with
  | .string s => .string (purifyHtml libs s)
  | v => v

/-- The constant `strictOptions` of `strictSanitize`. -/
def strictOptions : Options :=
  { allowedTags := some ["b", "i", "p", "br"]
    allowedAttributes := some []
    allowedSchemes := some []
    disallowedTagsMode := some "discard" }

/-- The object `mergedOptions` of `strictSanitize`: `{ ...strictOptions, ...options }`. -/
def strictMergedOptions (options : Options) : Options := Options.spread strictOptions options

/-- The function `strictSanitize`. -/
def strictSanitize (libs : Libs) (input : JSValue) (options : Options) : JSValue :=
  match input with
  | .string s => sanitizeWithOptions libs (.string s) (strictMergedOptions options)
  | v => v

/-- The configuration that sanitize-html receives from `strictSanitize`. -/
def strictConfig (options : Options) : Options := sanitizeConfig (strictMergedOptions options)

/-- The function `customSanitize`. -/
def customSanitize (libs : Libs) (input : JSValue) (options : Options) :
    Except JSError JSValue :=
  match input with
  | .string s =>
    match options.transform with
    | some transform =>
      match transform s with
      | .ok v => .ok (sanitizeWithOptions libs v options)
      | .error what => .error (.thrownByTransform what)
    | none => .ok (sanitizeWithOptions libs (.string s) options)
  | v => .ok v

/-- The configuration that sanitize-html receives from `customSanitize`. -/
def customConfig (options : Options) : Options := sanitizeConfig options

/-! ## JSON.stringify and JSON.parse of ECMAScript -/

/-- The lower-case hexadecimal digit of a value below 16. -/
def hexDigit (v : Nat) : Nat := if v < 10 then 48 + v else 87 + v

/-- The escape `\uXXXX` of a code unit. -/
def unicodeEscape (c : Nat) : JSString :=
  [92, 117, hexDigit (c / 4096 % 16), hexDigit (c / 256 % 16), hexDigit (c / 16 % 16),
    hexDigit (c % 16)]

/-- Leading surrogates. -/
def isHighSurrogate (c : Nat) : Bool := decide (55296 ≤ c) && decide (c ≤ 56319)

/-- Trailing surrogates. -/
def isLowSurrogate (c : Nat) : Bool := decide (56320 ≤ c) && decide (c ≤ 57343)

/-- QuoteJSONString on a code unit that is not part of a surrogate pair. -/
def quoteUnit (c : Nat) : JSString :=
  if c = 8 then [92, 98]
  else if c = 9 then [92, 116]
  else if c = 10 then [92, 110]
  else if c = 12 then [92, 102]
  else if c = 13 then [92, 114]
  else if c = 34 then [92, 34]
  else if c = 92 then [92, 92]
  else if c < 32 || isHighSurrogate c || isLowSurrogate c then unicodeEscape c
  else [c]

/-- QuoteJSONString without the enclosing quotes: a surrogate pair is copied, every
other code unit goes through `quoteUnit`. -/
def quoteChars : JSString → JSString
  | [] => []
  | [c] => quoteUnit c
  | c :: d :: rest =>
    if isHighSurrogate c && isLowSurrogate d then c :: d :: quoteChars rest
    else quoteUnit c ++ quoteChars (d :: rest)

/-- The call `JSON.stringify(input)` on a string. -/
def jsonStringify (input : JSString) : JSString := 34 :: quoteChars input ++ [34]

/-- The value of a hexadecimal digit. -/
def hexVal (c : Nat) : Option Nat :=
  if isDigit c then some (c - 48)
  else if 97 ≤ c ∧ c ≤ 102 then some (c - 87)
  else if 65 ≤ c ∧ c ≤ 70 then some (c - 55)
  else none

/-- The character an escape `\c` of JSON stands for. -/
def unescape (c : Nat) : Option Nat :=
  if c = 34 then some 34
  else if c = 92 then some 92
  else if c = 47 then some 47
  else if c = 98 then some 8
  else if c = 102 then some 12
  else if c = 110 then some 10
  else if c = 114 then some 13
  else if c = 116 then some 9
  else none

/-- Where the reader of a JSON string stands. -/
inductive StrState where
  | normal : StrState
  | escape : StrState
  | hex (missing : Nat) (acc : Nat) : StrState

/-- Reading a JSON string after its opening quote: the decoded string and the input
after the closing quote. -/
def parseStr : StrState → JSString → Option (JSString × JSString)
  | _, [] => none
  | .normal, c :: rest =>
    if c = 34 then some ([], rest)
    else if c = 92 then parseStr .escape rest
    else if c < 32 then none
    else (parseStr .normal rest).map (fun r => (c :: r.1, r.2))
  | .escape, c :: rest =>
    if c = 117 then parseStr (.hex 3 0) rest
    else
      match unescape c with
      | some v => (parseStr .normal rest).map (fun r => (v :: r.1, r.2))
      | none => none
  | .hex missing acc, c :: rest =>
    match hexVal c with
    | none => none
    | some v =>
      match missing with
      | 0 => (parseStr .normal rest).map (fun r => ((acc * 16 + v) :: r.1, r.2))
      | m + 1 => parseStr (.hex m (acc * 16 + v)) rest

/-- A JSON value; a number keeps its text. -/
inductive Json where
  | null : Json
  | bool (b : Bool) : Json
  | number (text : JSString) : Json
  | string (s : JSString) : Json
  | array (items : List Json) : Json
  | object (members : List (JSString × Json)) : Json

/-- JSON white space: tab, line feed, carriage return, space. -/
def isJsonSpace (c : Nat) : Bool := c == 9 || c == 10 || c == 13 || c == 32

/-- Skipping JSON white space. -/
def skipSpace : JSString → JSString
  | [] => []
  | c :: rest => if isJsonSpace c then skipSpace rest else c :: rest

/-- The longest run of digits at the start of the input, and what follows it. -/
def takeDigits : JSString → JSString × JSString
  | [] => ([], [])
  | c :: rest =>
    if isDigit c then (c :: (takeDigits rest).1, (takeDigits rest).2)
    else ([], c :: rest)

/-- The fraction `.digits` of a JSON number, if there is one. -/
def parseFraction (s : JSString) : Option (JSString × JSString) :=
  match s with
  | 46 :: rest =>
    match takeDigits rest with
    | ([], _) => none
    | (ds, rest') => some (46 :: ds, rest')
  | _ => some ([], s)

/-- The exponent of a JSON number, if there is one. -/
def parseExponent (s : JSString) : Option (JSString × JSString) :=
  match s with
  | e :: rest =>
    if e = 101 ∨ e = 69 then
      match rest with
      | sign :: rest' =>
        if sign = 43 ∨ sign = 45 then
          match takeDigits rest' with
          | ([], _) => none
          | (ds, r) => some (e :: sign :: ds, r)
        else
          match takeDigits rest with
          | ([], _) => none
          | (ds, r) => some (e :: ds, r)
      | [] => none
    else some ([], s)
  | [] => some ([], s)

/-- A JSON number without its sign: the integer part has no leading zero. -/
def parseUnsigned (s : JSString) : Option (JSString × JSString) :=
  match takeDigits s with
  | ([], _) => none
  | (ds, rest) =>
    if ds.head? = some 48 ∧ 1 < ds.length then none
    else
      match parseFraction rest with
      | none => none
      | some (fr, rest') =>
        match parseExponent rest' with
        | none => none
        | some (ex, rest'') => some (ds ++ fr ++ ex, rest'')

/-- A JSON number. -/
def parseNumber (s : JSString) : Option (JSString × JSString) :=
  match s with
  | 45 :: rest => (parseUnsigned rest).map (fun r => (45 :: r.1, r.2))
  | _ => parseUnsigned s

/-- What the recursive-descent reader is reading: a value; the rest of an array after
an element; the rest of an object after a member. -/
inductive JsonGoal where
  | value : JsonGoal
  | elements : JsonGoal
  | members : JsonGoal

/-- What the reader has read. -/
inductive JsonRead where
  | value (v : Json) : JsonRead
  | elements (vs : List Json) : JsonRead
  | members (ms : List (JSString × Json)) : JsonRead

/-- The recursive-descent reader of JSON text; white space before the value has been
skipped by the caller.  `fuel` bounds the depth of the recursion. -/
def parseJson : Nat → JsonGoal → JSString → Option (JsonRead × JSString)
  | 0, _, _ => none
  | fuel + 1, .value, s =>
    match s with
    | [] => none
    | c :: rest =>
      if c = 34 then (parseStr .normal rest).map (fun r => (.value (.string r.1), r.2))
      else if c = 91 then
        match skipSpace rest with
        | 93 :: rest' => some (.value (.array []), rest')
        | s' =>
          match parseJson fuel .value s' with
          | some (.value v, r) =>
            match parseJson fuel .elements (skipSpace r) with
            | some (.elements vs, r') => some (.value (.array (v :: vs)), r')
            | _ => none
          | _ => none
      else if c = 123 then
        match skipSpace rest with
        | 125 :: rest' => some (.value (.object []), rest')
        | 34 :: s' =>
          match parseStr .normal s' with
          | some (key, r) =>
            match skipSpace r with
            | 58 :: r' =>
              match parseJson fuel .value (skipSpace r') with
              | some (.value v, r'') =>
                match parseJson fuel .members (skipSpace r'') with
                | some (.members ms, r3) => some (.value (.object ((key, v) :: ms)), r3)
                | _ => none
              | _ => none
            | _ => none
          | none => none
        | _ => none
      else if s.take 4 = [110, 117, 108, 108] then some (.value .null, s.drop 4)
      else if s.take 4 = [116, 114, 117, 101] then some (.value (.bool true), s.drop 4)
      else if s.take 5 = [102, 97, 108, 115, 101] then some (.value (.bool false), s.drop 5)
      else (parseNumber s).map (fun r => (.value (.number r.1), r.2))
  | fuel + 1, .elements, s =>
    match s with
    | 93 :: rest => some (.elements [], rest)
    | 44 :: rest =>
      match parseJson fuel .value (skipSpace rest) with
      | some (.value v, r) =>
        match parseJson fuel .elements (skipSpace r) with
        | some (.elements vs, r') => some (.elements (v :: vs), r')
        | _ => none
      | _ => none
    | _ => none
  | fuel + 1, .members, s =>
    match s with
    | 125 :: rest => some (.members [], rest)
    | 44 :: rest =>
      match skipSpace rest with
      | 34 :: s' =>
        match parseStr .normal s' with
        | some (key, r) =>
          match skipSpace r with
          | 58 :: r' =>
            match parseJson fuel .value (skipSpace r') with
            | some (.value v, r'') =>
              match parseJson fuel .members (skipSpace r'') with
              | some (.members ms, r3) => some (.members ((key, v) :: ms), r3)
              | _ => none
            | _ => none
          | _ => none
        | none => none
      | _ => none
    | _ => none

/-- The call `JSON.parse(text)`; `none` when it throws a SyntaxError. -/
def jsonParse (text : JSString) : Option Json :=
  match parseJson (text.length + 1) .value (skipSpace text) with
  | some (.value v, rest) => if skipSpace rest = [] then some v else none
  | _ => none

/-! ## src/sanitizers/contextAwareSanitizer.js -/

/-- The pattern `/['"<>]/g` (also written `/["'<>]/g`). -/
def quoteAngleRe : Re := Re.chr (fun c => c == 39 || c == 34 || c == 60 || c == 62)

/-- The pattern `/on\w+/gi`. -/
def eventHandlerRe : Re := Re.seq (Re.str true "on") (Re.plus (Re.cls true isWord))

/-- The pattern `/^(https?|mailto|tel):/i`, without its anchor `^`. -/
def safeUrlRe : Re :=
  Re.seq
    (Re.alt (Re.seq (Re.str true "http") (Re.opt (Re.lit true 115)))
      (Re.alt (Re.str true "mailto") (Re.str true "tel")))
    (Re.lit true 58)

/-- The pattern `/name\s*\(/gi` of the css context, for the function `name`. -/
def cssFunctionRe (name : String) : Re :=
  Re.seqs [Re.str true name, Re.star true (Re.chr isSpace), Re.str true "("]

/-- The pattern `/<[^>]*>/g`. -/
def tagRe : Re :=
  Re.seqs [Re.lit false 60, Re.star true (Re.chr (fun c => !(c == 62))), Re.lit false 62]

/-- The helper `sanitizeHtml` of the html context. -/
def sanitizeHtmlContext (libs : Libs) (input : JSString) : JSValue :=
  sanitizeWithOptions libs (.string input)
    { allowedTags := some ["p", "b", "i", "u", "a", "ul", "ol", "li", "br"]
      allowedAttributes := some [("a", ["href", "target"])] }

/-- The function `contextAwareSanitize` on a string, for the context `context` that
the expression `options.context || CONTEXT_TYPES.HTML` gives.  The anchored pattern of
the url context is tried at the start of the input only. -/
def encodeFor (libs : Libs) (context : String) (input : JSString) : JSValue :=
  if context = "html" then sanitizeHtmlContext libs input
  else if context = "attribute" then
    .string (Re.removeAll eventHandlerRe (Re.removeAll quoteAngleRe input))
  else if context = "url" then
    if (Re.matchLen safeUrlRe input).isSome then .string (Re.removeAll quoteAngleRe input)
    else .string (js "#")
  else if context = "javascript" then .string (jsonStringify input)
  else if context = "css" then
    .string (Re.removeAll (cssFunctionRe "var") (Re.removeAll (cssFunctionRe "calc")
      (Re.removeAll (cssFunctionRe "url") (Re.removeAll (cssFunctionRe "expression") input))))
  else if context = "json" then
    match jsonParse input with
    | some _ => .string input
    | none => .string (jsonStringify input)
  else .string (Re.removeAll tagRe input)

/-- The function `contextAwareSanitize`. -/
def contextAwareSanitize (libs : Libs) (input : JSValue) (options : Options) : JSValue :=
  match input with
  | .string s =>
    let context := match options.context with
      | some c => if c = "" then "html" else c
      | none => "html"
    encodeFor libs context s
  | v => v

/-! ## src/core/policyManager.js -/

/-- The four sanitizer functions. -/
inductive Sanitizer where
  | basicSanitize : Sanitizer
  | strictSanitize : Sanitizer
  | customSanitize : Sanitizer
  | contextAwareSanitize : Sanitizer
deriving DecidableEq, Repr

/-- A property of the object `policies`. -/
structure PolicyRecord where
  name : String
  description : String
  sanitizer : Sanitizer
deriving DecidableEq, Repr

/-- The own properties of the constant `policies`. -/
def policies : Obj PolicyRecord := [
  ("basic", ⟨"basic", "Basic XSS protection allowing common HTML tags", .basicSanitize⟩),
  ("strict", ⟨"strict", "Strict sanitization removing almost all HTML", .strictSanitize⟩),
  ("custom", ⟨"custom", "Custom sanitization with user-defined rules", .customSanitize⟩),
  ("contextAware", ⟨"contextAware", "Context-aware sanitization based on input destination",
    .contextAwareSanitize⟩)]

/-- The property `policies.basic`. -/
def basicPolicy : PolicyRecord :=
  ⟨"basic", "Basic XSS protection allowing common HTML tags", .basicSanitize⟩

/-- The names that every object literal inherits from `Object.prototype`; their values
are functions, the one of `__proto__` is `Object.prototype` itself: all of them are
truthy and none has a property `sanitizer`. -/
def objectPrototypeKeys : List String :=
  ["constructor", "__defineGetter__", "__defineSetter__", "hasOwnProperty",
    "__lookupGetter__", "__lookupSetter__", "isPrototypeOf", "propertyIsEnumerable",
    "toString", "valueOf", "__proto__", "toLocaleString"]

/-- The value of the property access `policies[policyName]`. -/
inductive PolicyLookup where
  | own (record : PolicyRecord) : PolicyLookup
  | inherited (key : String) : PolicyLookup
  | undefined : PolicyLookup
deriving DecidableEq, Repr

/-- The property access `policies[policyName]`: own properties first, then the
prototype chain; an omitted name is looked up as the key `undefined`. -/
def lookupPolicy (policyName : String) : PolicyLookup :=
  match Obj.get policies policyName with
  | some record => .own record
  | none => if policyName ∈ objectPrototypeKeys then .inherited policyName else .undefined

/-- The function `getSanitizer`; `none` is an omitted argument, replaced by `'basic'`. -/
def getSanitizer (policyName : Option String) : Sanitizer :=
  match lookupPolicy (policyName.getD "basic") with
  | .own record => record.sanitizer
  | _ => basicPolicy.sanitizer

/-- The function `getPolicyDetails`; `none` is an omitted argument. -/
def getPolicyDetails (policyName : Option String) : PolicyLookup :=
  match lookupPolicy (policyName.getD "undefined") with
  | .own record => .own record
  | .inherited key => .inherited key
  | .undefined => .own basicPolicy

/-- The function `applyPolicy`. -/
def applyPolicy (libs : Libs) (input : JSValue) (policyName : Option String)
    (options : Options) : Except JSError JSValue :=
  match getSanitizer policyName with
  | .basicSanitize => .ok (basicSanitize libs input options)
  | .strictSanitize => .ok (strictSanitize libs input options)
  | .customSanitize => customSanitize libs input options
  | .contextAwareSanitize => .ok (contextAwareSanitize libs input options)

/-! ## src/utils/validation.js -/

/-- The function `isValidString`. -/
def isValidString : JSValue → Bool
  | .undefined => false
  | .null => false
  | _ => true

/-- The function `isValidContext` with its default list of contexts. -/
def isValidContext (contextType : String) : Bool :=
  decide (contextType ∈ ["html", "attribute", "url", "javascript", "css", "json", "text"])

/-- The function `toString` of the validation module. -/
def validationToString : JSValue → JSString
  | .undefined => []
  | .null => []
  | .string s => s
  | .other (some rendering) => rendering
  | .other none => []

/-! ## src/index.js -/

/-- What a call of `sanitizeInput` does: the value returned or the error thrown, the
state of the pattern catalogs afterwards, and the console calls made. -/
structure Outcome where
  result : Except JSError JSValue
  detector : DetectorState
  console : List ConsoleCall

/-- The function `sanitizeInput`. -/
def sanitizeInput (libs : Libs) (config : LoggerConfig) (now : String) (st : DetectorState)
    (input : JSValue) (options : Options) : Outcome :=
  let mergedOptions := Options.spread
    { policy := some "basic", throwOnThreat := some false, logThreat := some true } options
  if !isValidString input then ⟨.ok (.string []), st, []⟩
  else
    let stringInput := validationToString input
    let threat := analyzeThreat now st (.string stringInput)
    let threatInfo := threat.1
    let logged :=
      if threatInfo.isThreat && mergedOptions.logThreat.getD false then
        logThreat config now stringInput threatInfo.toObj
      else []
    if threatInfo.isThreat && mergedOptions.throwOnThreat.getD false then
      ⟨.error .threatDetected, threat.2, logged⟩
    else
      match mergedOptions.context with
      | some context =>
        if isValidContext context then
          ⟨.ok (contextAwareSanitize libs (.string stringInput) { context := some context }),
            threat.2, logged⟩
        else sanitizeWithPolicy mergedOptions stringInput threat.2 logged
      | none => sanitizeWithPolicy mergedOptions stringInput threat.2 logged
where
  /-- The end of `sanitizeInput`: the named policy is applied and the result logged. -/
  sanitizeWithPolicy (mergedOptions : Options) (stringInput : JSString)
      (detector : DetectorState) (logged : List ConsoleCall) : Outcome :=
    match applyPolicy libs (.string stringInput) mergedOptions.policy options with
    | .error e => ⟨.error e, detector, logged⟩
    | .ok sanitized =>
      if mergedOptions.logThreat.getD false then
        match logSanitization config now (mergedOptions.policy.getD "basic") stringInput
            sanitized with
        | some calls => ⟨.ok sanitized, detector, logged ++ calls⟩
        | none => ⟨.error (.typeError "after"), detector, logged⟩
      else ⟨.ok sanitized, detector, logged⟩

/-- The function `detectThreat`. -/
def detectThreat (now : String) (st : DetectorState) (input : JSValue) :
    ThreatInfo × DetectorState :=
  analyzeThreat now st input

/-- A call of the public interface of `src/index.js` that touches the pattern catalogs. -/
inductive ApiCall where
  | detectThreat (now : String) (input : JSValue) : ApiCall
  | sanitizeInput (config : LoggerConfig) (now : String) (input : JSValue)
      (options : Options) : ApiCall

/-- The state of the pattern catalogs after one call. -/
def ApiCall.run (libs : Libs) (st : DetectorState) : ApiCall → DetectorState
  | .detectThreat now input => (XssLib.detectThreat now st input).2
  | .sanitizeInput config now input options =>
    (XssLib.sanitizeInput libs config now st input options).detector

/-- The state of the pattern catalogs after a sequence of calls on the freshly loaded
module. -/
def afterCalls (libs : Libs) (calls : List ApiCall) : DetectorState :=
  calls.foldl (ApiCall.run libs) DetectorState.initial

end XssLib

namespace XssLib

/-! ## Predicates used to state the properties -/

/-- A stand-in for the two packages in concrete evaluations: both hand their input back
unchanged. -/
def Libs.passThrough : Libs := ⟨fun input => input, fun input _ => input⟩

/-- A stand-in for sanitize-html that shows the configuration it receives: its output
is the list of the attribute names of `allowedAttributes`, each followed by a space. -/
def Libs.reportAttributes : Libs :=
  ⟨fun input => input,
    fun _ options =>
      (options.allowedAttributes.getD []).flatMap
        (fun entry => entry.2.flatMap (fun name => js name ++ [32]))⟩

/-- The configuration that sanitize-html receives from the html context: the options
object of the helper `sanitizeHtml` of the contextAware sanitizer, merged into the
defaults by `sanitizeWithOptions`. -/
def htmlContextConfig : Options :=
  sanitizeConfig
    { allowedTags := some ["p", "b", "i", "u", "a", "ul", "ol", "li", "br"]
      allowedAttributes := some [("a", ["href", "target"])] }

/-- Sanitizing is idempotent at `x` under `options`: whatever the logger configuration,
the clock and the state of the pattern catalogs at either call, `sanitizeInput` returns
a string for `x`, and returns that same string when it is given that string again with
the same options. -/
def IdempotentAt (libs : Libs) (options : Options) (x : JSString) : Prop :=
  ∀ (config config2 : LoggerConfig) (now now2 : String) (st st2 : DetectorState),
    ∃ out, (sanitizeInput libs config now st (.string x) options).result = .ok (.string out) ∧
      (sanitizeInput libs config2 now2 st2 (.string out) options).result = .ok (.string out)

/-- Under `options`, `sanitizeInput` returns for every string exactly what the package
call `pkg` returns for it. -/
def DelegatesTo (libs : Libs) (options : Options) (pkg : JSString → JSString) : Prop :=
  ∀ (config : LoggerConfig) (now : String) (st : DetectorState) (y : JSString),
    (sanitizeInput libs config now st (.string y) options).result = .ok (.string (pkg y))

/-- The Shannon entropy of the character frequency distribution of a string, in the
words of the specification: minus the sum, over the distinct characters `c` of the
string, of `p c * log2 (p c)`, where `p c` is the number of occurrences of `c` divided
by the length.  For the empty string the sum is empty and the entropy is 0. -/
def shannonEntropy {K : Type} [LinearOrderedField K] (log2 : K → K) (str : JSString) : K :=
  -(Finset.sum str.toFinset (fun c =>
      ((str.count c : K) / (str.length : K)) * log2 ((str.count c : K) / (str.length : K))))

/-- The table after the first loop has run over `pre`: one entry per distinct
character, holding the number of its occurrences. -/
def IsTally (t : List (Nat × Nat)) (pre : JSString) : Prop :=
  (t.map Prod.fst).Nodup ∧ (∀ e ∈ t, e.2 = pre.count e.1) ∧
    ∀ c, c ∈ t.map Prod.fst ↔ c ∈ pre

/-- The string contains the ASCII text `needle` (given in lower case) in any letter case. -/
def containsIgnoreCase (needle : String) (s : JSString) : Prop :=
  ∃ pre mid post, s = pre ++ mid ++ post ∧ mid.map asciiLower = js needle

/-- Both catalogs have one `lastIndex` per pattern. -/
def DetectorState.WellFormed (st : DetectorState) : Prop :=
  st.threatIdx.length = threatPatterns.length ∧ st.domIdx.length = domBasedPatterns.length

end XssLib

namespace XssLib

/-- An attribute allow-list names an event-handler attribute: a name that starts with
`on`, in any letter case. -/
def allowsEventHandler (allowedAttributes : Obj (List String)) : Bool :=
  allowedAttributes.any (fun entry =>
    entry.2.any (fun name => (name.toList.take 2).map Char.toLower == ['o', 'n']))

/-- The sum of the seven counters. -/
def Dist.total (d : Dist Nat) : Nat :=
  d.lowercase + d.uppercase + d.numeric + d.special + d.whitespace + d.hex + d.control

/-- The exact sum of the seven percentages. -/
def Dist.valueSum (d : Dist Dbl) : ℚ :=
  d.lowercase.value + d.uppercase.value + d.numeric.value + d.special.value +
    d.whitespace.value + d.hex.value + d.control.value

/-- A control character that `\s` does not match: code 0 to 8, 14 to 31, or 127. -/
def isCountedControl (code : Nat) : Bool :=
  (decide (code < 32) || code == 127) && !isSpace code

end XssLib

namespace XssLib

/-- The remainders that a greedy `*` over a one-character class leaves, longest match
first. -/
def greedyTails (p : Nat → Bool) : JSString → List JSString
  | [] => [[]]
  | c :: cs => if p c then greedyTails p cs ++ [c :: cs] else [c :: cs]

/-- The string begins with the text `pat`, letter case ignored. -/
def startsWithCI : JSString → JSString → Bool
  | [], _ => true
  | _ :: _, [] => false
  | p :: ps, d :: ds => asciiLower d == asciiLower p && startsWithCI ps ds

/-- The string begins, in any letter case, with `http:`, `https:`, `mailto:` or `tel:`. -/
def hasAllowedScheme (s : JSString) : Bool :=
  startsWithCI (js "http:") s || startsWithCI (js "https:") s ||
    startsWithCI (js "mailto:") s || startsWithCI (js "tel:") s

/-- One of the characters `'`, `"`, `<`, `>`. -/
def isQuoteOrAngle (c : Nat) : Bool := c == 39 || c == 34 || c == 60 || c == 62

/-- No `<` of the string is followed anywhere later by a `>`. -/
def NoTag (out : JSString) : Prop := ∀ a b c : JSString, out ≠ a ++ 60 :: b ++ 62 :: c

/-- The string has no substring made of `on` (in any letter case) and a word character. -/
def NoEventHandlerToken (out : JSString) : Prop :=
  ∀ (a b : JSString) (o n w : Nat), out = a ++ o :: n :: w :: b →
    ¬ (asciiLower o = 111 ∧ asciiLower n = 110 ∧ isWord w = true)

/-- The pattern matches nowhere in the string. -/
def MatchesNowhere (re : Re) (s : JSString) : Prop :=
  ∀ pre t : JSString, s = pre ++ t → re.matchLen t = none

end XssLib

namespace XssLib

/-! ## Regular expressions: basic facts -/

theorem canon_asciiLower (d : Nat) : canon (asciiLower d) = canon d := by
  unfold canon asciiLower isLower isUpper
  by_cases h1 : 65 ≤ d <;> by_cases h2 : d ≤ 90 <;> by_cases h3 : 97 ≤ d <;>
    by_cases h4 : d ≤ 122 <;> simp [h1, h2, h3, h4] <;> omega

theorem run_lit_asciiLower (d : Nat) (s : JSString) :
    Re.run (Re.lit true (asciiLower d)) (d :: s) = [s] := by
  simp [Re.lit, Re.run, canon_asciiLower]

theorem run_lits (mid post : JSString) :
    Re.run (Re.seqs ((mid.map asciiLower).map (Re.lit true))) (mid ++ post) = [post] := by
  induction mid with
  | nil => simp [Re.seqs, Re.run]
  | cons d rest ih =>
    cases rest with
    | nil => simpa [Re.seqs] using run_lit_asciiLower d post
    | cons d' rest' =>
      have h : Re.seqs (((d :: d' :: rest').map asciiLower).map (Re.lit true)) =
          Re.seq (Re.lit true (asciiLower d))
            (Re.seqs (((d' :: rest').map asciiLower).map (Re.lit true))) := rfl
      rw [h]
      show (Re.run (Re.lit true (asciiLower d)) (d :: ((d' :: rest') ++ post))).flatMap _ = _
      rw [run_lit_asciiLower]
      simpa using ih

theorem matchLen_str_ci (needle : String) (mid post : JSString)
    (h : mid.map asciiLower = js needle) :
    Re.matchLen (Re.str true needle) (mid ++ post) = some mid.length := by
  unfold Re.matchLen Re.str
  rw [← h, run_lits]
  simp

theorem find_isSome_of_matchLen (re : Re) (pre t : JSString) (n : Nat)
    (h : re.matchLen t = some n) : (re.find (pre ++ t)).isSome = true := by
  induction pre with
  | nil =>
    cases t with
    | nil => simp [Re.find, h]
    | cons c cs => simp [Re.find, h]
  | cons c cs ih =>
    simp only [List.cons_append, Re.find]
    cases hm : re.matchLen (c :: (cs ++ t)) with
    | some k => simp
    | none => simpa using ih

theorem scanMatches_ne_nil_of_matchLen (re : Re) (pre t : JSString) (n : Nat)
    (h : re.matchLen t = some n) : re.scanMatches (pre ++ t) 0 ≠ [] := by
  induction pre with
  | nil =>
    cases t with
    | nil => simp [Re.scanMatches, h]
    | cons c cs => simp [Re.scanMatches, h]
  | cons c cs ih =>
    simp only [List.cons_append, Re.scanMatches]
    cases hm : re.matchLen (c :: (cs ++ t)) with
    | some k => simp
    | none => simpa using ih

end XssLib

namespace XssLib

/-! ## The pattern catalogs and their `lastIndex` -/

theorem regexTest_snd_of_false (re : Re) (last : Nat) (input : JSString)
    (h : (regexTest re last input).1 = false) : (regexTest re last input).2 = 0 := by
  unfold regexTest at h ⊢
  split
  · rfl
  · split
    · rename_i heq
      simp [heq] at h
      split at h <;> simp_all
    · rfl

theorem collect_snd (input : JSString) :
    ∀ (ps : List Pattern) (is : List Nat) (k : Nat), is.length ≤ ps.length →
      (collect input k ps is).2 = List.replicate is.length 0 := by
  intro ps
  induction ps with
  | nil =>
    intro is k h
    cases is with
    | nil => simp [collect]
    | cons i is => simp at h
  | cons p ps ih =>
    intro is k h
    cases is with
    | nil => simp [collect]
    | cons i is =>
      have h' : is.length ≤ ps.length := by simpa using h
      simp only [collect]
      split
      · simp [stringMatch, ih is (k + 1) h', List.replicate_succ]
        split <;> rfl
      · rename_i hf
        simp [ih is (k + 1) h', List.replicate_succ,
          regexTest_snd_of_false p.re i input (by simpa using hf)]

theorem analyzeThreat_restores (now : String) (st : DetectorState) (c : Nat) (cs : JSString)
    (h : st.WellFormed) :
    (analyzeThreat now st (.string (c :: cs))).2 = DetectorState.initial := by
  obtain ⟨h1, h2⟩ := h
  simp only [analyzeThreat, nonEmptyString]
  rw [collect_snd _ _ _ _ (le_of_eq h1), collect_snd _ _ _ _ (le_of_eq h2), h1, h2]
  rfl

theorem initial_wellFormed : DetectorState.initial.WellFormed := ⟨rfl, rfl⟩

theorem analyzeThreat_initial (now : String) (v : JSValue) :
    (analyzeThreat now DetectorState.initial v).2 = DetectorState.initial := by
  cases v with
  | string s =>
    cases s with
    | nil => rfl
    | cons c cs => exact analyzeThreat_restores now _ c cs initial_wellFormed
  | _ => rfl

theorem sanitizeInput_detector (libs : Libs) (config : LoggerConfig) (now : String)
    (st : DetectorState) (input : JSValue) (options : Options) :
    (sanitizeInput libs config now st input options).detector =
      if isValidString input then
        (analyzeThreat now st (.string (validationToString input))).2
      else st := by
  unfold sanitizeInput sanitizeInput.sanitizeWithPolicy
  by_cases hv : isValidString input
  · simp only [hv, Bool.not_true, Bool.false_eq_true, ↓reduceIte]
    split_ifs <;> (repeat' split) <;> rfl
  · simp [hv]

theorem run_initial (libs : Libs) (call : ApiCall) :
    ApiCall.run libs DetectorState.initial call = DetectorState.initial := by
  cases call with
  | detectThreat now input => exact analyzeThreat_initial now input
  | sanitizeInput config now input options =>
    simp only [ApiCall.run, sanitizeInput_detector]
    split
    · exact analyzeThreat_initial now _
    · rfl

theorem afterCalls_initial (libs : Libs) (calls : List ApiCall) :
    afterCalls libs calls = DetectorState.initial := by
  unfold afterCalls
  induction calls with
  | nil => rfl
  | cons c cs ih => simpa [List.foldl, run_initial] using ih

end XssLib

namespace XssLib

theorem regexTest_zero_of_match (re : Re) (pre t : JSString) (n : Nat)
    (h : re.matchLen t = some n) : (regexTest re 0 (pre ++ t)).1 = true := by
  have hf := find_isSome_of_matchLen re pre t n h
  unfold regexTest
  simp only [Nat.not_lt_zero, ↓reduceIte, List.drop_zero]
  cases hfind : re.find (pre ++ t) with
  | none => simp [hfind] at hf
  | some p => rfl

theorem stringMatch_of_match (re : Re) (pre t : JSString) (n : Nat)
    (h : re.matchLen t = some n) :
    ∃ m ms, (stringMatch re (pre ++ t)).1 = some (m :: ms) := by
  have hne := scanMatches_ne_nil_of_matchLen re pre t n h
  unfold stringMatch
  cases hs : re.scanMatches (pre ++ t) 0 with
  | nil => exact absurd hs hne
  | cons m ms => exact ⟨m, ms, rfl⟩

/-- On a clean catalog, that is at any point of a sequence of `detectThreat` and
`sanitizeInput` calls on the loaded module, `detectThreat` on a string that contains
`location.hash` in any letter case reports `isThreat = true`, and its `domBasedXss` list
contains an entry with pattern index `0` (the pattern `/location\.hash/gi`) whose
`matches` array is not empty. -/
theorem detectThreat_location_hash_clean (libs : Libs) (calls : List ApiCall) (now : String)
    (s : JSString) (h : containsIgnoreCase "location.hash" s) :
    (detectThreat now (afterCalls libs calls) (.string s)).1.isThreat = true ∧
    ∃ dom e m ms,
      (detectThreat now (afterCalls libs calls) (.string s)).1.domBasedXss = some dom ∧
      e ∈ dom ∧ e.patternIndex = 0 ∧ e.pattern = "/location\\.hash/gi" ∧
      e.matched = some (m :: ms) := by
  obtain ⟨pre, mid, post, hs, hmid⟩ := h
  have hlen := matchLen_str_ci "location.hash" mid post hmid
  have hs' : s = pre ++ (mid ++ post) := by rw [hs, List.append_assoc]
  have htest := regexTest_zero_of_match _ pre _ _ hlen
  obtain ⟨m, ms, hmatch⟩ := stringMatch_of_match _ pre _ _ hlen
  rw [← hs'] at htest hmatch
  have hne : s ≠ [] := by
    intro h0
    rw [h0] at hs
    have hm : mid = [] := by
      have := congrArg List.length hs
      simp at this
      exact List.length_eq_zero.mp (by omega)
    rw [hm] at hmid
    exact absurd hmid (by decide)
  have hpat : domBasedPatterns =
      ⟨"/location\\.hash/gi", Re.str true "location.hash"⟩ :: domBasedPatterns.tail := rfl
  have hidx : DetectorState.initial.domIdx = 0 :: DetectorState.initial.domIdx.tail := rfl
  rw [afterCalls_initial]
  cases s with
  | nil => exact absurd rfl hne
  | cons c cs =>
    simp only [detectThreat, analyzeThreat, nonEmptyString]
    have hcol : ∃ rest, (collect (c :: cs) 0 domBasedPatterns DetectorState.initial.domIdx).1 =
        ⟨0, "/location\\.hash/gi", some (m :: ms)⟩ :: rest := by
      rw [hpat, hidx]
      simp only [collect, htest, ↓reduceIte, hmatch]
      exact ⟨_, rfl⟩
    obtain ⟨rest, hrest⟩ := hcol
    refine ⟨?_, _, ⟨0, "/location\\.hash/gi", some (m :: ms)⟩, m, ms, rfl, ?_, rfl, rfl, rfl⟩
    · simp [hrest]
    · simp [hrest]

/-- C11: evaluation at the failing input.  The string `location.hash.substring(1)`
contains `location.hash`, and on the freshly loaded module `detectThreat` reports
`isThreat = true` for it with an entry for pattern index `0`.  After the call
`isDOMBasedThreat('location.hash')` of the same module, the shared pattern
`/location\.hash/gi` has `lastIndex` 13, the test of `analyzeThreat` starts its search
there, and `detectThreat('location.hash.substring(1)')` reports `isThreat = false` with
an empty `domBasedXss` list. -/
theorem detectThreat_misses_location_hash :
    js "location.hash.substring(1)" = [] ++ js "location.hash" ++ js ".substring(1)" ∧
    (detectThreat "2025-01-01T00:00:00.000Z" DetectorState.initial
      (.string (js "location.hash.substring(1)"))).1.isThreat = true ∧
    (isDOMBasedThreat DetectorState.initial (.string (js "location.hash"))).1 = true ∧
    (isDOMBasedThreat DetectorState.initial (.string (js "location.hash"))).2.domIdx.head? =
      some 13 ∧
    (detectThreat "2025-01-01T00:00:00.000Z"
      (isDOMBasedThreat DetectorState.initial (.string (js "location.hash"))).2
      (.string (js "location.hash.substring(1)"))).1.isThreat = false ∧
    (detectThreat "2025-01-01T00:00:00.000Z"
      (isDOMBasedThreat DetectorState.initial (.string (js "location.hash"))).2
      (.string (js "location.hash.substring(1)"))).1.domBasedXss = some [] := by
  decide

/-- C12: evaluation at the failing input.  On the freshly loaded module the first call
`isDOMBasedThreat('location.hash')` answers `true` and the second call with the same
input answers `false`; the same happens with `isXSSThreat('eval(')`.  The `lastIndex`
left by the first call makes the second search start behind the match. -/
theorem isDOMBasedThreat_second_call_differs :
    (isDOMBasedThreat DetectorState.initial (.string (js "location.hash"))).1 = true ∧
    (isDOMBasedThreat (isDOMBasedThreat DetectorState.initial (.string (js "location.hash"))).2
      (.string (js "location.hash"))).1 = false ∧
    (isXSSThreat DetectorState.initial (.string (js "eval("))).1 = true ∧
    (isXSSThreat (isXSSThreat DetectorState.initial (.string (js "eval("))).2
      (.string (js "eval("))).1 = false := by
  decide

/-- C19, as stated, fails: after `isDOMBasedThreat('location.hash')` the first DOM
pattern has `lastIndex` 13, and `analyzeThreat('')` returns at its guard without
touching it. -/
theorem analyzeThreat_empty_keeps_lastIndex :
    (isDOMBasedThreat DetectorState.initial (.string (js "location.hash"))).2.domIdx.head? =
      some 13 ∧
    (analyzeThreat "2025-01-01T00:00:00.000Z"
      (isDOMBasedThreat DetectorState.initial (.string (js "location.hash"))).2
      (.string (js ""))).2.domIdx.head? = some 13 := by
  decide

/-- C19, amended: for a non-empty string input, whatever the `lastIndex` values are on
entry, every pattern of both catalogs has `lastIndex` 0 when `analyzeThreat` returns;
hence in sequences made only of `detectThreat` and `sanitizeInput` calls on the loaded
module, two analyses of the same input report the same `isThreat`, `reflectedXss` and
`domBasedXss`. -/
theorem analyzeThreat_restores_catalog (libs : Libs) :
    (∀ (now : String) (st : DetectorState) (c : Nat) (cs : JSString), st.WellFormed →
      (analyzeThreat now st (.string (c :: cs))).2.threatIdx =
          List.replicate threatPatterns.length 0 ∧
      (analyzeThreat now st (.string (c :: cs))).2.domIdx =
          List.replicate domBasedPatterns.length 0) ∧
    (∀ (calls1 calls2 : List ApiCall) (now1 now2 : String) (x : JSValue),
      (analyzeThreat now1 (afterCalls libs calls1) x).1.isThreat =
          (analyzeThreat now2 (afterCalls libs calls2) x).1.isThreat ∧
      (analyzeThreat now1 (afterCalls libs calls1) x).1.reflectedXss =
          (analyzeThreat now2 (afterCalls libs calls2) x).1.reflectedXss ∧
      (analyzeThreat now1 (afterCalls libs calls1) x).1.domBasedXss =
          (analyzeThreat now2 (afterCalls libs calls2) x).1.domBasedXss) := by
  refine ⟨fun now st c cs h => ?_, fun calls1 calls2 now1 now2 x => ?_⟩
  · rw [analyzeThreat_restores now st c cs h]
    exact ⟨rfl, rfl⟩
  · rw [afterCalls_initial, afterCalls_initial]
    unfold analyzeThreat
    cases nonEmptyString x <;> exact ⟨rfl, rfl, rfl⟩

theorem analyzeThreat_restores_catalog_witness :
    (isDOMBasedThreat DetectorState.initial (.string (js "location.hash"))).2.WellFormed ∧
    (analyzeThreat "2025-01-01T00:00:00.000Z"
      (isDOMBasedThreat DetectorState.initial (.string (js "location.hash"))).2
      (.string (js "location.hash"))).2.domIdx = List.replicate domBasedPatterns.length 0 :=
  ⟨⟨by decide, by decide⟩,
    ((analyzeThreat_restores_catalog Libs.passThrough).1 "2025-01-01T00:00:00.000Z"
      (isDOMBasedThreat DetectorState.initial (.string (js "location.hash"))).2 108
      (js "ocation.hash") ⟨by decide, by decide⟩).2⟩

end XssLib

namespace XssLib

/-! ## Configurations handed to the markup sanitizer -/

/-- C13: evaluation at the failing input.  `strictSanitize` hands to sanitize-html the
configuration `strictConfig options`, and for the options
`{ allowedTags: ['script'], allowedAttributes: { '*': ['onclick'] }, allowedSchemes:
['javascript'] }` that configuration carries the caller's three values, not the strict
ones: in `{ ...strictOptions, ...options }` the caller's options come last and win. -/
theorem strictConfig_user_options_win (libs : Libs) (s : JSString) :
    strictSanitize libs (.string s)
        { allowedTags := some ["script"], allowedAttributes := some [("*", ["onclick"])],
          allowedSchemes := some ["javascript"] } =
      .string (libs.sanitizeHtml s (strictConfig
        { allowedTags := some ["script"], allowedAttributes := some [("*", ["onclick"])],
          allowedSchemes := some ["javascript"] })) ∧
    (strictConfig
        { allowedTags := some ["script"], allowedAttributes := some [("*", ["onclick"])],
          allowedSchemes := some ["javascript"] }).allowedTags = some ["script"] ∧
    (strictConfig
        { allowedTags := some ["script"], allowedAttributes := some [("*", ["onclick"])],
          allowedSchemes := some ["javascript"] }).allowedAttributes
      = some [("*", ["onclick"])] ∧
    (strictConfig
        { allowedTags := some ["script"], allowedAttributes := some [("*", ["onclick"])],
          allowedSchemes := some ["javascript"] }).allowedSchemes = some ["javascript"] :=
  ⟨rfl, rfl, rfl, rfl⟩

/-! ## The logger -/

/-- C18: evaluation at the failing input.  With `anonymizeData = true`, the record that
`logThreat('location.hash', analyzeThreat('location.hash'))` hands to `console.warn`
has the raw text `location.hash` in its `input` field: `...threatInfo` overwrites the
placeholder `[String: 13 chars]` that `anonymize(input)` had put there.  The same record
is printed when `sanitizeInput('location.hash')` is called with the default options. -/
theorem logThreat_emits_raw_input :
    (analyzeThreat "2025-01-01T00:00:00.000Z" DetectorState.initial
      (.string (js "location.hash"))).1.isThreat = true ∧
    anonymize (.str (js "location.hash")) = .str (js "[String: 13 chars]") ∧
    (logThreat (loggerConfigure LoggerConfig.default { anonymizeData := some true })
        "2025-01-01T00:00:00.000Z" (js "location.hash")
        (analyzeThreat "2025-01-01T00:00:00.000Z" DetectorState.initial
          (.string (js "location.hash"))).1.toObj).map
      (fun call => (call.method, Obj.get call.data "input")) =
      [("warn", some (.str (js "location.hash")))] ∧
    ((sanitizeInput Libs.passThrough
        (loggerConfigure LoggerConfig.default { anonymizeData := some true })
        "2025-01-01T00:00:00.000Z" DetectorState.initial (.string (js "location.hash"))
        { }).console.map (fun call => (call.method, Obj.get call.data "input"))).head? =
      some ("warn", some (.str (js "location.hash"))) :=
  ⟨rfl, rfl, rfl, rfl⟩

end XssLib

namespace XssLib

/-! ## Character classes and percentages -/

theorem countChar_hex (d : Dist Nat) (code : Nat) : (countChar d code).hex = d.hex := by
  unfold countChar
  split_ifs with h1 h2 h3 h4 h5 h6 <;> try rfl
  exfalso
  simp only [isLower, isUpper, isDigit, isHexDigit, Bool.and_eq_true, Bool.or_eq_true,
    decide_eq_true_eq, not_and, not_le] at h1 h2 h3 h5
  omega

theorem countChar_total (d : Dist Nat) (code : Nat) :
    (countChar d code).total = d.total + 1 := by
  unfold countChar Dist.total
  split_ifs <;> simp only <;> omega

theorem foldl_countChar_hex (s : JSString) :
    ∀ d : Dist Nat, (s.foldl countChar d).hex = d.hex := by
  induction s with
  | nil => intro d; rfl
  | cons c cs ih => intro d; rw [List.foldl_cons, ih, countChar_hex]

theorem foldl_countChar_total (s : JSString) :
    ∀ d : Dist Nat, (s.foldl countChar d).total = d.total + s.length := by
  induction s with
  | nil => intro d; rfl
  | cons c cs ih =>
    intro d
    rw [List.foldl_cons, ih, countChar_total, List.length_cons]
    omega

theorem charCounts_hex (s : JSString) : (charCounts s).hex = 0 :=
  foldl_countChar_hex s _

theorem charCounts_total (s : JSString) : (charCounts s).total = s.length := by
  unfold charCounts
  rw [foldl_countChar_total]
  simp [Dist.total]

theorem percentage_zero (total : Nat) : percentage 0 total = ⟨0, 0⟩ := by
  simp [percentage, roundRatio]

theorem getCharTypeDistribution_cons (c : Nat) (cs : JSString) :
    getCharTypeDistribution (c :: cs) =
      some ⟨percentage (charCounts (c :: cs)).lowercase (c :: cs).length,
        percentage (charCounts (c :: cs)).uppercase (c :: cs).length,
        percentage (charCounts (c :: cs)).numeric (c :: cs).length,
        percentage (charCounts (c :: cs)).special (c :: cs).length,
        percentage (charCounts (c :: cs)).whitespace (c :: cs).length,
        percentage (charCounts (c :: cs)).hex (c :: cs).length,
        percentage (charCounts (c :: cs)).control (c :: cs).length⟩ := by
  simp [getCharTypeDistribution]

/-- C15: the failing behaviour.  For every non-empty string the `hex` percentage of
`getCharTypeDistribution` is `0`: a hexadecimal digit is caught by one of the tests
`[a-z]`, `[A-Z]`, `[0-9]` that come first in the chain, so the `hex` counter is never
incremented; for `'a'` the result is `0`, where 100 times the share of hexadecimal
digits is `100`. -/
theorem getCharTypeDistribution_hex_zero (c : Nat) (cs : JSString) :
    (∃ d, getCharTypeDistribution (c :: cs) = some d ∧ d.hex = ⟨0, 0⟩ ∧ d.hex.value = 0) ∧
    (∃ d, getCharTypeDistribution (js "a") = some d ∧ d.hex.value = 0) := by
  have key : ∀ (c : Nat) (cs : JSString),
      ∃ d, getCharTypeDistribution (c :: cs) = some d ∧ d.hex = ⟨0, 0⟩ ∧ d.hex.value = 0 := by
    intro c cs
    refine ⟨_, getCharTypeDistribution_cons c cs, ?_, ?_⟩
    · show percentage (charCounts (c :: cs)).hex _ = _
      rw [charCounts_hex, percentage_zero]
    · show (percentage (charCounts (c :: cs)).hex _).value = 0
      rw [charCounts_hex, percentage_zero]
      simp [Dbl.value]
  refine ⟨key c cs, ?_⟩
  obtain ⟨d, h1, _, h3⟩ := key 97 []
  exact ⟨d, h1, h3⟩

/-- C20, as stated, fails: for `'aA1'` each of the three non-zero percentages is the
double `33.33333333333333` (exactly `4691249611844266 / 2 ^ 47`), and the seven
percentages do not sum to 100. -/
theorem percentages_aA1_do_not_sum_to_100 :
    ∃ d, getCharTypeDistribution (js "aA1") = some d ∧
      d.lowercase = ⟨4691249611844266, 47⟩ ∧ d.valueSum ≠ 100 := by
  have h : getCharTypeDistribution (js "aA1") =
      some ⟨⟨4691249611844266, 47⟩, ⟨4691249611844266, 47⟩, ⟨4691249611844266, 47⟩,
        ⟨0, 0⟩, ⟨0, 0⟩, ⟨0, 0⟩, ⟨0, 0⟩⟩ := by decide
  refine ⟨_, h, rfl, ?_⟩
  norm_num [Dist.valueSum, Dbl.value]

/-- C20, amended: every round of the loop of `getCharTypeDistribution` increments
exactly one of the seven counters, so the counters sum to the length of the string and
the exact quotients `count / length * 100` sum to 100; the reported percentages are
these quotients in double arithmetic. -/
theorem charCounts_partition (c : Nat) (cs : JSString) :
    (∀ (d : Dist Nat) (code : Nat), (countChar d code).total = d.total + 1) ∧
    (charCounts (c :: cs)).total = (c :: cs).length ∧
    ((charCounts (c :: cs)).lowercase : ℚ) / (c :: cs).length * 100 +
      ((charCounts (c :: cs)).uppercase : ℚ) / (c :: cs).length * 100 +
      ((charCounts (c :: cs)).numeric : ℚ) / (c :: cs).length * 100 +
      ((charCounts (c :: cs)).special : ℚ) / (c :: cs).length * 100 +
      ((charCounts (c :: cs)).whitespace : ℚ) / (c :: cs).length * 100 +
      ((charCounts (c :: cs)).hex : ℚ) / (c :: cs).length * 100 +
      ((charCounts (c :: cs)).control : ℚ) / (c :: cs).length * 100 = 100 ∧
    getCharTypeDistribution (c :: cs) =
      some ⟨percentage (charCounts (c :: cs)).lowercase (c :: cs).length,
        percentage (charCounts (c :: cs)).uppercase (c :: cs).length,
        percentage (charCounts (c :: cs)).numeric (c :: cs).length,
        percentage (charCounts (c :: cs)).special (c :: cs).length,
        percentage (charCounts (c :: cs)).whitespace (c :: cs).length,
        percentage (charCounts (c :: cs)).hex (c :: cs).length,
        percentage (charCounts (c :: cs)).control (c :: cs).length⟩ := by
  refine ⟨countChar_total, charCounts_total _, ?_, getCharTypeDistribution_cons c cs⟩
  have ht := charCounts_total (c :: cs)
  have hL : 0 < (c :: cs).length := by simp
  unfold Dist.total at ht
  generalize charCounts (c :: cs) = d at ht ⊢
  generalize (c :: cs).length = L at ht hL ⊢
  have hpos : (L : ℚ) ≠ 0 := by exact_mod_cast hL.ne'
  have hq : ((d.lowercase + d.uppercase + d.numeric + d.special + d.whitespace + d.hex +
      d.control : ℕ) : ℚ) = (L : ℚ) := by exact_mod_cast ht
  push_cast at hq
  field_simp
  linear_combination 100 * hq

end XssLib

namespace XssLib

theorem ilog2Loop_spec : ∀ (fuel n : Nat), 0 < n → n ≤ fuel →
    2 ^ ilog2Loop fuel n ≤ n ∧ n < 2 ^ (ilog2Loop fuel n + 1) := by
  intro fuel
  induction fuel with
  | zero => intro n h1 h2; omega
  | succ f ih =>
    intro n h1 h2
    unfold ilog2Loop
    split_ifs with h
    · simp; omega
    · have h3 := ih (n / 2) (by omega) (by omega)
      obtain ⟨h4, h5⟩ := h3
      rw [pow_succ] at h5 ⊢
      rw [pow_succ]
      constructor <;> omega

theorem ilog2_spec (n : Nat) (h : 0 < n) : 2 ^ ilog2 n ≤ n ∧ n < 2 ^ (ilog2 n + 1) :=
  ilog2Loop_spec n n h le_rfl

theorem roundHalfEven_ge (n d : Nat) : n / d ≤ roundHalfEven n d := by
  unfold roundHalfEven
  split_ifs <;> omega

theorem roundHalfEven_pos (n d : Nat) (hd : 0 < d) (h : d ≤ n) : 0 < roundHalfEven n d :=
  lt_of_lt_of_le (Nat.div_pos h hd) (roundHalfEven_ge n d)

theorem roundRatio_pos (a b : Nat) (ha : 0 < a) (hb : 0 < b) : 0 < (roundRatio a b).num := by
  obtain ⟨ha1, _⟩ := ilog2_spec a ha
  obtain ⟨_, hb2⟩ := ilog2_spec b hb
  unfold roundRatio
  simp only [ha.ne', ↓reduceIte]
  generalize hup : (52 + ilog2 b + if b * 2 ^ ilog2 a ≤ a * 2 ^ ilog2 b then 0 else 1) = up
  have hup' : 52 + ilog2 b ≤ up := by rw [← hup]; omega
  have hb3 : b ≤ 2 ^ up :=
    calc b ≤ 2 ^ (ilog2 b + 1) := hb2.le
      _ ≤ 2 ^ up := Nat.pow_le_pow_right (by norm_num) (by omega)
  split_ifs with h
  · show 0 < roundHalfEven (a * 2 ^ (up - ilog2 a)) b
    apply roundHalfEven_pos _ _ hb
    calc b ≤ 2 ^ up := hb3
      _ = 2 ^ ilog2 a * 2 ^ (up - ilog2 a) := by rw [← pow_add]; congr 1; omega
      _ ≤ a * 2 ^ (up - ilog2 a) := Nat.mul_le_mul_right _ ha1
  · show 0 < roundHalfEven a (b * 2 ^ (ilog2 a - up)) * 2 ^ (ilog2 a - up)
    have hp : 0 < 2 ^ (ilog2 a - up) := pow_pos (by norm_num) _
    apply Nat.mul_pos _ hp
    apply roundHalfEven_pos _ _ (Nat.mul_pos hb hp)
    calc b * 2 ^ (ilog2 a - up) ≤ 2 ^ up * 2 ^ (ilog2 a - up) := Nat.mul_le_mul_right _ hb3
      _ = 2 ^ ilog2 a := by rw [← pow_add]; congr 1; omega
      _ ≤ a := ha1

theorem percentage_gtNat_zero (count total : Nat) (hc : 0 < count) (ht : 0 < total) :
    (percentage count total).gtNat 0 = true := by
  unfold percentage Dbl.gtNat
  have h1 := roundRatio_pos count total hc ht
  have h2 := roundRatio_pos ((roundRatio count total).num * 100)
    (2 ^ (roundRatio count total).shift) (by omega) (pow_pos (by norm_num) _)
  simpa using h2

end XssLib

namespace XssLib

theorem countChar_control_le (d : Dist Nat) (code : Nat) :
    d.control ≤ (countChar d code).control := by
  unfold countChar
  split_ifs <;> simp

theorem countChar_control_counted (d : Dist Nat) (code : Nat)
    (h : isCountedControl code = true) : (countChar d code).control = d.control + 1 := by
  unfold isCountedControl at h
  simp only [Bool.and_eq_true, Bool.or_eq_true, decide_eq_true_eq, Bool.not_eq_true',
    beq_iff_eq] at h
  obtain ⟨h1, h2⟩ := h
  have hl : isLower code = false := by
    simp only [isLower, Bool.and_eq_false_imp, decide_eq_true_eq, decide_eq_false_iff_not]
    omega
  have hu : isUpper code = false := by
    simp only [isUpper, Bool.and_eq_false_imp, decide_eq_true_eq, decide_eq_false_iff_not]
    omega
  have hd : isDigit code = false := by
    simp only [isDigit, Bool.and_eq_false_imp, decide_eq_true_eq, decide_eq_false_iff_not]
    omega
  have hh : isHexDigit code = false := by
    simp only [isHexDigit, hd, Bool.false_or, Bool.or_eq_false_iff, Bool.and_eq_false_imp,
      decide_eq_true_eq, decide_eq_false_iff_not]
    omega
  have hc : (decide (code < 32) || code == 127) = true := by
    simpa using h1
  simp [countChar, hl, hu, hd, hh, h2, hc]

theorem foldl_countChar_control_le (s : JSString) :
    ∀ d : Dist Nat, d.control ≤ (s.foldl countChar d).control := by
  induction s with
  | nil => intro d; exact le_rfl
  | cons c cs ih =>
    intro d
    exact le_trans (countChar_control_le d c) (ih _)

theorem foldl_countChar_control_pos (s : JSString) (code : Nat) (hmem : code ∈ s)
    (h : isCountedControl code = true) :
    ∀ d : Dist Nat, 0 < (s.foldl countChar d).control := by
  induction s with
  | nil => simp at hmem
  | cons c cs ih =>
    intro d
    rw [List.foldl_cons]
    rcases List.mem_cons.mp hmem with heq | hin
    · subst heq
      have := foldl_countChar_control_le cs (countChar d code)
      rw [countChar_control_counted d code h] at this
      omega
    · exact ih hin _

/-- C16, as stated, fails: the line feed has code 10, below 32, but it is counted as
whitespace (the test `\s` comes before the test on the code), and for the string that
consists of one line feed `suspicious` is `false` and `reasons` is empty. -/
theorem line_feed_not_flagged :
    (10 : Nat) ∈ js "\n" ∧
    (analyzeSuspiciousCharacteristics (Real.logb 2) (js "\n")).suspicious = false ∧
    (analyzeSuspiciousCharacteristics (Real.logb 2) (js "\n")).reasons = some [] := by
  have h : getCharTypeDistribution (js "\n") =
      some ⟨⟨0, 0⟩, ⟨0, 0⟩, ⟨0, 0⟩, ⟨0, 0⟩, ⟨7036874417766400, 46⟩, ⟨0, 0⟩, ⟨0, 0⟩⟩ := by
    decide
  have he : calculateEntropy (Real.logb 2) (js "\n") = 0 := by
    have hj : js "\n" = [10] := by decide
    simp [calculateEntropy, hj, frequencies, bump]
  have hr : suspicionReasons (calculateEntropy (Real.logb 2) (js "\n"))
      ⟨⟨0, 0⟩, ⟨0, 0⟩, ⟨0, 0⟩, ⟨0, 0⟩, ⟨7036874417766400, 46⟩, ⟨0, 0⟩, ⟨0, 0⟩⟩ = [] := by
    rw [he]
    simp [suspicionReasons, Dbl.gtNat]
  refine ⟨by decide, ?_, ?_⟩
  · simp only [analyzeSuspiciousCharacteristics, h, hr]
    rfl
  · simp only [analyzeSuspiciousCharacteristics, h, hr]

/-- C16, amended: for every string that contains at least one character with code
0 to 8, 14 to 31 or 127 (a control character that `\s` does not match),
`analyzeSuspiciousCharacteristics` returns `suspicious = true` and its `reasons` include
`'Contains control characters'`. -/
theorem control_characters_flagged {K : Type} [LinearOrderedField K] (log2 : K → K)
    (s : JSString) (code : Nat) (hmem : code ∈ s) (hcode : isCountedControl code = true) :
    (analyzeSuspiciousCharacteristics log2 s).suspicious = true ∧
    ∃ reasons, (analyzeSuspiciousCharacteristics log2 s).reasons = some reasons ∧
      "Contains control characters" ∈ reasons := by
  cases s with
  | nil => simp at hmem
  | cons c cs =>
    have hpos : 0 < (charCounts (c :: cs)).control :=
      foldl_countChar_control_pos (c :: cs) code hmem hcode _
    have hgt := percentage_gtNat_zero (charCounts (c :: cs)).control (c :: cs).length hpos
      (by simp)
    have hmemr : ∀ e : K, "Contains control characters" ∈ suspicionReasons e
        ⟨percentage (charCounts (c :: cs)).lowercase (c :: cs).length,
        percentage (charCounts (c :: cs)).uppercase (c :: cs).length,
        percentage (charCounts (c :: cs)).numeric (c :: cs).length,
        percentage (charCounts (c :: cs)).special (c :: cs).length,
        percentage (charCounts (c :: cs)).whitespace (c :: cs).length,
        percentage (charCounts (c :: cs)).hex (c :: cs).length,
        percentage (charCounts (c :: cs)).control (c :: cs).length⟩ := by
      intro e
      simp only [suspicionReasons, hgt, ↓reduceIte]
      simp
    simp only [analyzeSuspiciousCharacteristics, getCharTypeDistribution_cons]
    refine ⟨?_, _, rfl, hmemr _⟩
    have := hmemr (calculateEntropy log2 (c :: cs))
    cases hl : suspicionReasons (calculateEntropy log2 (c :: cs)) _ with
    | nil => rw [hl] at this; simp at this
    | cons a as => rfl

theorem control_characters_flagged_witness :
    (1 : Nat) ∈ js "a\x01b" ∧ isCountedControl 1 = true ∧
    (analyzeSuspiciousCharacteristics (Real.logb 2) (js "a\x01b")).suspicious = true :=
  ⟨by decide, by decide,
    (control_characters_flagged (Real.logb 2) (js "a\x01b") 1 (by decide) (by decide)).1⟩

end XssLib

namespace XssLib

/-! ## Entropy -/

theorem logb_two_quarter : Real.logb 2 (1 / 4) = -2 := by
  rw [show (1 / 4 : ℝ) = (2 ^ 2)⁻¹ by norm_num, Real.logb_inv, Real.logb_pow,
    Real.logb_self_eq_one (by norm_num)]
  norm_num

theorem logb_two_eighth : Real.logb 2 (1 / 8) = -3 := by
  rw [show (1 / 8 : ℝ) = (2 ^ 3)⁻¹ by norm_num, Real.logb_inv, Real.logb_pow,
    Real.logb_self_eq_one (by norm_num)]
  norm_num

theorem logb_two_five_eighths : -1 < Real.logb 2 (5 / 8) := by
  have h : Real.logb 2 (1 / 2) = -1 := by
    rw [show (1 / 2 : ℝ) = (2 : ℝ)⁻¹ by norm_num, Real.logb_inv,
      Real.logb_self_eq_one (by norm_num)]
  rw [← h]
  exact Real.logb_lt_logb (by norm_num) (by norm_num) (by norm_num)

/-- C17, as stated, fails: the Shannon entropy of `'abcd'` is 2, and appending `'aaaa'`
lowers it (to about 1.55). -/
theorem entropy_decreases_when_appending :
    calculateEntropy (Real.logb 2) (js "abcd") = 2 ∧
    calculateEntropy (Real.logb 2) (js "abcd" ++ js "aaaa") <
      calculateEntropy (Real.logb 2) (js "abcd") := by
  have f1 : frequencies (js "abcd") = [(97, 1), (98, 1), (99, 1), (100, 1)] := by decide
  have f2 : frequencies (js "abcd" ++ js "aaaa") = [(97, 5), (98, 1), (99, 1), (100, 1)] := by
    decide
  have l1 : (js "abcd").length = 4 := by decide
  have l2 : (js "abcd" ++ js "aaaa").length = 8 := by decide
  have e1 : calculateEntropy (Real.logb 2) (js "abcd") = 2 := by
    unfold calculateEntropy
    rw [f1, l1]
    simp only [List.foldl]
    norm_num [logb_two_quarter]
  refine ⟨e1, ?_⟩
  rw [e1]
  unfold calculateEntropy
  rw [f2, l2]
  simp only [List.foldl]
  norm_num [logb_two_eighth]
  have := logb_two_five_eighths
  linarith

end XssLib

namespace XssLib

theorem bump_sum (c : Nat) (t : List (Nat × Nat)) :
    ((bump c t).map Prod.snd).sum = (t.map Prod.snd).sum + 1 := by
  induction t with
  | nil => simp [bump]
  | cons e rest ih =>
    obtain ⟨d, n⟩ := e
    unfold bump
    split_ifs
    · simp; omega
    · simp [ih]; omega

theorem bump_pos (c : Nat) (t : List (Nat × Nat)) (h : ∀ e ∈ t, 0 < e.2) :
    ∀ e ∈ bump c t, 0 < e.2 := by
  induction t with
  | nil => simp [bump]
  | cons e rest ih =>
    obtain ⟨d, n⟩ := e
    unfold bump
    split_ifs
    · intro e he
      rcases List.mem_cons.mp he with h1 | h1
      · subst h1; simp
      · exact h e (List.mem_cons_of_mem _ h1)
    · intro e he
      rcases List.mem_cons.mp he with h1 | h1
      · subst h1; exact h _ (List.mem_cons_self _ _)
      · exact ih (fun x hx => h x (List.mem_cons_of_mem _ hx)) e h1

theorem foldl_bump_inv (s : JSString) : ∀ t : List (Nat × Nat), (∀ e ∈ t, 0 < e.2) →
    (((s.foldl (fun table char => bump char table) t).map Prod.snd).sum =
        (t.map Prod.snd).sum + s.length ∧
      ∀ e ∈ s.foldl (fun table char => bump char table) t, 0 < e.2) := by
  induction s with
  | nil => intro t h; exact ⟨rfl, h⟩
  | cons c cs ih =>
    intro t h
    rw [List.foldl_cons]
    obtain ⟨h1, h2⟩ := ih (bump c t) (bump_pos c t h)
    refine ⟨?_, h2⟩
    rw [h1, bump_sum, List.length_cons]
    omega

theorem snd_le_sum (t : List (Nat × Nat)) (e : Nat × Nat) (h : e ∈ t) :
    e.2 ≤ (t.map Prod.snd).sum := by
  induction t with
  | nil => simp at h
  | cons x rest ih =>
    rcases List.mem_cons.mp h with h1 | h1
    · subst h1; simp
    · have := ih h1
      simp only [List.map_cons, List.sum_cons]
      omega

theorem frequencies_bounds (s : JSString) (e : Nat × Nat) (h : e ∈ frequencies s) :
    0 < e.2 ∧ e.2 ≤ s.length := by
  obtain ⟨h1, h2⟩ := foldl_bump_inv s [] (by simp)
  refine ⟨h2 e h, ?_⟩
  have := snd_le_sum _ e h
  unfold frequencies at this
  rw [h1] at this
  simpa using this

theorem foldl_entropy_nonneg (L : Nat) (hL : 0 < L) :
    ∀ (t : List (Nat × Nat)) (acc : ℝ), (∀ e ∈ t, 0 < e.2 ∧ e.2 ≤ L) → 0 ≤ acc →
      0 ≤ t.foldl (fun entropy entry =>
        entropy - ((entry.2 : ℝ) / (L : ℝ)) * Real.logb 2 ((entry.2 : ℝ) / (L : ℝ))) acc := by
  intro t
  induction t with
  | nil => intro acc _ h; exact h
  | cons e rest ih =>
    intro acc h hacc
    rw [List.foldl_cons]
    apply ih _ (fun x hx => h x (List.mem_cons_of_mem _ hx))
    obtain ⟨h1, h2⟩ := h e (List.mem_cons_self _ _)
    have hLr : (0 : ℝ) < L := by exact_mod_cast hL
    have hp0 : (0 : ℝ) ≤ (e.2 : ℝ) / L := div_nonneg (by exact_mod_cast h1.le) hLr.le
    have hp1 : (e.2 : ℝ) / L ≤ 1 := by
      rw [div_le_one hLr]
      exact_mod_cast h2
    have hlog : Real.logb 2 ((e.2 : ℝ) / L) ≤ 0 := Real.logb_nonpos (by norm_num) hp0 hp1
    have := mul_nonpos_of_nonneg_of_nonpos hp0 hlog
    linarith

theorem calculateEntropy_nonneg (s : JSString) : 0 ≤ calculateEntropy (Real.logb 2) s := by
  unfold calculateEntropy
  split_ifs with h
  · exact le_rfl
  · exact foldl_entropy_nonneg s.length (by omega) _ 0
      (fun e he => frequencies_bounds s e he) le_rfl

theorem foldl_bump_replicate (c : Nat) : ∀ (m k : Nat),
    (List.replicate m c).foldl (fun table char => bump char table) [(c, k)] = [(c, k + m)] := by
  intro m
  induction m with
  | zero => intro k; rfl
  | succ m ih =>
    intro k
    rw [List.replicate_succ, List.foldl_cons]
    have : bump c [(c, k)] = [(c, k + 1)] := by simp [bump]
    rw [this, ih]
    congr 2
    omega

theorem calculateEntropy_replicate (n c : Nat) :
    calculateEntropy (Real.logb 2) (List.replicate n c) = 0 := by
  cases n with
  | zero => simp [calculateEntropy]
  | succ n =>
    have hf : frequencies (List.replicate (n + 1) c) = [(c, 1 + n)] := by
      unfold frequencies
      rw [List.replicate_succ, List.foldl_cons]
      exact foldl_bump_replicate c n 1
    unfold calculateEntropy
    rw [hf]
    have hne : (((1 + n : ℕ) : ℝ)) ≠ 0 := by
      have : 1 + n ≠ 0 := by omega
      exact_mod_cast this
    have hlen : (List.replicate (n + 1) c).length = 1 + n := by simp [add_comm]
    rw [hlen]
    simp only [List.foldl, Nat.add_eq_zero, one_ne_zero, false_and, ↓reduceIte]
    rw [div_self hne, Real.logb_one]
    ring

theorem bump_keys (c : Nat) (t : List (Nat × Nat)) :
    (bump c t).map Prod.fst =
      if c ∈ t.map Prod.fst then t.map Prod.fst else t.map Prod.fst ++ [c] := by
  induction t with
  | nil => simp [bump]
  | cons e rest ih =>
    obtain ⟨d, n⟩ := e
    unfold bump
    by_cases h : d = c
    · simp [h]
    · rw [if_neg h]
      have hcd : ¬ c = d := fun h' => h h'.symm
      simp only [List.map_cons, List.mem_cons, hcd, false_or]
      rw [ih]
      by_cases hm : c ∈ rest.map Prod.fst
      · simp [hm]
      · simp [hm]

theorem bump_nodup (c : Nat) (t : List (Nat × Nat)) (h : (t.map Prod.fst).Nodup) :
    ((bump c t).map Prod.fst).Nodup := by
  rw [bump_keys]
  by_cases hm : c ∈ t.map Prod.fst
  · rw [if_pos hm]; exact h
  · rw [if_neg hm]
    rw [List.nodup_append]
    refine ⟨h, List.nodup_singleton c, ?_⟩
    intro a ha hb
    rw [List.mem_singleton] at hb
    subst hb
    exact hm ha

theorem bump_entry (c : Nat) (t : List (Nat × Nat)) (h : (t.map Prod.fst).Nodup)
    (e : Nat × Nat) (he : e ∈ bump c t) :
    (e.1 ≠ c ∧ e ∈ t) ∨
    (e.1 = c ∧ ((∃ n, (c, n) ∈ t ∧ e.2 = n + 1) ∨ (c ∉ t.map Prod.fst ∧ e.2 = 1))) := by
  induction t with
  | nil =>
    simp only [bump, List.mem_singleton] at he
    subst he
    exact Or.inr ⟨rfl, Or.inr ⟨by simp, rfl⟩⟩
  | cons x rest ih =>
    obtain ⟨d, n⟩ := x
    rw [List.map_cons, List.nodup_cons] at h
    obtain ⟨hd, hrest⟩ := h
    unfold bump at he
    by_cases hdc : d = c
    · rw [if_pos hdc] at he
      rcases List.mem_cons.mp he with h1 | h1
      · subst h1
        exact Or.inr ⟨hdc, Or.inl ⟨n, by rw [← hdc]; exact List.mem_cons_self _ _, rfl⟩⟩
      · left
        refine ⟨?_, List.mem_cons_of_mem _ h1⟩
        intro hec
        apply hd
        have hde : d = e.1 := hdc.trans hec.symm
        exact List.mem_map.mpr ⟨e, h1, hde.symm⟩
    · rw [if_neg hdc] at he
      rcases List.mem_cons.mp he with h1 | h1
      · subst h1
        exact Or.inl ⟨hdc, List.mem_cons_self _ _⟩
      · rcases ih hrest h1 with ⟨hne, hmem⟩ | ⟨heq, hcase⟩
        · exact Or.inl ⟨hne, List.mem_cons_of_mem _ hmem⟩
        · right
          refine ⟨heq, ?_⟩
          rcases hcase with ⟨k, hk, hk2⟩ | ⟨hnot, h1⟩
          · exact Or.inl ⟨k, List.mem_cons_of_mem _ hk, hk2⟩
          · refine Or.inr ⟨?_, h1⟩
            rw [List.map_cons, List.mem_cons]
            rintro (h' | h')
            · exact hdc h'.symm
            · exact hnot h'

theorem isTally_bump (c : Nat) (t : List (Nat × Nat)) (pre : JSString) (h : IsTally t pre) :
    IsTally (bump c t) (pre ++ [c]) := by
  obtain ⟨hnd, hcount, hkeys⟩ := h
  refine ⟨bump_nodup c t hnd, ?_, ?_⟩
  · intro e he
    rw [List.count_append]
    rcases bump_entry c t hnd e he with ⟨hne, hmem⟩ | ⟨heq, hcase⟩
    · rw [hcount e hmem, List.count_singleton]
      simp [Ne.symm hne]
    · rw [heq, List.count_singleton]
      rcases hcase with ⟨k, hk, hk2⟩ | ⟨hnot, h1⟩
      · have := hcount _ hk
        simp only at this
        rw [hk2, this]
        simp
      · have hc0 : pre.count c = 0 := by
          rw [List.count_eq_zero]
          exact fun hin => hnot ((hkeys c).mpr hin)
        rw [h1, hc0]
        simp
  · intro d
    rw [bump_keys, List.mem_append, List.mem_singleton]
    by_cases hm : c ∈ t.map Prod.fst
    · rw [if_pos hm, hkeys]
      constructor
      · exact Or.inl
      · rintro (h1 | h1)
        · exact h1
        · rw [h1]; exact (hkeys c).mp hm
    · rw [if_neg hm, List.mem_append, List.mem_singleton, hkeys]

theorem isTally_foldl (s : JSString) : ∀ (t : List (Nat × Nat)) (pre : JSString),
    IsTally t pre → IsTally (s.foldl (fun table char => bump char table) t) (pre ++ s) := by
  induction s with
  | nil => intro t pre h; simpa using h
  | cons c cs ih =>
    intro t pre h
    rw [List.foldl_cons]
    have := ih (bump c t) (pre ++ [c]) (isTally_bump c t pre h)
    rwa [List.append_assoc, List.singleton_append] at this

theorem isTally_frequencies (s : JSString) : IsTally (frequencies s) s := by
  have := isTally_foldl s [] [] ⟨by simp, by simp, by simp⟩
  simpa using this

theorem foldl_sub_eq {K : Type} [LinearOrderedField K] (g : Nat × Nat → K) :
    ∀ (t : List (Nat × Nat)) (acc : K),
      t.foldl (fun entropy entry => entropy - g entry) acc = acc - (t.map g).sum := by
  intro t
  induction t with
  | nil => intro acc; simp
  | cons e rest ih =>
    intro acc
    rw [List.foldl_cons, ih, List.map_cons, List.sum_cons]
    ring

theorem calculateEntropy_eq_shannonEntropy {K : Type} [LinearOrderedField K] (log2 : K → K)
    (s : JSString) : calculateEntropy log2 s = shannonEntropy log2 s := by
  unfold calculateEntropy shannonEntropy
  split_ifs with h
  · have : s = [] := List.length_eq_zero.mp h
    subst this
    simp
  · obtain ⟨hnd, hcount, hkeys⟩ := isTally_frequencies s
    have hfold := foldl_sub_eq
      (fun entry : Nat × Nat =>
        ((entry.2 : K) / (s.length : K)) * log2 ((entry.2 : K) / (s.length : K)))
      (frequencies s) 0
    simp only at hfold
    rw [hfold, zero_sub]
    congr 1
    have hmap : (frequencies s).map (fun entry : Nat × Nat =>
        ((entry.2 : K) / (s.length : K)) * log2 ((entry.2 : K) / (s.length : K))) =
        ((frequencies s).map Prod.fst).map (fun c =>
          ((s.count c : K) / (s.length : K)) * log2 ((s.count c : K) / (s.length : K))) := by
      rw [List.map_map]
      apply List.map_congr_left
      intro e he
      simp only [Function.comp]
      rw [hcount e he]
    rw [hmap, ← List.sum_toFinset _ hnd]
    congr 1
    ext c
    rw [List.mem_toFinset, List.mem_toFinset, hkeys]

theorem shannonEntropy_eq_sum (s : JSString) (S : Finset Nat) (hS : s.toFinset ⊆ S) :
    shannonEntropy (Real.logb 2) s =
      Finset.sum S (fun c =>
        -(((s.count c : ℝ) / (s.length : ℝ)) *
          Real.logb 2 ((s.count c : ℝ) / (s.length : ℝ)))) := by
  unfold shannonEntropy
  rw [← Finset.sum_neg_distrib]
  apply Finset.sum_subset hS
  intro c _ hc
  have h0 : s.count c = 0 := by
    rw [List.count_eq_zero]
    exact fun hin => hc (List.mem_toFinset.mpr hin)
  rw [h0]
  simp

theorem entropyTerm_concave (x y a b : ℝ) (hx : 0 ≤ x) (hy : 0 ≤ y) (ha : 0 ≤ a) (hb : 0 ≤ b)
    (hab : a + b = 1) :
    a * (-(x * Real.logb 2 x)) + b * (-(y * Real.logb 2 y)) ≤
      -((a * x + b * y) * Real.logb 2 (a * x + b * y)) := by
  have h := Real.concaveOn_negMulLog.2 (Set.mem_Ici.mpr hx) (Set.mem_Ici.mpr hy) ha hb hab
  simp only [smul_eq_mul, Real.negMulLog] at h
  have hL : 0 < Real.log 2 := Real.log_pos (by norm_num)
  simp only [Real.logb]
  have e1 : a * (-(x * (Real.log x / Real.log 2))) + b * (-(y * (Real.log y / Real.log 2))) =
      (a * (-x * Real.log x) + b * (-y * Real.log y)) / Real.log 2 := by
    field_simp
    ring
  have e2 : -((a * x + b * y) * (Real.log (a * x + b * y) / Real.log 2)) =
      (-(a * x + b * y) * Real.log (a * x + b * y)) / Real.log 2 := by
    field_simp
    ring
  rw [e1, e2]
  exact div_le_div_of_nonneg_right h hL.le

theorem shannonEntropy_append (s t : JSString) :
    (s.length : ℝ) * shannonEntropy (Real.logb 2) s +
        (t.length : ℝ) * shannonEntropy (Real.logb 2) t ≤
      ((s ++ t).length : ℝ) * shannonEntropy (Real.logb 2) (s ++ t) := by
  by_cases hs : s = []
  · subst hs
    simp [shannonEntropy]
  by_cases ht : t = []
  · subst ht
    simp [shannonEntropy]
  have hn : (0 : ℝ) < (s.length : ℝ) := by
    exact_mod_cast List.length_pos.mpr hs
  have hm : (0 : ℝ) < (t.length : ℝ) := by
    exact_mod_cast List.length_pos.mpr ht
  have hsS : s.toFinset ⊆ (s ++ t).toFinset := by
    intro c hc
    rw [List.mem_toFinset] at hc ⊢
    exact List.mem_append_left _ hc
  have htS : t.toFinset ⊆ (s ++ t).toFinset := by
    intro c hc
    rw [List.mem_toFinset] at hc ⊢
    exact List.mem_append_right _ hc
  rw [shannonEntropy_eq_sum s _ hsS, shannonEntropy_eq_sum t _ htS,
    shannonEntropy_eq_sum (s ++ t) _ (Finset.Subset.refl _), Finset.mul_sum, Finset.mul_sum,
    Finset.mul_sum, ← Finset.sum_add_distrib]
  apply Finset.sum_le_sum
  intro c _
  rw [List.length_append, List.count_append]
  push_cast
  generalize (s.length : ℝ) = n at hn
  generalize (t.length : ℝ) = m at hm
  have hx : (0 : ℝ) ≤ (s.count c : ℝ) / n := div_nonneg (Nat.cast_nonneg _) hn.le
  have hy : (0 : ℝ) ≤ (t.count c : ℝ) / m := div_nonneg (Nat.cast_nonneg _) hm.le
  generalize (s.count c : ℝ) = u at hx
  generalize (t.count c : ℝ) = v at hy
  have hnm : 0 < n + m := add_pos hn hm
  have hc := entropyTerm_concave (u / n) (v / m) (n / (n + m)) (m / (n + m)) hx hy
    (div_nonneg hn.le hnm.le) (div_nonneg hm.le hnm.le) (by field_simp)
  have hmix : n / (n + m) * (u / n) + m / (n + m) * (v / m) = (u + v) / (n + m) := by
    field_simp
    ring
  rw [hmix] at hc
  have hmul := mul_le_mul_of_nonneg_left hc hnm.le
  generalize -(u / n * Real.logb 2 (u / n)) = A at hmul ⊢
  generalize -(v / m * Real.logb 2 (v / m)) = B at hmul ⊢
  have e : (n + m) * (n / (n + m) * A + m / (n + m) * B) = n * A + m * B := by
    field_simp
  rw [e] at hmul
  exact hmul

theorem calculateEntropy_ab : calculateEntropy (Real.logb 2) (js "ab") = 1 := by
  have f1 : frequencies (js "ab") = [(97, 1), (98, 1)] := by decide
  have l1 : (js "ab").length = 2 := by decide
  have h : Real.logb 2 (1 / 2) = -1 := by
    rw [show (1 / 2 : ℝ) = (2 : ℝ)⁻¹ by norm_num, Real.logb_inv,
      Real.logb_self_eq_one (by norm_num)]
  unfold calculateEntropy
  rw [f1, l1]
  simp only [List.foldl]
  norm_num [h]

theorem calculateEntropy_abcd : calculateEntropy (Real.logb 2) (js "abcd") = 2 := by
  have f1 : frequencies (js "abcd") = [(97, 1), (98, 1), (99, 1), (100, 1)] := by decide
  have l1 : (js "abcd").length = 4 := by decide
  unfold calculateEntropy
  rw [f1, l1]
  simp only [List.foldl]
  norm_num [logb_two_quarter]

/-- C17, amended: `calculateEntropy` is the Shannon entropy of the character frequency
distribution, 0 for the empty string and never negative.  For all strings `s` and `t`,
the entropy of `s + t` weighted by its length is at least the sum of the entropies of
`s` and of `t` weighted by their lengths; so, whenever the entropy of the appended
string `t` is at least the entropy of `s`, `calculateEntropy(s + t)` is at least
`calculateEntropy(s)`. -/
theorem calculateEntropy_append_monotone (s t : JSString) :
    calculateEntropy (Real.logb 2) [] = 0 ∧
    calculateEntropy (Real.logb 2) s = shannonEntropy (Real.logb 2) s ∧
    0 ≤ calculateEntropy (Real.logb 2) s ∧
    (s.length : ℝ) * calculateEntropy (Real.logb 2) s +
        (t.length : ℝ) * calculateEntropy (Real.logb 2) t ≤
      ((s ++ t).length : ℝ) * calculateEntropy (Real.logb 2) (s ++ t) ∧
    (calculateEntropy (Real.logb 2) s ≤ calculateEntropy (Real.logb 2) t →
      calculateEntropy (Real.logb 2) s ≤ calculateEntropy (Real.logb 2) (s ++ t)) := by
  have hmix : (s.length : ℝ) * calculateEntropy (Real.logb 2) s +
        (t.length : ℝ) * calculateEntropy (Real.logb 2) t ≤
      ((s ++ t).length : ℝ) * calculateEntropy (Real.logb 2) (s ++ t) := by
    rw [calculateEntropy_eq_shannonEntropy, calculateEntropy_eq_shannonEntropy,
      calculateEntropy_eq_shannonEntropy]
    exact shannonEntropy_append s t
  refine ⟨by simp [calculateEntropy], calculateEntropy_eq_shannonEntropy _ s,
    calculateEntropy_nonneg s, hmix, ?_⟩
  intro hle
  by_cases hs : s = []
  · subst hs
    have h0 : calculateEntropy (Real.logb 2) [] = 0 := by simp [calculateEntropy]
    rw [h0]
    exact calculateEntropy_nonneg _
  have hn : (0 : ℝ) < (s.length : ℝ) := by
    exact_mod_cast List.length_pos.mpr hs
  have hm : (0 : ℝ) ≤ (t.length : ℝ) := Nat.cast_nonneg _
  rw [List.length_append] at hmix
  push_cast at hmix
  have h1 := mul_le_mul_of_nonneg_left hle hm
  have hpos : (0 : ℝ) < (s.length : ℝ) + (t.length : ℝ) := by linarith
  have h2 : ((s.length : ℝ) + (t.length : ℝ)) * calculateEntropy (Real.logb 2) s ≤
      ((s.length : ℝ) + (t.length : ℝ)) * calculateEntropy (Real.logb 2) (s ++ t) := by
    linarith
  exact le_of_mul_le_mul_left h2 hpos

theorem calculateEntropy_append_monotone_witness :
    calculateEntropy (Real.logb 2) (js "ab") = 1 ∧
    calculateEntropy (Real.logb 2) (js "abcd") = 2 ∧
    calculateEntropy (Real.logb 2) (js "ab") ≤
      calculateEntropy (Real.logb 2) (js "ab" ++ js "abcd") :=
  ⟨calculateEntropy_ab, calculateEntropy_abcd,
    (calculateEntropy_append_monotone (js "ab") (js "abcd")).2.2.2.2
      (by rw [calculateEntropy_ab, calculateEntropy_abcd]; norm_num)⟩

end XssLib

namespace XssLib

/-! ## The policy registry -/

/-- C10: evaluation at the failing input.  `getPolicyDetails('constructor')` returns the
value inherited from `Object.prototype` (it is truthy, so `|| policies.basic` does not
apply), not the basic policy record; so does `getPolicyDetails('toString')`.
`getSanitizer` does fall back to the basic sanitizer for these names, and
`getPolicyDetails` does for an omitted name and for a name found nowhere. -/
theorem getPolicyDetails_inherited_name :
    getPolicyDetails (some "constructor") = .inherited "constructor" ∧
    getPolicyDetails (some "constructor") ≠ .own basicPolicy ∧
    getPolicyDetails (some "toString") = .inherited "toString" ∧
    getSanitizer (some "constructor") = .basicSanitize ∧
    getSanitizer (some "toString") = .basicSanitize ∧
    getPolicyDetails none = .own basicPolicy ∧
    getPolicyDetails (some "no-such-policy") = .own basicPolicy := by
  decide

/-! ## The orchestrator -/

/-- C8, as stated, fails: for the number `42`, whose `String(42)` is `'42'`, and the
options `{ context: 'text' }`, `sanitizeInput` returns `'42'`, not `''`. -/
theorem sanitizeInput_number_not_empty :
    (sanitizeInput Libs.passThrough LoggerConfig.default "2025-01-01T00:00:00.000Z"
      DetectorState.initial (.other (some (js "42"))) { context := some "text" }).result =
      .ok (.string (js "42")) ∧ js "42" ≠ js "" :=
  ⟨rfl, by decide⟩

/-- C8, amended: for `undefined` and `null`, `sanitizeInput` returns `''`; every other
input that is not a string is converted with `String(input)` (to `''` when that
conversion throws) and then handled exactly like that string. -/
theorem sanitizeInput_non_string (libs : Libs) (config : LoggerConfig) (now : String)
    (st : DetectorState) (options : Options) (rendering : Option JSString) :
    (sanitizeInput libs config now st .undefined options).result = .ok (.string []) ∧
    (sanitizeInput libs config now st .null options).result = .ok (.string []) ∧
    (sanitizeInput libs config now st (.other rendering) options).result =
      (sanitizeInput libs config now st (.string (rendering.getD [])) options).result := by
  refine ⟨rfl, rfl, ?_⟩
  cases rendering <;> rfl

/-- C9: for a string input `x`, a recognized context `c` and any other options (any
policy name among them), a call of `sanitizeInput` that does not throw returns
`contextAwareSanitize(x, { context: c })`. -/
theorem context_overrides_policy (libs : Libs) (config : LoggerConfig) (now : String)
    (st : DetectorState) (x : JSString) (c : String) (options : Options) (v : JSValue)
    (hc : isValidContext c = true) (hctx : options.context = some c)
    (hok : (sanitizeInput libs config now st (.string x) options).result = .ok v) :
    v = contextAwareSanitize libs (.string x) { context := some c } := by
  unfold sanitizeInput at hok
  simp only [isValidString, Bool.not_true, Bool.false_eq_true, ↓reduceIte,
    validationToString, Options.spread, hctx] at hok
  have h2 : (some c <|> (none : Option String)) = some c := rfl
  simp only [h2, hc, ↓reduceIte] at hok
  split_ifs at hok <;> (injection hok with hok; exact hok.symm)

theorem context_overrides_policy_witness :
    isValidContext "text" = true ∧
    (sanitizeInput Libs.passThrough LoggerConfig.default "2025-01-01T00:00:00.000Z"
      DetectorState.initial (.string (js "<b>hi</b>"))
      { context := some "text", policy := some "strict" }).result = .ok (.string (js "hi")) ∧
    JSValue.string (js "hi") =
      contextAwareSanitize Libs.passThrough (.string (js "<b>hi</b>"))
        { context := some "text" } :=
  ⟨by decide, rfl,
    context_overrides_policy Libs.passThrough LoggerConfig.default "2025-01-01T00:00:00.000Z"
      DetectorState.initial (js "<b>hi</b>") "text"
      { context := some "text", policy := some "strict" } (.string (js "hi"))
      (by decide) rfl rfl⟩

end XssLib

namespace XssLib

theorem encodeFor_string (libs : Libs) (context : String) (x : JSString) :
    ∃ s, encodeFor libs context x = .string s := by
  unfold encodeFor
  split_ifs
  · exact ⟨_, rfl⟩
  · exact ⟨_, rfl⟩
  · exact ⟨_, rfl⟩
  · exact ⟨_, rfl⟩
  · exact ⟨_, rfl⟩
  · exact ⟨_, rfl⟩
  · split <;> exact ⟨_, rfl⟩
  · exact ⟨_, rfl⟩

theorem contextAwareSanitize_string (libs : Libs) (x : JSString) (options : Options) :
    ∃ s, contextAwareSanitize libs (.string x) options = .string s :=
  encodeFor_string libs _ x

theorem customSanitize_ne_threat (libs : Libs) (x : JSString) (options : Options) :
    customSanitize libs (.string x) options ≠ .error .threatDetected := by
  unfold customSanitize
  cases options.transform with
  | none => simp
  | some transform =>
    simp only
    cases transform x <;> simp

theorem applyPolicy_ne_threat (libs : Libs) (x : JSString) (policyName : Option String)
    (options : Options) :
    applyPolicy libs (.string x) policyName options ≠ .error .threatDetected := by
  unfold applyPolicy
  split
  · simp
  · simp
  · exact customSanitize_ne_threat libs x options
  · simp

theorem applyPolicy_string (libs : Libs) (x : JSString) (policyName : Option String)
    (options : Options) (h : options.transform = none) :
    ∃ s, applyPolicy libs (.string x) policyName options = .ok (.string s) := by
  unfold applyPolicy
  split
  · exact ⟨_, rfl⟩
  · exact ⟨_, rfl⟩
  · exact ⟨libs.sanitizeHtml x (sanitizeConfig options),
      by simp [customSanitize, h, sanitizeWithOptions]⟩
  · obtain ⟨s, hs⟩ := contextAwareSanitize_string libs x options
    exact ⟨s, by rw [hs]⟩

theorem getD_orElse_some {α : Type} (o : Option α) (d e : α) :
    (o <|> some d).getD e = o.getD d := by
  cases o <;> rfl

theorem orElse_some_eq {α : Type} (o : Option α) (d : α) : (o <|> some d) = some (o.getD d) := by
  cases o <;> rfl

theorem orElse_none_eq {α : Type} (o : Option α) : (o <|> none) = o := by
  cases o <;> rfl

/-- The value or error of `sanitizeInput` on a string, read off the code: the threat
error first, then the recognized context, then the named policy followed by
`logSanitization`. -/
theorem sanitizeInput_result (libs : Libs) (config : LoggerConfig) (now : String)
    (st : DetectorState) (x : JSString) (options : Options) :
    (sanitizeInput libs config now st (.string x) options).result =
      if ((analyzeThreat now st (.string x)).1.isThreat && options.throwOnThreat.getD false) =
          true then
        .error .threatDetected
      else if (options.context.map isValidContext).getD false = true then
        .ok (contextAwareSanitize libs (.string x) { context := options.context })
      else
        match applyPolicy libs (.string x) (some (options.policy.getD "basic")) options with
        | .error e => .error e
        | .ok v =>
          if options.logThreat.getD true = true then
            if (logSanitization config now (options.policy.getD "basic") x v).isSome = true
            then .ok v else .error (.typeError "after")
          else .ok v := by
  unfold sanitizeInput sanitizeInput.sanitizeWithPolicy
  simp only [isValidString, Bool.not_true, Bool.false_eq_true, ↓reduceIte,
    validationToString, Options.spread, getD_orElse_some, orElse_some_eq, orElse_none_eq,
    Option.getD_some]
  generalize (if ((analyzeThreat now st (.string x)).1.isThreat &&
      options.logThreat.getD true) = true then
      logThreat config now x (analyzeThreat now st (.string x)).1.toObj else []) = logged
  by_cases hT : ((analyzeThreat now st (.string x)).1.isThreat &&
      options.throwOnThreat.getD false) = true
  · rw [if_pos hT, if_pos hT]
  · rw [if_neg hT, if_neg hT]
    cases hc : options.context with
    | none =>
      simp only [Option.map_none', Option.getD_none, Bool.false_eq_true, ↓reduceIte]
      cases applyPolicy libs (.string x) (some (options.policy.getD "basic")) options with
      | error e => rfl
      | ok v =>
        simp only
        cases options.logThreat.getD true
        · rfl
        · simp only [↓reduceIte]
          cases logSanitization config now (options.policy.getD "basic") x v <;> rfl
    | some c =>
      simp only [Option.map_some', Option.getD_some]
      by_cases hv : isValidContext c = true
      · rw [if_pos hv, if_pos hv]
      · rw [if_neg hv, if_neg hv]
        cases applyPolicy libs (.string x) (some (options.policy.getD "basic")) options with
        | error e => rfl
        | ok v =>
          simp only
          cases options.logThreat.getD true
          · rfl
          · simp only [↓reduceIte]
            cases logSanitization config now (options.policy.getD "basic") x v <;> rfl

theorem applyPolicy_string_of_ne_custom (libs : Libs) (x : JSString)
    (policyName : Option String) (options : Options)
    (h : getSanitizer policyName ≠ .customSanitize) :
    ∃ s, applyPolicy libs (.string x) policyName options = .ok (.string s) := by
  unfold applyPolicy
  split
  · exact ⟨_, rfl⟩
  · exact ⟨_, rfl⟩
  · rename_i hc
    exact absurd hc h
  · obtain ⟨s, hs⟩ := contextAwareSanitize_string libs x options
    exact ⟨s, by rw [hs]⟩

theorem applyPolicy_custom (libs : Libs) (v : JSValue) (policyName : Option String)
    (options : Options) (h : getSanitizer policyName = .customSanitize) :
    applyPolicy libs v policyName options = customSanitize libs v options := by
  unfold applyPolicy
  rw [h]

theorem logSanitization_string (config : LoggerConfig) (now policy : String)
    (before after : JSString) :
    (logSanitization config now policy before (.string after)).isSome = true := by
  unfold logSanitization
  rfl

theorem not_threat_and_throw (now : String) (st : DetectorState) (y : JSString)
    (options : Options) (hthrow : options.throwOnThreat ≠ some true) :
    ¬ ((analyzeThreat now st (.string y)).1.isThreat &&
      options.throwOnThreat.getD false) = true := by
  intro h
  rw [Bool.and_eq_true] at h
  apply hthrow
  cases ht : options.throwOnThreat with
  | none => rw [ht] at h; exact absurd h.2 (by simp)
  | some b =>
    rw [ht] at h
    cases b
    · exact absurd h.2 (by simp)
    · rfl

theorem sanitizeInput_context (libs : Libs) (config : LoggerConfig) (now : String)
    (st : DetectorState) (y : JSString) (options : Options) (c : String)
    (hthrow : options.throwOnThreat ≠ some true) (hc : options.context = some c)
    (hv : isValidContext c = true) :
    (sanitizeInput libs config now st (.string y) options).result =
      .ok (contextAwareSanitize libs (.string y) { context := some c }) := by
  rw [sanitizeInput_result, if_neg (not_threat_and_throw now st y options hthrow), hc]
  simp [hv]

theorem sanitizeInput_policy_string (libs : Libs) (config : LoggerConfig) (now : String)
    (st : DetectorState) (y out : JSString) (options : Options)
    (hthrow : options.throwOnThreat ≠ some true)
    (hctx : ∀ c, options.context = some c → isValidContext c = false)
    (hp : applyPolicy libs (.string y) (some (options.policy.getD "basic")) options =
      .ok (.string out)) :
    (sanitizeInput libs config now st (.string y) options).result = .ok (.string out) := by
  have hv : ¬ (options.context.map isValidContext).getD false = true := by
    cases hc : options.context with
    | none => simp
    | some c => simp [hctx c hc]
  rw [sanitizeInput_result, if_neg (not_threat_and_throw now st y options hthrow), if_neg hv, hp]
  simp only [logSanitization_string, ↓reduceIte, ite_self]

/-- C7, as stated, fails: `'hello'` is no threat and `throwOnThreat` is not set, yet with
the custom policy and a `transform` callback that throws, `sanitizeInput` raises; and
with a `transform` callback that returns the number 42 and `logThreat: false`,
`sanitizeInput` returns that number, not a string. -/
theorem sanitizeInput_transform_throws :
    (analyzeThreat "2025-01-01T00:00:00.000Z" DetectorState.initial
      (.string (js "hello"))).1.isThreat = false ∧
    (sanitizeInput Libs.passThrough LoggerConfig.default "2025-01-01T00:00:00.000Z"
      DetectorState.initial (.string (js "hello"))
      { policy := some "custom", transform := some (fun _ => .error "boom") }).result =
      .error (.thrownByTransform "boom") ∧
    (sanitizeInput Libs.passThrough LoggerConfig.default "2025-01-01T00:00:00.000Z"
      DetectorState.initial (.string (js "hello"))
      { policy := some "custom", logThreat := some false,
        transform := some (fun _ => .ok (.other (some (js "42")))) }).result =
      .ok (.other (some (js "42"))) :=
  ⟨by decide, rfl, rfl⟩

/-- C7, amended: for every string input and every options value, `sanitizeInput` raises
its error `XSS threat detected in input` if and only if `options.throwOnThreat` is true
and `analyzeThreat` reports `isThreat = true` for the input.  Apart from that error:
when the options carry no `transform` callback, or name a recognized context, or
resolve to a policy other than custom, a string is returned and nothing is raised.
With the custom policy, no recognized context and a `transform` callback: when the
callback throws, `sanitizeInput` raises that exception; when it returns a string, the
sanitized form of that string is returned; when it returns a value `v` that is not a
string, `v` is returned if `logThreat` is false, and otherwise `logSanitization` runs
on `v`: it raises a TypeError for `undefined` and `null` and, unless `anonymizeData`
is set, for every other value, and with `anonymizeData` set `v` is returned. -/
theorem sanitizeInput_raises (libs : Libs) (config : LoggerConfig) (now : String)
    (st : DetectorState) (x : JSString) (options : Options) :
    ((sanitizeInput libs config now st (.string x) options).result = .error .threatDetected ↔
      options.throwOnThreat = some true ∧
        (analyzeThreat now st (.string x)).1.isThreat = true) ∧
    ((options.transform = none ∨
        (∃ c, options.context = some c ∧ isValidContext c = true) ∨
        getSanitizer (some (options.policy.getD "basic")) ≠ .customSanitize) →
      (sanitizeInput libs config now st (.string x) options).result = .error .threatDetected ∨
      ∃ s, (sanitizeInput libs config now st (.string x) options).result = .ok (.string s)) ∧
    (∀ transform : JSString → Except String JSValue, options.transform = some transform →
      (∀ c, options.context = some c → isValidContext c = false) →
      getSanitizer (some (options.policy.getD "basic")) = .customSanitize →
      ¬ (options.throwOnThreat = some true ∧
        (analyzeThreat now st (.string x)).1.isThreat = true) →
      (∀ what, transform x = .error what →
        (sanitizeInput libs config now st (.string x) options).result =
          .error (.thrownByTransform what)) ∧
      (∀ t, transform x = .ok (.string t) →
        (sanitizeInput libs config now st (.string x) options).result =
          .ok (.string (libs.sanitizeHtml t (customConfig options)))) ∧
      (∀ v, transform x = .ok v → (∀ t, v ≠ .string t) →
        (options.logThreat = some false →
          (sanitizeInput libs config now st (.string x) options).result = .ok v) ∧
        (options.logThreat ≠ some false →
          (v = .undefined ∨ v = .null ∨ config.anonymizeData = false) →
          (sanitizeInput libs config now st (.string x) options).result =
            .error (.typeError "after")) ∧
        (options.logThreat ≠ some false → (∃ r, v = .other r) →
          config.anonymizeData = true →
          (sanitizeInput libs config now st (.string x) options).result = .ok v))) := by
  have hthrow : options.throwOnThreat.getD false = true ↔
      options.throwOnThreat = some true := by
    cases h : options.throwOnThreat with
    | none => simp
    | some b => cases b <;> simp
  have hTiff : ((analyzeThreat now st (.string x)).1.isThreat &&
      options.throwOnThreat.getD false) = true ↔
      (options.throwOnThreat = some true ∧
        (analyzeThreat now st (.string x)).1.isThreat = true) := by
    rw [Bool.and_eq_true, hthrow]
    exact And.comm
  have hlog : options.logThreat.getD true = true ↔ options.logThreat ≠ some false := by
    cases h : options.logThreat with
    | none => simp
    | some b => cases b <;> simp
  rw [sanitizeInput_result]
  refine ⟨?_, ?_, ?_⟩
  · by_cases hT : ((analyzeThreat now st (.string x)).1.isThreat &&
        options.throwOnThreat.getD false) = true
    · rw [if_pos hT]
      exact ⟨fun _ => hTiff.mp hT, fun _ => rfl⟩
    · rw [if_neg hT]
      refine ⟨fun h => ?_, fun h => absurd (hTiff.mpr h) hT⟩
      exfalso
      by_cases hv : (options.context.map isValidContext).getD false = true
      · rw [if_pos hv] at h
        cases h
      · rw [if_neg hv] at h
        have hne := applyPolicy_ne_threat libs x (some (options.policy.getD "basic")) options
        cases hp : applyPolicy libs (.string x) (some (options.policy.getD "basic")) options with
        | error e =>
          rw [hp] at h hne
          exact hne h
        | ok v =>
          rw [hp] at h
          simp only at h
          split_ifs at h <;> cases h
  · intro hcase
    by_cases hT : ((analyzeThreat now st (.string x)).1.isThreat &&
        options.throwOnThreat.getD false) = true
    · rw [if_pos hT]
      exact Or.inl rfl
    · rw [if_neg hT]
      right
      by_cases hv : (options.context.map isValidContext).getD false = true
      · rw [if_pos hv]
        obtain ⟨s, hs⟩ := contextAwareSanitize_string libs x { context := options.context }
        exact ⟨s, by rw [hs]⟩
      · rw [if_neg hv]
        have hstr : ∃ s, applyPolicy libs (.string x) (some (options.policy.getD "basic"))
            options = .ok (.string s) := by
          rcases hcase with h | ⟨c, hc, hval⟩ | h
          · exact applyPolicy_string libs x _ options h
          · exact absurd (by simp [hc, hval]) hv
          · exact applyPolicy_string_of_ne_custom libs x _ options h
        obtain ⟨s, hs⟩ := hstr
        refine ⟨s, ?_⟩
        rw [hs]
        simp only [logSanitization_string, ↓reduceIte, ite_self]
  · intro transform htr hctx hcustom hno
    have hT : ¬ ((analyzeThreat now st (.string x)).1.isThreat &&
        options.throwOnThreat.getD false) = true := fun h => hno (hTiff.mp h)
    have hv : ¬ (options.context.map isValidContext).getD false = true := by
      cases hc : options.context with
      | none => simp
      | some c => simp [hctx c hc]
    rw [if_neg hT, if_neg hv, applyPolicy_custom libs _ _ options hcustom]
    refine ⟨fun what hw => ?_, fun t ht => ?_, fun v hvv hns => ⟨fun hl => ?_, fun hl hbad => ?_,
      fun hl hother hanon => ?_⟩⟩
    · simp [customSanitize, htr, hw]
    · simp [customSanitize, htr, ht, sanitizeWithOptions, customConfig, logSanitization_string]
    · have hcs : customSanitize libs (.string x) options = .ok v := by
        cases v with
        | string t => exact absurd rfl (hns t)
        | _ => simp [customSanitize, htr, hvv, sanitizeWithOptions]
      rw [hcs]
      simp [hl]
    · have hcs : customSanitize libs (.string x) options = .ok v := by
        cases v with
        | string t => exact absurd rfl (hns t)
        | _ => simp [customSanitize, htr, hvv, sanitizeWithOptions]
      rw [hcs]
      have hl' := hlog.mpr hl
      simp only [hl', ↓reduceIte]
      cases v with
      | string t => exact absurd rfl (hns t)
      | undefined => rfl
      | null => rfl
      | other r =>
        rcases hbad with h | h | h
        · exact absurd h (by simp)
        · exact absurd h (by simp)
        · simp [logSanitization, h]
    · have hcs : customSanitize libs (.string x) options = .ok v := by
        cases v with
        | string t => exact absurd rfl (hns t)
        | _ => simp [customSanitize, htr, hvv, sanitizeWithOptions]
      rw [hcs]
      have hl' := hlog.mpr hl
      obtain ⟨r, hr⟩ := hother
      subst hr
      simp [hl', logSanitization, hanon]

theorem sanitizeInput_raises_witness :
    (sanitizeInput Libs.passThrough LoggerConfig.default "2025-01-01T00:00:00.000Z"
        DetectorState.initial (.string (js "location.hash.substring(1)"))
        { throwOnThreat := some true }).result = .error .threatDetected ∧
    ((sanitizeInput Libs.passThrough LoggerConfig.default "2025-01-01T00:00:00.000Z"
        DetectorState.initial (.string (js "hello")) { policy := some "strict" }).result =
        .error .threatDetected ∨
      ∃ s, (sanitizeInput Libs.passThrough LoggerConfig.default "2025-01-01T00:00:00.000Z"
        DetectorState.initial (.string (js "hello")) { policy := some "strict" }).result =
        .ok (.string s)) ∧
    (sanitizeInput Libs.passThrough LoggerConfig.default "2025-01-01T00:00:00.000Z"
        DetectorState.initial (.string (js "hello"))
        { policy := some "custom", logThreat := some false,
          transform := some (fun _ => .ok (.other (some (js "42")))) }).result =
      .ok (.other (some (js "42"))) :=
  ⟨(sanitizeInput_raises Libs.passThrough LoggerConfig.default "2025-01-01T00:00:00.000Z"
      DetectorState.initial (js "location.hash.substring(1)")
      { throwOnThreat := some true }).1.mpr ⟨rfl, by decide⟩,
    (sanitizeInput_raises Libs.passThrough LoggerConfig.default "2025-01-01T00:00:00.000Z"
      DetectorState.initial (js "hello") { policy := some "strict" }).2.1 (Or.inl rfl),
    ((sanitizeInput_raises Libs.passThrough LoggerConfig.default "2025-01-01T00:00:00.000Z"
      DetectorState.initial (js "hello")
      { policy := some "custom", logThreat := some false,
        transform := some (fun _ => .ok (.other (some (js "42")))) }).2.2
      (fun _ => .ok (.other (some (js "42")))) rfl (fun c hc => by simp at hc) (by decide)
      (fun h => by simp at h)).2.2 (.other (some (js "42"))) rfl (fun t => by simp) |>.1 rfl⟩

/-! ## The custom policy -/

theorem customSanitize_config (libs : Libs) (s : JSString) (options : Options) :
    (options.transform = none →
      customSanitize libs (.string s) options =
        .ok (.string (libs.sanitizeHtml s (customConfig options)))) ∧
    (∀ transform t, options.transform = some transform → transform s = .ok (.string t) →
      customSanitize libs (.string s) options =
        .ok (.string (libs.sanitizeHtml t (customConfig options)))) := by
  constructor
  · intro h
    simp [customSanitize, h, sanitizeWithOptions, customConfig]
  · intro transform t h ht
    simp [customSanitize, h, ht, sanitizeWithOptions, customConfig]

/-- C14, as stated, fails: with the options `{ allowedAttributes: { '*': ['onclick'] } }`
the allow-list that `customSanitize` hands to sanitize-html names `onclick`.  The
package is played by a stand-in that prints the attribute names of the configuration
it receives, and `customSanitize` returns `onclick `, as does `sanitizeInput` with the
policy `custom`. -/
theorem customSanitize_allows_onclick :
    customSanitize Libs.reportAttributes (.string (js "<b onclick=x>"))
        { allowedAttributes := some [("*", ["onclick"])] } = .ok (.string (js "onclick ")) ∧
    customSanitize Libs.reportAttributes (.string (js "<b onclick=x>")) { } =
      .ok (.string (js "href target class ")) ∧
    allowsEventHandler [("*", ["onclick"])] = true ∧
    (sanitizeInput Libs.reportAttributes LoggerConfig.default "2025-01-01T00:00:00.000Z"
      DetectorState.initial (.string (js "<b onclick=x>"))
      { policy := some "custom", allowedAttributes := some [("*", ["onclick"])] }).result =
      .ok (.string (js "onclick ")) :=
  ⟨rfl, rfl, by decide, rfl⟩

/-- C14, amended: `customSanitize` calls sanitize-html on the input (after the caller's
`transform`, if there is one) with a configuration whose `allowedAttributes` is the
caller's own when the caller supplies one, and otherwise the default
`{ a: ['href', 'target'], '*': ['class'] }`; so the allow-list that reaches the markup
sanitizer names an attribute that starts with `on` exactly when the caller's
`allowedAttributes` does.  `sanitizeInput` with the policy `custom`, no recognized
context, no `transform` and `throwOnThreat` not true returns the result of that same
call. -/
theorem customSanitize_allowedAttributes (options : Options) :
    ∃ config : Options,
      (∀ (libs : Libs) (s : JSString), options.transform = none →
        customSanitize libs (.string s) options =
          .ok (.string (libs.sanitizeHtml s config))) ∧
      (∀ (libs : Libs) (s t : JSString) (transform : JSString → Except String JSValue),
        options.transform = some transform → transform s = .ok (.string t) →
        customSanitize libs (.string s) options =
          .ok (.string (libs.sanitizeHtml t config))) ∧
      (∀ (libs : Libs) (loggerConfig : LoggerConfig) (now : String) (st : DetectorState)
          (s : JSString),
        options.policy = some "custom" → options.transform = none →
        (∀ c, options.context = some c → isValidContext c = false) →
        options.throwOnThreat ≠ some true →
        (sanitizeInput libs loggerConfig now st (.string s) options).result =
          .ok (.string (libs.sanitizeHtml s config))) ∧
      config.allowedAttributes =
        some (options.allowedAttributes.getD [("a", ["href", "target"]), ("*", ["class"])]) ∧
      allowsEventHandler (config.allowedAttributes.getD []) =
        allowsEventHandler (options.allowedAttributes.getD []) := by
  refine ⟨customConfig options, fun libs s h => (customSanitize_config libs s options).1 h,
    fun libs s t transform h ht => (customSanitize_config libs s options).2 transform t h ht,
    ?_, ?_⟩
  · intro libs loggerConfig now st s hpol htr hctx hthrow
    apply sanitizeInput_policy_string libs loggerConfig now st s _ options hthrow hctx
    rw [hpol]
    exact (customSanitize_config libs s options).1 htr
  cases h : options.allowedAttributes with
  | none =>
    have : (customConfig options).allowedAttributes =
        some [("a", ["href", "target"]), ("*", ["class"])] := by
      simp [customConfig, sanitizeConfig, Options.spread, h, sanitizeDefaultOptions]
    rw [this]
    exact ⟨rfl, by decide⟩
  | some attrs =>
    have : (customConfig options).allowedAttributes = some attrs := by
      simp [customConfig, sanitizeConfig, Options.spread, h]
    rw [this]
    exact ⟨rfl, rfl⟩

theorem customSanitize_allowedAttributes_witness :
    ∃ config : Options,
      customSanitize Libs.reportAttributes (.string (js "<b onclick=x>"))
          { allowedAttributes := some [("*", ["onclick"])] } =
        .ok (.string (Libs.reportAttributes.sanitizeHtml (js "<b onclick=x>") config)) ∧
      config.allowedAttributes = some [("*", ["onclick"])] := by
  obtain ⟨config, h1, _, _, h3, _⟩ :=
    customSanitize_allowedAttributes { allowedAttributes := some [("*", ["onclick"])] }
  exact ⟨config, h1 Libs.reportAttributes (js "<b onclick=x>") rfl, h3⟩

/-! ## Regular expressions: scanning -/

theorem canon_eq_iff (d p : Nat) : canon d = canon p ↔ asciiLower d = asciiLower p := by
  unfold canon asciiLower isLower isUpper
  by_cases h1 : 65 ≤ d <;> by_cases h2 : d ≤ 90 <;> by_cases h3 : 97 ≤ d <;>
    by_cases h4 : d ≤ 122 <;> by_cases h5 : 65 ≤ p <;> by_cases h6 : p ≤ 90 <;>
    by_cases h7 : 97 ≤ p <;> by_cases h8 : p ≤ 122 <;>
    simp [h1, h2, h3, h4, h5, h6, h7, h8] <;> omega

theorem run_lit (p : Nat) (d : Nat) (t : JSString) :
    Re.run (Re.lit true p) (d :: t) = if asciiLower d = asciiLower p then [t] else [] := by
  simp only [Re.lit, Re.run, ↓reduceIte, beq_iff_eq, canon_eq_iff]

theorem run_lit_nil (ci : Bool) (p : Nat) : Re.run (Re.lit ci p) [] = [] := rfl

theorem run_seqs_lit (pat : JSString) : ∀ s : JSString,
    Re.run (Re.seqs (pat.map (Re.lit true))) s =
      if startsWithCI pat s then [s.drop pat.length] else [] := by
  induction pat with
  | nil => intro s; simp [Re.seqs, Re.run, startsWithCI]
  | cons p ps ih =>
    intro s
    have hseq : Re.run (Re.seqs ((p :: ps).map (Re.lit true))) s =
        (Re.run (Re.lit true p) s).flatMap (Re.run (Re.seqs (ps.map (Re.lit true)))) := by
      cases ps with
      | nil => simp [Re.seqs, Re.run]
      | cons q qs => rfl
    rw [hseq]
    cases s with
    | nil => simp [run_lit_nil, startsWithCI]
    | cons d ds =>
      rw [run_lit]
      by_cases h : asciiLower d = asciiLower p
      · simp [h, ih, startsWithCI]
      · simp [h, startsWithCI]

theorem run_str (pat : String) (s : JSString) :
    Re.run (Re.str true pat) s =
      if startsWithCI (js pat) s then [s.drop (js pat).length] else [] :=
  run_seqs_lit (js pat) s

theorem startsWithCI_append (a b : JSString) : ∀ s : JSString,
    startsWithCI (a ++ b) s = (startsWithCI a s && startsWithCI b (s.drop a.length)) := by
  induction a with
  | nil => intro s; simp [startsWithCI]
  | cons p ps ih =>
    intro s
    cases s with
    | nil => simp [startsWithCI]
    | cons d ds => simp [startsWithCI, ih, Bool.and_assoc]

theorem matchLen_isSome (re : Re) (s : JSString) :
    (re.matchLen s).isSome = !(re.run s).isEmpty := by
  unfold Re.matchLen
  cases re.run s <;> rfl

theorem matchLen_chr (p : Nat → Bool) (c : Nat) (cs : JSString) :
    Re.matchLen (Re.chr p) (c :: cs) = if p c then some 1 else none := by
  unfold Re.matchLen
  by_cases h : p c <;> simp [Re.run, h]

theorem scanRemove_chr (p : Nat → Bool) (s : JSString) :
    Re.scanRemove (Re.chr p) s 0 = s.filter (fun c => !p c) := by
  induction s with
  | nil => rfl
  | cons c cs ih =>
    unfold Re.scanRemove
    rw [matchLen_chr]
    by_cases h : p c <;> simp [h, ih]

theorem scanRemove_drop (re : Re) : ∀ (s : JSString) (n : Nat),
    Re.scanRemove re s n = Re.scanRemove re (s.drop n) 0 := by
  intro s
  induction s with
  | nil => intro n; cases n <;> rfl
  | cons c cs ih =>
    intro n
    cases n with
    | zero => rfl
    | succ n => simp only [Re.scanRemove, List.drop_succ_cons]; exact ih n

theorem scanRemove_sublist (re : Re) : ∀ (s : JSString) (n : Nat),
    (Re.scanRemove re s n).Sublist s := by
  intro s
  induction s with
  | nil => intro n; cases n <;> exact List.Sublist.refl _
  | cons c cs ih =>
    intro n
    cases n with
    | succ n => exact (ih n).trans (List.sublist_cons_self c cs)
    | zero =>
      unfold Re.scanRemove
      split
      · exact (ih _).trans (List.sublist_cons_self c cs)
      · exact (ih 0).cons₂ c

theorem scanRemove_eq_self (re : Re) : ∀ s : JSString, MatchesNowhere re s →
    Re.scanRemove re s 0 = s := by
  intro s
  induction s with
  | nil => intro _; rfl
  | cons c cs ih =>
    intro h
    have h0 := h [] (c :: cs) rfl
    have ht : MatchesNowhere re cs := fun pre t ht => h (c :: pre) t (by rw [ht]; rfl)
    unfold Re.scanRemove
    rw [h0]
    simp only
    rw [ih ht]

end XssLib

namespace XssLib

/-! ## The url context -/

theorem run_colon (t : JSString) :
    Re.run (Re.lit true 58) t = if startsWithCI [58] t then [t.drop 1] else [] := by
  cases t with
  | nil => rfl
  | cons d ds =>
    rw [run_lit]
    by_cases h : asciiLower d = asciiLower 58 <;> simp [h, startsWithCI]

theorem run_opt_s (t : JSString) :
    Re.run (Re.opt (Re.lit true 115)) t =
      if startsWithCI [115] t then [t.drop 1, t] else [t] := by
  cases t with
  | nil => rfl
  | cons d ds =>
    show Re.run (Re.lit true 115) (d :: ds) ++ [d :: ds] = _
    rw [run_lit]
    by_cases h : asciiLower d = asciiLower 115 <;> simp [h, startsWithCI]

theorem safeUrlRe_isSome (s : JSString) :
    (Re.matchLen safeUrlRe s).isSome = hasAllowedScheme s := by
  rw [matchLen_isSome]
  have e1 : js "http:" = js "http" ++ [58] := by decide
  have e2 : js "https:" = js "http" ++ ([115] ++ [58]) := by decide
  have e3 : js "mailto:" = js "mailto" ++ [58] := by decide
  have e4 : js "tel:" = js "tel" ++ [58] := by decide
  have l1 : (js "http").length = 4 := by decide
  have l2 : (js "mailto").length = 6 := by decide
  have l3 : (js "tel").length = 3 := by decide
  unfold hasAllowedScheme safeUrlRe
  rw [e1, e2, e3, e4]
  show (!(((Re.run (Re.str true "http") s).flatMap (Re.run (Re.opt (Re.lit true 115))) ++
        (Re.run (Re.str true "mailto") s ++ Re.run (Re.str true "tel") s)).flatMap
          (Re.run (Re.lit true 58))).isEmpty) = _
  simp only [startsWithCI_append, run_str, l1, l2, l3, List.length_singleton, List.drop_drop]
  by_cases h1 : startsWithCI (js "http") s <;> by_cases h2 : startsWithCI (js "mailto") s <;>
    by_cases h3 : startsWithCI (js "tel") s <;>
    by_cases h4 : startsWithCI [115] (List.drop 4 s) <;>
    by_cases c3 : startsWithCI [58] (List.drop 3 s) <;>
    by_cases c4 : startsWithCI [58] (List.drop 4 s) <;>
    by_cases c5 : startsWithCI [58] (List.drop 5 s) <;>
    by_cases c6 : startsWithCI [58] (List.drop 6 s) <;>
    simp [h1, h2, h3, h4, c3, c4, c5, c6, run_colon, run_opt_s, List.drop_drop]

end XssLib

namespace XssLib

theorem removeAll_quoteAngle (s : JSString) :
    Re.removeAll quoteAngleRe s = s.filter (fun c => !isQuoteOrAngle c) :=
  scanRemove_chr _ s

theorem scheme_char_kept (p d : Nat) (hp : (isLower p || p == 58) = true)
    (h : asciiLower d = asciiLower p) : isQuoteOrAngle d = false := by
  unfold asciiLower isUpper at h
  unfold isLower at hp
  unfold isQuoteOrAngle
  simp only [Bool.or_eq_true, Bool.and_eq_true, decide_eq_true_eq, beq_iff_eq] at hp h
  simp only [Bool.or_eq_false_iff, beq_eq_false_iff_ne, ne_eq]
  split_ifs at h <;> omega

theorem startsWithCI_filter (pat : JSString) : ∀ s : JSString,
    (∀ p ∈ pat, (isLower p || p == 58) = true) → startsWithCI pat s = true →
      startsWithCI pat (s.filter (fun c => !isQuoteOrAngle c)) = true := by
  induction pat with
  | nil => intro s _ _; rfl
  | cons p ps ih =>
    intro s hp h
    cases s with
    | nil => simp [startsWithCI] at h
    | cons d ds =>
      simp only [startsWithCI, Bool.and_eq_true, beq_iff_eq] at h
      have hk := scheme_char_kept p d (hp p (List.mem_cons_self _ _)) h.1
      simp only [List.filter_cons, hk, Bool.not_false, ↓reduceIte, startsWithCI,
        Bool.and_eq_true, beq_iff_eq]
      exact ⟨h.1, ih ds (fun q hq => hp q (List.mem_cons_of_mem _ hq)) h.2⟩

theorem hasAllowedScheme_filter (s : JSString) (h : hasAllowedScheme s = true) :
    hasAllowedScheme (s.filter (fun c => !isQuoteOrAngle c)) = true := by
  unfold hasAllowedScheme at h ⊢
  simp only [Bool.or_eq_true] at h ⊢
  rcases h with ((h | h) | h) | h
  · exact Or.inl (Or.inl (Or.inl (startsWithCI_filter _ s (by decide) h)))
  · exact Or.inl (Or.inl (Or.inr (startsWithCI_filter _ s (by decide) h)))
  · exact Or.inl (Or.inr (startsWithCI_filter _ s (by decide) h))
  · exact Or.inr (startsWithCI_filter _ s (by decide) h)

theorem encodeFor_url (libs : Libs) (input : JSString) :
    encodeFor libs "url" input =
      if hasAllowedScheme input then .string (input.filter (fun c => !isQuoteOrAngle c))
      else .string (js "#") := by
  have h1 : ¬ ("url" = "html") := by decide
  have h2 : ¬ ("url" = "attribute") := by decide
  unfold encodeFor
  rw [if_neg h1, if_neg h2, if_pos rfl, safeUrlRe_isSome, removeAll_quoteAngle]

/-- C2: with the context `url`, `contextAwareSanitize` returns `#` unless the input
begins, in any letter case, with `http:`, `https:`, `mailto:` or `tel:`; in that case it
returns the input with every `'`, `"`, `<`, `>` removed, and that output begins with the
same scheme.  So every output is `#` or a string that has an allowed scheme and no quote
or angle character. -/
theorem url_context (libs : Libs) (input : JSString) :
    (hasAllowedScheme input = false →
      contextAwareSanitize libs (.string input) { context := some "url" } =
        .string (js "#")) ∧
    (hasAllowedScheme input = true →
      contextAwareSanitize libs (.string input) { context := some "url" } =
        .string (input.filter (fun c => !isQuoteOrAngle c)) ∧
      (∀ scheme ∈ [js "http:", js "https:", js "mailto:", js "tel:"],
        startsWithCI scheme input = true →
          startsWithCI scheme (input.filter (fun c => !isQuoteOrAngle c)) = true) ∧
      hasAllowedScheme (input.filter (fun c => !isQuoteOrAngle c)) = true ∧
      ∀ c ∈ input.filter (fun c => !isQuoteOrAngle c), isQuoteOrAngle c = false) := by
  have hc : contextAwareSanitize libs (.string input) { context := some "url" } =
      encodeFor libs "url" input := rfl
  rw [hc, encodeFor_url]
  refine ⟨fun h => by simp [h], fun h => ⟨by simp [h], ?_, hasAllowedScheme_filter input h, ?_⟩⟩
  · intro scheme hs hstart
    simp only [List.mem_cons, List.mem_singleton, List.not_mem_nil, or_false] at hs
    rcases hs with rfl | rfl | rfl | rfl <;>
      exact startsWithCI_filter _ input (by decide) hstart
  · intro c hc
    simpa using (List.mem_filter.mp hc).2

theorem url_context_witness :
    hasAllowedScheme (js "HTTPS://ex\"<>ample.com") = true ∧
    contextAwareSanitize Libs.passThrough (.string (js "HTTPS://ex\"<>ample.com"))
        { context := some "url" } =
      .string ((js "HTTPS://ex\"<>ample.com").filter (fun c => !isQuoteOrAngle c)) ∧
    hasAllowedScheme (js "javascript:alert(\"XSS\")") = false ∧
    contextAwareSanitize Libs.passThrough (.string (js "javascript:alert(\"XSS\")"))
        { context := some "url" } = .string (js "#") :=
  ⟨by decide,
    ((url_context Libs.passThrough (js "HTTPS://ex\"<>ample.com")).2 (by decide)).1,
    by decide,
    (url_context Libs.passThrough (js "javascript:alert(\"XSS\")")).1 (by decide)⟩

end XssLib

namespace XssLib

/-! ## Greedy iteration of a character class -/

theorem starLoop_chr (p : Nat → Bool) : ∀ (fuel : Nat) (s : JSString), s.length ≤ fuel →
    Re.starLoop (Re.run (Re.chr p)) true fuel s = greedyTails p s := by
  intro fuel
  induction fuel with
  | zero =>
    intro s h
    have : s = [] := List.length_eq_zero.mp (by omega)
    subst this
    rfl
  | succ f ih =>
    intro s h
    cases s with
    | nil => simp [Re.starLoop, Re.run, greedyTails]
    | cons c cs =>
      have hl : cs.length ≤ f := by simpa using h
      by_cases hp : p c
      · simp [Re.starLoop, Re.run, greedyTails, hp, ih cs hl]
      · simp [Re.starLoop, Re.run, greedyTails, hp]

theorem run_star_chr (p : Nat → Bool) (s : JSString) :
    Re.run (Re.star true (Re.chr p)) s = greedyTails p s :=
  starLoop_chr p s.length s le_rfl

theorem greedyTails_shape (p : Nat → Bool) : ∀ s : JSString,
    ∃ rest, greedyTails p s = s.dropWhile p :: rest ∧
      ∀ t ∈ rest, ∃ c cs, t = c :: cs ∧ p c = true := by
  intro s
  induction s with
  | nil => exact ⟨[], rfl, by simp⟩
  | cons c cs ih =>
    obtain ⟨rest, h1, h2⟩ := ih
    by_cases hp : p c
    · refine ⟨rest ++ [c :: cs], by simp [greedyTails, hp, h1], ?_⟩
      intro t ht
      rcases List.mem_append.mp ht with h | h
      · exact h2 t h
      · simp only [List.mem_singleton] at h
        exact ⟨c, cs, h, hp⟩
    · exact ⟨[], by simp [greedyTails, hp], by simp⟩

theorem dropWhile_head_not (p : Nat → Bool) : ∀ (s : JSString) (c : Nat) (r : JSString),
    s.dropWhile p = c :: r → p c = false := by
  intro s
  induction s with
  | nil => intro c r h; simp at h
  | cons d ds ih =>
    intro c r h
    by_cases hp : p d
    · simp only [List.dropWhile_cons, hp, ↓reduceIte] at h
      exact ih c r h
    · simp only [List.dropWhile_cons, hp, Bool.false_eq_true, ↓reduceIte, List.cons.injEq] at h
      rw [← h.1]
      simpa using hp

theorem dropWhile_length_le (p : Nat → Bool) (s : JSString) :
    (s.dropWhile p).length ≤ s.length :=
  (List.dropWhile_sublist p).length_le

theorem dropWhile_eq_drop (p : Nat → Bool) : ∀ s : JSString,
    s.dropWhile p = s.drop (s.length - (s.dropWhile p).length) := by
  intro s
  induction s with
  | nil => rfl
  | cons d ds ih =>
    by_cases hp : p d
    · have hle := dropWhile_length_le p ds
      simp only [List.dropWhile_cons, hp, ↓reduceIte, List.length_cons]
      rw [show ds.length + 1 - (List.dropWhile p ds).length =
        (ds.length - (List.dropWhile p ds).length) + 1 by omega, List.drop_succ_cons]
      exact ih
    · simp [List.dropWhile_cons, hp]

end XssLib

namespace XssLib

/-! ## The text context -/

theorem run_lit_exact (p d : Nat) (t : JSString) :
    Re.run (Re.lit false p) (d :: t) = if d = p then [t] else [] := by
  simp [Re.lit, Re.run]

theorem flatMap_gt_tails (rest : List JSString)
    (h : ∀ t ∈ rest, ∃ c cs, t = c :: cs ∧ (!(c == 62)) = true) :
    rest.flatMap (Re.run (Re.lit false 62)) = [] := by
  induction rest with
  | nil => rfl
  | cons t ts ih =>
    obtain ⟨c, cs, ht, hc⟩ := h t (List.mem_cons_self _ _)
    have hne : ¬ c = 62 := by simpa using hc
    rw [List.flatMap_cons, ih (fun x hx => h x (List.mem_cons_of_mem _ hx)), ht,
      run_lit_exact, if_neg hne]
    rfl

theorem run_tagRe (c : Nat) (cs : JSString) :
    Re.run tagRe (c :: cs) =
      if c = 60 then Re.run (Re.lit false 62) (cs.dropWhile (fun c => !(c == 62))) else [] := by
  have h : Re.run tagRe (c :: cs) = (Re.run (Re.lit false 60) (c :: cs)).flatMap
      (fun t => (Re.run (Re.star true (Re.chr (fun c => !(c == 62)))) t).flatMap
        (Re.run (Re.lit false 62))) := rfl
  rw [h, run_lit_exact]
  by_cases hc : c = 60
  · rw [if_pos hc, if_pos hc]
    obtain ⟨rest, h1, h2⟩ := greedyTails_shape (fun c => !(c == 62)) cs
    simp only [List.flatMap_cons, List.flatMap_nil, List.append_nil, run_star_chr, h1]
    rw [flatMap_gt_tails rest h2, List.append_nil]
  · rw [if_neg hc, if_neg hc]
    rfl

theorem matchLen_tagRe_none (c : Nat) (cs : JSString)
    (h : ∀ k, Re.matchLen tagRe (c :: cs) ≠ some (k + 1)) (hc : c = 60) : 62 ∉ cs := by
  intro hmem
  have hdw : cs.dropWhile (fun c => !(c == 62)) ≠ [] := by
    intro h0
    have := (List.dropWhile_eq_nil_iff.mp h0) 62 hmem
    simp at this
  cases hd : cs.dropWhile (fun c => !(c == 62)) with
  | nil => exact hdw hd
  | cons d r =>
    have hd62 : d = 62 := by
      have := dropWhile_head_not _ cs d r hd
      simpa using this
    have hlen := dropWhile_length_le (fun c => !(c == 62)) cs
    rw [hd] at hlen
    simp only [List.length_cons] at hlen
    apply h (cs.length - r.length)
    unfold Re.matchLen
    rw [run_tagRe, if_pos hc, hd, run_lit_exact, if_pos hd62]
    show some ((c :: cs).length - r.length) = some (cs.length - r.length + 1)
    rw [List.length_cons]
    congr 1
    omega

theorem matchLen_tagRe_some (t : JSString) (h : Re.matchLen tagRe t ≠ none) :
    ∃ b r, t = 60 :: b ++ 62 :: r := by
  cases t with
  | nil => exact absurd rfl h
  | cons c cs =>
    unfold Re.matchLen at h
    rw [run_tagRe] at h
    by_cases hc : c = 60
    · rw [if_pos hc] at h
      cases hd : cs.dropWhile (fun c => !(c == 62)) with
      | nil => rw [hd] at h; exact absurd rfl h
      | cons d r =>
        have hd62 : d = 62 := by
          have := dropWhile_head_not _ cs d r hd
          simpa using this
        subst hd62
        refine ⟨cs.takeWhile (fun c => !(c == 62)), r, ?_⟩
        rw [hc, ← hd, List.cons_append, List.takeWhile_append_dropWhile]
    · rw [if_neg hc] at h
      exact absurd rfl h

theorem noTag_cons (c : Nat) (out : JSString) (h : NoTag out) (hc : c = 60 → 62 ∉ out) :
    NoTag (c :: out) := by
  intro a b r heq
  cases a with
  | nil =>
    simp only [List.nil_append, List.cons_append, List.cons.injEq] at heq
    exact hc heq.1 (by rw [heq.2]; simp)
  | cons x a' =>
    simp only [List.cons_append, List.cons.injEq] at heq
    exact h a' b r (by simpa using heq.2)

theorem scanRemove_tagRe_noTag : ∀ (n : Nat) (s : JSString), s.length ≤ n →
    NoTag (Re.scanRemove tagRe s 0) := by
  intro n
  induction n with
  | zero =>
    intro s h
    have : s = [] := List.length_eq_zero.mp (by omega)
    subst this
    intro a b c heq
    simp [Re.scanRemove] at heq
  | succ n ih =>
    intro s h
    cases s with
    | nil =>
      intro a b c heq
      simp [Re.scanRemove] at heq
    | cons c cs =>
      have hl : cs.length ≤ n := by simpa using h
      unfold Re.scanRemove
      split
      · rename_i k hk
        rw [scanRemove_drop]
        exact ih _ (le_trans (by simp) hl)
      · rename_i hno
        apply noTag_cons _ _ (ih cs hl)
        intro hc hmem
        have hsub := (scanRemove_sublist tagRe cs 0).subset hmem
        exact matchLen_tagRe_none c cs (fun k hk => hno k hk) hc hsub

theorem matchesNowhere_of_noTag (out : JSString) (h : NoTag out) : MatchesNowhere tagRe out := by
  intro pre t heq
  by_contra hne
  obtain ⟨b, r, ht⟩ := matchLen_tagRe_some t hne
  exact h pre b r (by rw [heq, ht]; simp)

theorem encodeFor_text (libs : Libs) (input : JSString) :
    encodeFor libs "text" input = .string (Re.removeAll tagRe input) := by
  have h1 : ¬ ("text" = "html") := by decide
  have h2 : ¬ ("text" = "attribute") := by decide
  have h3 : ¬ ("text" = "url") := by decide
  have h4 : ¬ ("text" = "javascript") := by decide
  have h5 : ¬ ("text" = "css") := by decide
  have h6 : ¬ ("text" = "json") := by decide
  unfold encodeFor
  rw [if_neg h1, if_neg h2, if_neg h3, if_neg h4, if_neg h5, if_neg h6]

/-- C4: with the context `text`, the output of `contextAwareSanitize` contains no markup
tag: no `<` of the output is followed anywhere later by a `>`, so the pattern
`<[^>]*>` matches nowhere in the output. -/
theorem text_context (libs : Libs) (input : JSString) :
    ∃ out, contextAwareSanitize libs (.string input) { context := some "text" } =
        .string out ∧ NoTag out ∧ MatchesNowhere tagRe out := by
  have hc : contextAwareSanitize libs (.string input) { context := some "text" } =
      encodeFor libs "text" input := rfl
  rw [hc, encodeFor_text]
  have h := scanRemove_tagRe_noTag input.length input le_rfl
  exact ⟨_, rfl, h, matchesNowhere_of_noTag _ h⟩

end XssLib

namespace XssLib

/-! ## The attribute context -/

theorem isWord_fold (d : Nat) :
    (isWord d || (true && (isWord (canon d) || isWord (asciiLower d)))) = isWord d := by
  have h1 : isWord (canon d) = isWord d := by
    unfold canon isWord isLower isUpper isDigit
    by_cases a1 : 97 ≤ d <;> by_cases a2 : d ≤ 122 <;> simp [a1, a2]
    omega
  have h2 : isWord (asciiLower d) = isWord d := by
    unfold asciiLower isWord isLower isUpper isDigit
    by_cases a1 : 65 ≤ d <;> by_cases a2 : d ≤ 90 <;> simp [a1, a2]
  rw [h1, h2]
  cases isWord d <;> rfl

end XssLib

namespace XssLib

theorem startsWithCI_on (o n : Nat) (t : JSString) :
    startsWithCI (js "on") (o :: n :: t) =
      (decide (asciiLower o = 111) && decide (asciiLower n = 110)) := by
  have h : js "on" = [111, 110] := by decide
  have h1 : asciiLower 111 = 111 := by decide
  have h2 : asciiLower 110 = 110 := by decide
  rw [h]
  simp only [startsWithCI, h1, h2, Bool.and_true]
  by_cases a : asciiLower o = 111 <;> by_cases b : asciiLower n = 110 <;> simp [a, b]

theorem cls_isWord : Re.cls true isWord = Re.chr isWord := by
  unfold Re.cls
  congr 1
  funext d
  exact isWord_fold d

theorem run_chr_cons (p : Nat → Bool) (d : Nat) (t : JSString) :
    Re.run (Re.chr p) (d :: t) = if p d then [t] else [] := rfl

theorem run_eventHandlerRe (o n w : Nat) (r : JSString) :
    Re.run eventHandlerRe (o :: n :: w :: r) =
      if asciiLower o = 111 ∧ asciiLower n = 110 ∧ isWord w = true then greedyTails isWord r
      else [] := by
  have h : Re.run eventHandlerRe (o :: n :: w :: r) =
      (Re.run (Re.str true "on") (o :: n :: w :: r)).flatMap (fun t =>
        (Re.run (Re.cls true isWord) t).flatMap
          (Re.run (Re.star true (Re.cls true isWord)))) := rfl
  have hl : (js "on").length = 2 := by decide
  rw [h, run_str, startsWithCI_on, hl, cls_isWord]
  by_cases a : asciiLower o = 111 <;> by_cases b : asciiLower n = 110 <;>
    by_cases c : isWord w = true <;>
    simp [a, b, c, run_chr_cons, run_star_chr]

theorem run_eventHandlerRe_short (s : JSString) (h : s.length < 3) :
    Re.run eventHandlerRe s = [] := by
  have hr : Re.run eventHandlerRe s =
      (Re.run (Re.str true "on") s).flatMap (fun t =>
        (Re.run (Re.cls true isWord) t).flatMap
          (Re.run (Re.star true (Re.cls true isWord)))) := rfl
  have hl : (js "on").length = 2 := by decide
  have hj : js "on" = [111, 110] := by decide
  rw [hr, run_str, hl]
  rcases s with _ | ⟨o, _ | ⟨n, _ | ⟨w, r⟩⟩⟩
  · simp [hj, startsWithCI]
  · simp [hj, startsWithCI]
  · by_cases hs : startsWithCI (js "on") [o, n] = true
    · simp [hs, cls_isWord, Re.run]
    · simp [hs]
  · simp at h
    omega

/-- A match of `on\w+` starts with `on` and a word character. -/
theorem matchLen_eventHandlerRe_some (t : JSString) (h : Re.matchLen eventHandlerRe t ≠ none) :
    ∃ o n w r, t = o :: n :: w :: r ∧ asciiLower o = 111 ∧ asciiLower n = 110 ∧
      isWord w = true := by
  rcases t with _ | ⟨o, _ | ⟨n, _ | ⟨w, r⟩⟩⟩
  · exact absurd (by simp [Re.matchLen, run_eventHandlerRe_short]) h
  · exact absurd (by simp [Re.matchLen, run_eventHandlerRe_short]) h
  · exact absurd (by simp [Re.matchLen, run_eventHandlerRe_short]) h
  · by_cases hc : asciiLower o = 111 ∧ asciiLower n = 110 ∧ isWord w = true
    · exact ⟨o, n, w, r, rfl, hc⟩
    · exact absurd (by simp [Re.matchLen, run_eventHandlerRe, hc]) h

/-- Where `on\w+` matches, the match is not empty and what follows it does not start
with a word character. -/
theorem matchLen_eventHandlerRe_of (o n w : Nat) (r : JSString)
    (hc : asciiLower o = 111 ∧ asciiLower n = 110 ∧ isWord w = true) :
    ∃ k, Re.matchLen eventHandlerRe (o :: n :: w :: r) = some (k + 1) ∧
      ∀ x rest, (n :: w :: r).drop k = x :: rest → isWord x = false := by
  obtain ⟨rest, h1, _⟩ := greedyTails_shape isWord r
  have hle := dropWhile_length_le isWord r
  refine ⟨r.length - (r.dropWhile isWord).length + 2, ?_, ?_⟩
  · unfold Re.matchLen
    rw [run_eventHandlerRe, if_pos hc, h1]
    show some ((o :: n :: w :: r).length - (r.dropWhile isWord).length) = _
    simp only [List.length_cons]
    congr 1
    omega
  · intro x rest' hx
    have : (n :: w :: r).drop (r.length - (r.dropWhile isWord).length + 2) =
        r.dropWhile isWord := by
      rw [show r.length - (r.dropWhile isWord).length + 2 =
        (r.length - (r.dropWhile isWord).length) + 1 + 1 by omega]
      rw [List.drop_succ_cons, List.drop_succ_cons]
      exact (dropWhile_eq_drop isWord r).symm
    rw [this] at hx
    exact dropWhile_head_not isWord r x rest' hx

end XssLib

namespace XssLib

theorem scanRemove_cons_none (re : Re) (c : Nat) (cs : JSString)
    (h : re.matchLen (c :: cs) = none) :
    Re.scanRemove re (c :: cs) 0 = c :: Re.scanRemove re cs 0 := by
  rw [Re.scanRemove, h]

theorem scanRemove_cons_some (re : Re) (c : Nat) (cs : JSString) (k : Nat)
    (h : re.matchLen (c :: cs) = some (k + 1)) :
    Re.scanRemove re (c :: cs) 0 = Re.scanRemove re (cs.drop k) 0 := by
  rw [Re.scanRemove, h]
  exact scanRemove_drop re cs k

theorem isWord_of_lower_n (x : Nat) (h : asciiLower x = 110) : isWord x = true := by
  unfold asciiLower isUpper at h
  unfold isWord isLower isUpper isDigit
  simp only [Bool.and_eq_true, decide_eq_true_eq] at h
  simp only [Bool.or_eq_true, Bool.and_eq_true, decide_eq_true_eq, beq_iff_eq]
  split_ifs at h <;> omega

theorem head?_eq_some_cons (l : JSString) (x : Nat) (h : l.head? = some x) :
    ∃ rest, l = x :: rest := by
  cases l with
  | nil => simp at h
  | cons y ys =>
    simp only [List.head?_cons, Option.some.injEq] at h
    exact ⟨ys, by rw [h]⟩

theorem scanRemove_eventHandler_inv : ∀ (n : Nat) (s : JSString), s.length ≤ n →
    NoEventHandlerToken (Re.scanRemove eventHandlerRe s 0) ∧
    ((Re.scanRemove eventHandlerRe s 0).head? = s.head? ∨
      ∀ x rest, Re.scanRemove eventHandlerRe s 0 = x :: rest → isWord x = false) := by
  intro n
  induction n with
  | zero =>
    intro s h
    have : s = [] := List.length_eq_zero.mp (by omega)
    subst this
    refine ⟨?_, Or.inl rfl⟩
    intro a b o n w heq
    simp [Re.scanRemove] at heq
  | succ n ih =>
    intro s h
    cases s with
    | nil =>
      refine ⟨?_, Or.inl rfl⟩
      intro a b o n w heq
      simp [Re.scanRemove] at heq
    | cons c cs =>
      have hl : cs.length ≤ n := by simpa using h
      cases hm : Re.matchLen eventHandlerRe (c :: cs) with
      | none =>
        rw [scanRemove_cons_none _ _ _ hm]
        obtain ⟨hQ, hH⟩ := ih cs hl
        refine ⟨?_, Or.inl rfl⟩
        intro a b o n' w heq hprops
        cases a with
        | cons x a' =>
          simp only [List.cons_append, List.cons.injEq] at heq
          exact hQ a' b o n' w heq.2 hprops
        | nil =>
          simp only [List.nil_append, List.cons.injEq] at heq
          obtain ⟨hco, hout⟩ := heq
          rcases hH with hhead | hnon
          · rw [hout] at hhead
            obtain ⟨cs', hcs⟩ := head?_eq_some_cons cs n' hhead.symm
            have hm' : Re.matchLen eventHandlerRe (n' :: cs') = none := by
              by_contra hne
              obtain ⟨o2, n2, w2, r2, he, ho2, _, _⟩ := matchLen_eventHandlerRe_some _ hne
              simp only [List.cons.injEq] at he
              rw [← he.1] at ho2
              omega
            have hl' : cs'.length ≤ n := by
              rw [hcs] at hl
              simp only [List.length_cons] at hl
              omega
            rw [hcs, scanRemove_cons_none _ _ _ hm'] at hout
            simp only [List.cons.injEq, true_and] at hout
            obtain ⟨_, hH'⟩ := ih cs' hl'
            rcases hH' with hhead' | hnon'
            · rw [hout] at hhead'
              obtain ⟨cs'', hcs'⟩ := head?_eq_some_cons cs' w hhead'.symm
              obtain ⟨k, hk, _⟩ := matchLen_eventHandlerRe_of o n' w cs'' hprops
              rw [hcs, hcs', hco, hk] at hm
              exact absurd hm (by simp)
            · have := hnon' w b hout
              rw [hprops.2.2] at this
              exact absurd this (by simp)
          · have := hnon n' (w :: b) hout
            rw [isWord_of_lower_n n' hprops.2.1] at this
            exact absurd this (by simp)
      | some k' =>
        obtain ⟨o, n', w, r, he, hprops⟩ :=
          matchLen_eventHandlerRe_some (c :: cs) (by rw [hm]; simp)
        obtain ⟨k, hk, hnext⟩ := matchLen_eventHandlerRe_of o n' w r hprops
        simp only [List.cons.injEq] at he
        obtain ⟨hco, hcs⟩ := he
        rw [hco, hcs] at hm
        rw [hm] at hk
        simp only [Option.some.injEq] at hk
        rw [hco, hcs, scanRemove_cons_some _ _ _ k (by rw [hm, hk])]
        have hl2 : ((n' :: w :: r).drop k).length ≤ n := by
          rw [hcs] at hl
          exact le_trans (by simp) hl
        obtain ⟨hQ, hH⟩ := ih _ hl2
        refine ⟨hQ, Or.inr ?_⟩
        intro x rest hx
        rcases hH with hhead | hnon
        · rw [hx] at hhead
          obtain ⟨rest', hr'⟩ := head?_eq_some_cons _ x hhead.symm
          exact hnext x rest' hr'
        · exact hnon x rest hx

theorem matchesNowhere_of_noEventHandlerToken (out : JSString)
    (h : NoEventHandlerToken out) : MatchesNowhere eventHandlerRe out := by
  intro pre t heq
  by_contra hne
  obtain ⟨o, n, w, r, ht, hprops⟩ := matchLen_eventHandlerRe_some t hne
  exact h pre r o n w (by rw [heq, ht]) hprops

theorem encodeFor_attribute (libs : Libs) (input : JSString) :
    encodeFor libs "attribute" input =
      .string (Re.removeAll eventHandlerRe (input.filter (fun c => !isQuoteOrAngle c))) := by
  have h1 : ¬ ("attribute" = "html") := by decide
  unfold encodeFor
  rw [if_neg h1, if_pos rfl, removeAll_quoteAngle]

/-- C1: with the context `attribute`, the output of `contextAwareSanitize` contains none
of the characters `'`, `"`, `<`, `>` and no substring made of `on`, in any letter case,
followed by a word character. -/
theorem attribute_context (libs : Libs) (input : JSString) :
    ∃ out, contextAwareSanitize libs (.string input) { context := some "attribute" } =
        .string out ∧
      (∀ c ∈ out, isQuoteOrAngle c = false) ∧ NoEventHandlerToken out := by
  have hc : contextAwareSanitize libs (.string input) { context := some "attribute" } =
      encodeFor libs "attribute" input := rfl
  rw [hc, encodeFor_attribute]
  refine ⟨_, rfl, ?_, (scanRemove_eventHandler_inv _ _ le_rfl).1⟩
  intro c hmem
  have h1 := (scanRemove_sublist eventHandlerRe _ 0).subset hmem
  simpa using (List.mem_filter.mp h1).2

end XssLib

namespace XssLib

/-! ## The css context -/

/-- C3: evaluation at the failing input.  With the context `css`, the input `uurl(rl(`
gives the output `url(`: removing the one match `url(` joins the characters around it
into a new `url(`, and each `replace` scans its input once.  In the same way
`exprecalc(ssion(` gives `expression(` and `vavar(r(` gives `var(`. -/
theorem css_context_leaves_tokens :
    contextAwareSanitize Libs.passThrough (.string (js "uurl(rl(")) { context := some "css" } =
      .string (js "url(") ∧
    contextAwareSanitize Libs.passThrough (.string (js "exprecalc(ssion("))
      { context := some "css" } = .string (js "expression(") ∧
    contextAwareSanitize Libs.passThrough (.string (js "vavar(r(")) { context := some "css" } =
      .string (js "var(") := by
  decide

/-! ## JSON.stringify and JSON.parse -/

theorem hexVal_hexDigit (v : Nat) (h : v < 16) : hexVal (hexDigit v) = some v := by
  unfold hexVal hexDigit isDigit
  by_cases h10 : v < 10
  · simp only [h10, ↓reduceIte]
    have : (decide (48 ≤ 48 + v) && decide (48 + v ≤ 57)) = true := by simp; omega
    simp only [this, ↓reduceIte]
    congr 1
    omega
  · simp only [h10, ↓reduceIte]
    have : (decide (48 ≤ 87 + v) && decide (87 + v ≤ 57)) = false := by simp; omega
    simp only [this, Bool.false_eq_true, ↓reduceIte]
    have h2 : 97 ≤ 87 + v ∧ 87 + v ≤ 102 := by omega
    simp only [h2, and_self, ↓reduceIte]
    congr 1
    omega

theorem parseStr_unicodeEscape (c : Nat) (tail : JSString) (h : c < 65536) :
    parseStr .normal (unicodeEscape c ++ tail) =
      (parseStr .normal tail).map (fun r => (c :: r.1, r.2)) := by
  have h1 := hexVal_hexDigit (c / 4096 % 16) (Nat.mod_lt _ (by norm_num))
  have h2 := hexVal_hexDigit (c / 256 % 16) (Nat.mod_lt _ (by norm_num))
  have h3 := hexVal_hexDigit (c / 16 % 16) (Nat.mod_lt _ (by norm_num))
  have h4 := hexVal_hexDigit (c % 16) (Nat.mod_lt _ (by norm_num))
  have hval : (((0 * 16 + c / 4096 % 16) * 16 + c / 256 % 16) * 16 + c / 16 % 16) * 16 +
      c % 16 = c := by omega
  simp only [unicodeEscape, List.cons_append, List.nil_append, parseStr, h1, h2, h3, h4,
    hval]
  simp

end XssLib

namespace XssLib

theorem parseStr_raw (c : Nat) (tail : JSString) (h1 : c ≠ 34) (h2 : c ≠ 92) (h3 : ¬ c < 32) :
    parseStr .normal (c :: tail) = (parseStr .normal tail).map (fun r => (c :: r.1, r.2)) := by
  simp only [parseStr, h1, h2, h3, ↓reduceIte]

theorem parseStr_escape (e v : Nat) (tail : JSString) (h : e ≠ 117) (hu : unescape e = some v) :
    parseStr .normal (92 :: e :: tail) =
      (parseStr .normal tail).map (fun r => (v :: r.1, r.2)) := by
  have h92 : (92 : Nat) ≠ 34 := by decide
  simp only [parseStr, h92, ↓reduceIte, h, hu]

theorem parseStr_quoteUnit (c : Nat) (tail : JSString) :
    parseStr .normal (quoteUnit c ++ tail) =
      (parseStr .normal tail).map (fun r => (c :: r.1, r.2)) := by
  unfold quoteUnit
  split_ifs with h8 h9 h10 h12 h13 h34 h92 hesc
  · subst h8; exact parseStr_escape 98 8 tail (by decide) (by decide)
  · subst h9; exact parseStr_escape 116 9 tail (by decide) (by decide)
  · subst h10; exact parseStr_escape 110 10 tail (by decide) (by decide)
  · subst h12; exact parseStr_escape 102 12 tail (by decide) (by decide)
  · subst h13; exact parseStr_escape 114 13 tail (by decide) (by decide)
  · subst h34; exact parseStr_escape 34 34 tail (by decide) (by decide)
  · subst h92; exact parseStr_escape 92 92 tail (by decide) (by decide)
  · apply parseStr_unicodeEscape
    simp only [isHighSurrogate, isLowSurrogate, Bool.or_eq_true, decide_eq_true_eq,
      Bool.and_eq_true] at hesc
    omega
  · simp only [isHighSurrogate, isLowSurrogate, Bool.or_eq_true, decide_eq_true_eq,
      Bool.and_eq_true, not_or, not_lt, not_and, not_le] at hesc
    exact parseStr_raw c tail h34 h92 (by omega)

theorem parseStr_quoteChars : ∀ (n : Nat) (s rest : JSString), s.length ≤ n →
    parseStr .normal (quoteChars s ++ 34 :: rest) = some (s, rest) := by
  intro n
  induction n with
  | zero =>
    intro s rest h
    have : s = [] := List.length_eq_zero.mp (by omega)
    subst this
    simp [quoteChars, parseStr]
  | succ n ih =>
    intro s rest h
    rcases s with _ | ⟨c, _ | ⟨d, t⟩⟩
    · simp [quoteChars, parseStr]
    · have h0 := ih [] rest (by simp)
      simp only [quoteChars, List.nil_append] at h0
      simp only [quoteChars]
      rw [parseStr_quoteUnit, h0]
      rfl
    · simp only [quoteChars]
      split_ifs with hpair
      · simp only [isHighSurrogate, isLowSurrogate, Bool.and_eq_true, decide_eq_true_eq]
          at hpair
        have ht := ih t rest (by simp only [List.length_cons] at h; omega)
        rw [List.cons_append, List.cons_append,
          parseStr_raw c _ (by omega) (by omega) (by omega),
          parseStr_raw d _ (by omega) (by omega) (by omega), ht]
        rfl
      · have ht := ih (d :: t) rest (by simp only [List.length_cons] at h ⊢; omega)
        rw [List.append_assoc, parseStr_quoteUnit, ht]
        rfl

theorem quoteUnit_no_control (c : Nat) : ∀ x ∈ quoteUnit c, 32 ≤ x := by
  unfold quoteUnit
  split_ifs with h8 h9 h10 h12 h13 h34 h92 hesc
  all_goals try (intro x hx; simp at hx; omega)
  · intro x hx
    simp only [unicodeEscape, hexDigit, List.mem_cons, List.mem_singleton, List.not_mem_nil,
      or_false] at hx
    rcases hx with h | h | h | h | h | h <;> (subst h; try split_ifs) <;> omega
  · intro x hx
    simp only [List.mem_singleton] at hx
    simp only [Bool.or_eq_true, decide_eq_true_eq, not_or, not_lt] at hesc
    omega

theorem quoteChars_no_control : ∀ (n : Nat) (s : JSString), s.length ≤ n →
    ∀ x ∈ quoteChars s, 32 ≤ x := by
  intro n
  induction n with
  | zero =>
    intro s h
    have : s = [] := List.length_eq_zero.mp (by omega)
    subst this
    simp [quoteChars]
  | succ n ih =>
    intro s h
    rcases s with _ | ⟨c, _ | ⟨d, t⟩⟩
    · simp [quoteChars]
    · simpa [quoteChars] using quoteUnit_no_control c
    · simp only [quoteChars]
      split_ifs with hpair
      · simp only [isHighSurrogate, isLowSurrogate, Bool.and_eq_true, decide_eq_true_eq]
          at hpair
        intro x hx
        simp only [List.mem_cons] at hx
        rcases hx with h1 | h1 | h1
        · omega
        · omega
        · exact ih t (by simp only [List.length_cons] at h; omega) x h1
      · intro x hx
        rcases List.mem_append.mp hx with h1 | h1
        · exact quoteUnit_no_control c x h1
        · exact ih (d :: t) (by simp only [List.length_cons] at h ⊢; omega) x h1

theorem jsonParse_jsonStringify (s : JSString) : jsonParse (jsonStringify s) = some (.string s) := by
  unfold jsonParse jsonStringify
  have hsp : skipSpace (34 :: quoteChars s ++ [34]) = 34 :: quoteChars s ++ [34] := by
    simp [skipSpace, isJsonSpace]
  rw [hsp]
  have hp := parseStr_quoteChars s.length s [] le_rfl
  simp only [List.cons_append, parseJson, ↓reduceIte, hp, Option.map_some']
  rfl

end XssLib

namespace XssLib

theorem encodeFor_javascript (libs : Libs) (input : JSString) :
    encodeFor libs "javascript" input = .string (jsonStringify input) := by
  have h1 : ¬ ("javascript" = "html") := by decide
  have h2 : ¬ ("javascript" = "attribute") := by decide
  have h3 : ¬ ("javascript" = "url") := by decide
  unfold encodeFor
  rw [if_neg h1, if_neg h2, if_neg h3, if_pos rfl]

theorem encodeFor_json (libs : Libs) (input : JSString) :
    encodeFor libs "json" input =
      match jsonParse input with
      | some _ => .string input
      | none => .string (jsonStringify input) := by
  have h1 : ¬ ("json" = "html") := by decide
  have h2 : ¬ ("json" = "attribute") := by decide
  have h3 : ¬ ("json" = "url") := by decide
  have h4 : ¬ ("json" = "javascript") := by decide
  have h5 : ¬ ("json" = "css") := by decide
  unfold encodeFor
  rw [if_neg h1, if_neg h2, if_neg h3, if_neg h4, if_neg h5, if_pos rfl]

/-- C5: with the context `javascript`, `contextAwareSanitize` returns a quoted and
escaped string literal: the output is `"` + body + `"`; the body holds no control
character (code below 0x20); reading the body as the characters of a JSON string, where
a quote or a backslash can only occur inside an escape, goes through the whole body up
to the final quote and gives the input; and `JSON.parse` of the output gives back the
input. -/
theorem javascript_context (libs : Libs) (input : JSString) :
    ∃ body, contextAwareSanitize libs (.string input) { context := some "javascript" } =
        .string (34 :: body ++ [34]) ∧
      (∀ x ∈ body, 32 ≤ x) ∧
      parseStr .normal (body ++ [34]) = some (input, []) ∧
      jsonParse (34 :: body ++ [34]) = some (.string input) := by
  have hc : contextAwareSanitize libs (.string input) { context := some "javascript" } =
      encodeFor libs "javascript" input := rfl
  rw [hc, encodeFor_javascript]
  exact ⟨quoteChars input, rfl, quoteChars_no_control _ input le_rfl,
    parseStr_quoteChars _ input [] le_rfl, jsonParse_jsonStringify input⟩

/-! ## Idempotence -/

/-- C6, as stated, fails.  With the context `javascript`, `'a'` becomes `"a"`, and
sanitizing that again gives `"\"a\""`.  With the context `css`, `'uurl(rl('` becomes
`'url('`, and sanitizing that again gives the empty string.  With the custom policy and
a `transform` callback that appends `'!'`, `'a'` becomes `'a!'` and then `'a!!'`.  With
`throwOnThreat` set and the context `text`, `'inner<b>HTML'` becomes `'innerHTML'`, and
sanitizing that again raises the threat error. -/
theorem javascript_context_not_idempotent :
    contextAwareSanitize Libs.passThrough (.string (js "a")) { context := some "javascript" } =
      .string (js "\"a\"") ∧
    contextAwareSanitize Libs.passThrough (.string (js "\"a\""))
      { context := some "javascript" } = .string (js "\"\\\"a\\\"\"") ∧
    js "\"\\\"a\\\"\"" ≠ js "\"a\"" ∧
    (sanitizeInput Libs.passThrough LoggerConfig.default "2025-01-01T00:00:00.000Z"
      DetectorState.initial (.string (js "a")) { context := some "javascript" }).result =
      .ok (.string (js "\"a\"")) ∧
    (sanitizeInput Libs.passThrough LoggerConfig.default "2025-01-01T00:00:00.000Z"
      (sanitizeInput Libs.passThrough LoggerConfig.default "2025-01-01T00:00:00.000Z"
        DetectorState.initial (.string (js "a")) { context := some "javascript" }).detector
      (.string (js "\"a\"")) { context := some "javascript" }).result =
      .ok (.string (js "\"\\\"a\\\"\"")) ∧
    (sanitizeInput Libs.passThrough LoggerConfig.default "2025-01-01T00:00:00.000Z"
      DetectorState.initial (.string (js "uurl(rl(")) { context := some "css" }).result =
      .ok (.string (js "url(")) ∧
    (sanitizeInput Libs.passThrough LoggerConfig.default "2025-01-01T00:00:00.000Z"
      (sanitizeInput Libs.passThrough LoggerConfig.default "2025-01-01T00:00:00.000Z"
        DetectorState.initial (.string (js "uurl(rl(")) { context := some "css" }).detector
      (.string (js "url(")) { context := some "css" }).result =
      .ok (.string (js "")) ∧
    (sanitizeInput Libs.passThrough LoggerConfig.default "2025-01-01T00:00:00.000Z"
      DetectorState.initial (.string (js "a"))
      { policy := some "custom",
        transform := some (fun s => .ok (.string (s ++ js "!"))) }).result =
      .ok (.string (js "a!")) ∧
    (sanitizeInput Libs.passThrough LoggerConfig.default "2025-01-01T00:00:00.000Z"
      (sanitizeInput Libs.passThrough LoggerConfig.default "2025-01-01T00:00:00.000Z"
        DetectorState.initial (.string (js "a"))
        { policy := some "custom",
          transform := some (fun s => .ok (.string (s ++ js "!"))) }).detector
      (.string (js "a!"))
      { policy := some "custom",
        transform := some (fun s => .ok (.string (s ++ js "!"))) }).result =
      .ok (.string (js "a!!")) ∧
    (sanitizeInput Libs.passThrough LoggerConfig.default "2025-01-01T00:00:00.000Z"
      DetectorState.initial (.string (js "inner<b>HTML"))
      { context := some "text", throwOnThreat := some true }).result =
      .ok (.string (js "innerHTML")) ∧
    (sanitizeInput Libs.passThrough LoggerConfig.default "2025-01-01T00:00:00.000Z"
      (sanitizeInput Libs.passThrough LoggerConfig.default "2025-01-01T00:00:00.000Z"
        DetectorState.initial (.string (js "inner<b>HTML"))
        { context := some "text", throwOnThreat := some true }).detector
      (.string (js "innerHTML"))
      { context := some "text", throwOnThreat := some true }).result =
      .error .threatDetected :=
  ⟨by decide, by decide, by decide, rfl, rfl, rfl, rfl, rfl, rfl, rfl, rfl⟩

theorem filter_quoteAngle_idem (s : JSString) :
    (s.filter (fun c => !isQuoteOrAngle c)).filter (fun c => !isQuoteOrAngle c) =
      s.filter (fun c => !isQuoteOrAngle c) := by
  rw [List.filter_filter]
  congr 1
  funext c
  cases isQuoteOrAngle c <;> rfl

theorem attribute_idempotent (libs : Libs) (input : JSString) :
    encodeFor libs "attribute"
        (Re.removeAll eventHandlerRe (input.filter (fun c => !isQuoteOrAngle c))) =
      .string (Re.removeAll eventHandlerRe (input.filter (fun c => !isQuoteOrAngle c))) := by
  rw [encodeFor_attribute]
  have hkeep : (Re.removeAll eventHandlerRe (input.filter (fun c => !isQuoteOrAngle c))).filter
      (fun c => !isQuoteOrAngle c) =
      Re.removeAll eventHandlerRe (input.filter (fun c => !isQuoteOrAngle c)) := by
    rw [List.filter_eq_self]
    intro c hmem
    have h1 := (scanRemove_sublist eventHandlerRe _ 0).subset hmem
    exact (List.mem_filter.mp h1).2
  rw [hkeep]
  congr 1
  exact scanRemove_eq_self _ _ (matchesNowhere_of_noEventHandlerToken _
    (scanRemove_eventHandler_inv _ _ le_rfl).1)

theorem url_idempotent (libs : Libs) (input out : JSString)
    (h : encodeFor libs "url" input = .string out) : encodeFor libs "url" out = .string out := by
  rw [encodeFor_url] at h
  rw [encodeFor_url]
  by_cases hs : hasAllowedScheme input = true
  · rw [if_pos hs] at h
    injection h with h
    rw [← h, if_pos (hasAllowedScheme_filter input hs), filter_quoteAngle_idem]
  · rw [if_neg hs] at h
    injection h with h
    rw [← h]
    rfl

theorem json_idempotent (libs : Libs) (input out : JSString)
    (h : encodeFor libs "json" input = .string out) :
    encodeFor libs "json" out = .string out := by
  rw [encodeFor_json] at h
  rw [encodeFor_json]
  cases hp : jsonParse input with
  | some v =>
    rw [hp] at h
    injection h with h
    rw [← h, hp]
  | none =>
    rw [hp] at h
    injection h with h
    rw [← h, jsonParse_jsonStringify]

theorem text_idempotent (libs : Libs) (input : JSString) :
    encodeFor libs "text" (Re.removeAll tagRe input) = .string (Re.removeAll tagRe input) := by
  rw [encodeFor_text]
  congr 1
  exact scanRemove_eq_self _ _ (matchesNowhere_of_noTag _
    (scanRemove_tagRe_noTag _ _ le_rfl))

theorem contextAwareSanitize_idempotent (libs : Libs) (context : String) (input out : JSString)
    (hctx : context ∈ ["attribute", "url", "json", "text"])
    (h : contextAwareSanitize libs (.string input) { context := some context } = .string out) :
    contextAwareSanitize libs (.string out) { context := some context } = .string out := by
  simp only [List.mem_cons, List.mem_singleton, List.not_mem_nil, or_false] at hctx
  rcases hctx with rfl | rfl | rfl | rfl
  · have hc : contextAwareSanitize libs (.string input) { context := some "attribute" } =
        encodeFor libs "attribute" input := rfl
    rw [hc, encodeFor_attribute] at h
    injection h with h
    rw [← h]
    exact attribute_idempotent libs input
  · exact url_idempotent libs input out h
  · exact json_idempotent libs input out h
  · have hc : contextAwareSanitize libs (.string input) { context := some "text" } =
        encodeFor libs "text" input := rfl
    rw [hc, encodeFor_text] at h
    injection h with h
    rw [← h]
    exact text_idempotent libs input

theorem encodeFor_html (libs : Libs) (input : JSString) :
    encodeFor libs "html" input = .string (libs.sanitizeHtml input htmlContextConfig) := rfl

theorem encodeFor_unrecognized (libs : Libs) (c : String) (input : JSString)
    (h : isValidContext c = false) :
    encodeFor libs c input = .string (Re.removeAll tagRe input) := by
  unfold isValidContext at h
  simp only [List.mem_cons, List.mem_singleton, List.not_mem_nil, or_false,
    decide_eq_false_iff_not, not_or] at h
  obtain ⟨h1, h2, h3, h4, h5, h6, _⟩ := h
  unfold encodeFor
  rw [if_neg h1, if_neg h2, if_neg h3, if_neg h4, if_neg h5, if_neg h6]

theorem idempotentAt_iff_of_delegatesTo (libs : Libs) (options : Options) (x : JSString)
    (pkg : JSString → JSString) (h : DelegatesTo libs options pkg) :
    IdempotentAt libs options x ↔ pkg (pkg x) = pkg x := by
  constructor
  · intro hidem
    obtain ⟨out, h1, h2⟩ := hidem LoggerConfig.default LoggerConfig.default "" ""
      DetectorState.initial DetectorState.initial
    rw [h] at h1 h2
    injection h1 with h1
    injection h1 with h1
    injection h2 with h2
    injection h2 with h2
    rw [← h1] at h2
    exact h2
  · intro hpkg config config2 now now2 st st2
    exact ⟨pkg x, h config now st x, by rw [h config2 now2 st2 (pkg x), hpkg]⟩

/-- C6, amended: for every input string `x` and every options value whose
`throwOnThreat` is not true, sanitizing with `sanitizeInput` behaves as follows.  With
the destination context `attribute`, `url`, `json` or `text`, sanitizing the sanitized
output again gives the same string.  With the destination context `html`, the result
is exactly what the package sanitize-html returns under the configuration of the html
context, so sanitizing is idempotent at `x` exactly when that package call is.  Without
a recognized context: the basic policy (and every unknown policy name) returns exactly
what DOMPurify returns, the strict policy and the custom policy without a `transform`
callback return exactly what sanitize-html returns under their configuration, and the
contextAware policy without a context (or with the empty one) returns what the html
context returns, so each of them is idempotent at `x` exactly when its package call
is; the contextAware policy with an unrecognized non-empty context name removes the
tags as the context `text` does and is idempotent.  Nothing is claimed for the contexts
`javascript` and `css`, for the custom policy with a `transform` callback, and for
`throwOnThreat` set to true. -/
theorem sanitizeInput_idempotent (libs : Libs) (options : Options) (x : JSString)
    (hthrow : options.throwOnThreat ≠ some true) :
    (∀ c, options.context = some c → c ∈ ["attribute", "url", "json", "text"] →
      IdempotentAt libs options x) ∧
    (options.context = some "html" →
      DelegatesTo libs options (fun y => libs.sanitizeHtml y htmlContextConfig) ∧
      (IdempotentAt libs options x ↔
        libs.sanitizeHtml (libs.sanitizeHtml x htmlContextConfig) htmlContextConfig =
          libs.sanitizeHtml x htmlContextConfig)) ∧
    ((∀ c, options.context = some c → isValidContext c = false) →
      (getSanitizer (some (options.policy.getD "basic")) = .basicSanitize →
        DelegatesTo libs options libs.domPurify ∧
        (IdempotentAt libs options x ↔
          libs.domPurify (libs.domPurify x) = libs.domPurify x)) ∧
      (getSanitizer (some (options.policy.getD "basic")) = .strictSanitize →
        DelegatesTo libs options (fun y => libs.sanitizeHtml y (strictConfig options)) ∧
        (IdempotentAt libs options x ↔
          libs.sanitizeHtml (libs.sanitizeHtml x (strictConfig options))
            (strictConfig options) = libs.sanitizeHtml x (strictConfig options))) ∧
      (getSanitizer (some (options.policy.getD "basic")) = .customSanitize →
        options.transform = none →
        DelegatesTo libs options (fun y => libs.sanitizeHtml y (customConfig options)) ∧
        (IdempotentAt libs options x ↔
          libs.sanitizeHtml (libs.sanitizeHtml x (customConfig options))
            (customConfig options) = libs.sanitizeHtml x (customConfig options))) ∧
      (getSanitizer (some (options.policy.getD "basic")) = .contextAwareSanitize →
        ((options.context = none ∨ options.context = some "") →
          DelegatesTo libs options (fun y => libs.sanitizeHtml y htmlContextConfig) ∧
          (IdempotentAt libs options x ↔
            libs.sanitizeHtml (libs.sanitizeHtml x htmlContextConfig) htmlContextConfig =
              libs.sanitizeHtml x htmlContextConfig)) ∧
        (∀ c, options.context = some c → c ≠ "" →
          (∀ (config : LoggerConfig) (now : String) (st : DetectorState) (y : JSString),
            (sanitizeInput libs config now st (.string y) options).result =
              .ok (.string (Re.removeAll tagRe y))) ∧
          IdempotentAt libs options x))) := by
  refine ⟨?_, ?_, ?_⟩
  · intro c hc hmem config config2 now now2 st st2
    have hv : isValidContext c = true := by
      simp only [List.mem_cons, List.mem_singleton, List.not_mem_nil, or_false] at hmem
      rcases hmem with rfl | rfl | rfl | rfl <;> decide
    obtain ⟨out, hout⟩ := contextAwareSanitize_string libs x { context := some c }
    refine ⟨out, ?_, ?_⟩
    · rw [sanitizeInput_context libs config now st x options c hthrow hc hv, hout]
    · rw [sanitizeInput_context libs config2 now2 st2 out options c hthrow hc hv,
        contextAwareSanitize_idempotent libs c x out hmem hout]
  · intro hc
    have hd : DelegatesTo libs options (fun y => libs.sanitizeHtml y htmlContextConfig) := by
      intro config now st y
      rw [sanitizeInput_context libs config now st y options "html" hthrow hc (by decide)]
      rfl
    exact ⟨hd, idempotentAt_iff_of_delegatesTo libs options x _ hd⟩
  · intro hctx
    refine ⟨?_, ?_, ?_, ?_⟩
    · intro hs
      have hd : DelegatesTo libs options libs.domPurify := by
        intro config now st y
        apply sanitizeInput_policy_string libs config now st y _ options hthrow hctx
        unfold applyPolicy
        rw [hs]
        rfl
      exact ⟨hd, idempotentAt_iff_of_delegatesTo libs options x _ hd⟩
    · intro hs
      have hd : DelegatesTo libs options
          (fun y => libs.sanitizeHtml y (strictConfig options)) := by
        intro config now st y
        apply sanitizeInput_policy_string libs config now st y _ options hthrow hctx
        unfold applyPolicy
        rw [hs]
        rfl
      exact ⟨hd, idempotentAt_iff_of_delegatesTo libs options x _ hd⟩
    · intro hs htr
      have hd : DelegatesTo libs options
          (fun y => libs.sanitizeHtml y (customConfig options)) := by
        intro config now st y
        apply sanitizeInput_policy_string libs config now st y _ options hthrow hctx
        unfold applyPolicy
        rw [hs]
        simp only [customSanitize, htr, sanitizeWithOptions, customConfig]
      exact ⟨hd, idempotentAt_iff_of_delegatesTo libs options x _ hd⟩
    · intro hs
      refine ⟨?_, ?_⟩
      · intro hnone
        have hd : DelegatesTo libs options
            (fun y => libs.sanitizeHtml y htmlContextConfig) := by
          intro config now st y
          apply sanitizeInput_policy_string libs config now st y _ options hthrow hctx
          unfold applyPolicy
          rw [hs]
          rcases hnone with h | h
          · simp only [contextAwareSanitize, h]
            rfl
          · simp only [contextAwareSanitize, h, ↓reduceIte]
            rfl
        exact ⟨hd, idempotentAt_iff_of_delegatesTo libs options x _ hd⟩
      · intro c hc hne
        have hd : DelegatesTo libs options (fun y => Re.removeAll tagRe y) := by
          intro config now st y
          apply sanitizeInput_policy_string libs config now st y _ options hthrow hctx
          unfold applyPolicy
          rw [hs]
          simp only [contextAwareSanitize, hc, if_neg hne]
          rw [encodeFor_unrecognized libs c y (hctx c hc)]
        refine ⟨hd, (idempotentAt_iff_of_delegatesTo libs options x _ hd).mpr ?_⟩
        have ht := text_idempotent libs x
        rw [encodeFor_text] at ht
        injection ht

theorem sanitizeInput_idempotent_witness :
    (∃ out,
      (sanitizeInput Libs.passThrough LoggerConfig.default "2025-01-01T00:00:00.000Z"
        DetectorState.initial (.string (js "a onclick=\"x\""))
        { context := some "attribute" }).result = .ok (.string out) ∧
      (sanitizeInput Libs.passThrough LoggerConfig.default "2025-01-01T00:00:01.000Z"
        DetectorState.initial (.string out) { context := some "attribute" }).result =
        .ok (.string out)) ∧
    (sanitizeInput Libs.passThrough LoggerConfig.default "2025-01-01T00:00:00.000Z"
      DetectorState.initial (.string (js "a onclick=\"x\""))
      { context := some "attribute" }).result = .ok (.string (js "a =x")) ∧
    (IdempotentAt Libs.passThrough { policy := some "strict" } (js "<b>a</b>") ↔
      Libs.passThrough.sanitizeHtml
          (Libs.passThrough.sanitizeHtml (js "<b>a</b>")
            (strictConfig { policy := some "strict" }))
          (strictConfig { policy := some "strict" }) =
        Libs.passThrough.sanitizeHtml (js "<b>a</b>")
          (strictConfig { policy := some "strict" })) :=
  ⟨(sanitizeInput_idempotent Libs.passThrough { context := some "attribute" }
      (js "a onclick=\"x\"") (by simp)).1 "attribute" rfl (by decide)
      LoggerConfig.default LoggerConfig.default "2025-01-01T00:00:00.000Z"
      "2025-01-01T00:00:01.000Z" DetectorState.initial DetectorState.initial,
    rfl,
    ((sanitizeInput_idempotent Libs.passThrough { policy := some "strict" }
      (js "<b>a</b>") (by simp)).2.2 (fun c hc => by simp at hc)).2.1 (by decide) |>.2⟩

end XssLib
